import Mathlib

/-!
# StructureRecognizer: the TGA decoder of `tgaMagic.c`

A shallow embedding of the Targa reader (`GetTextureInfo`, the six scanline
decoders, the six run-length decoders and `ReadTGAFile`) together with the
properties proved about it.

Conventions of the embedding

* A byte of a file is a `Fin 256`, a byte in memory a `Nat` below 256, a C
  `int` or `short` an `Int`.
* A `FILE *` is the list of the bytes of the file and a read position.
* `texinfo->texels` is the memory that starts at that pointer: a map from a
  byte offset to `some v` once `v` has been stored there and to `none` before.
  The map has no upper bound, so a store past the end of the allocation is
  visible as a cell at an offset at or beyond the allocated size.
* Storage that C reads before writing it (the record returned by `malloc`, the
  local `header` after a short `fread`, the local arrays `rgb` and `rgba`,
  the bytes of the colormap block that `fread` did not fill) has arbitrary
  contents: they are supplied by a `Machine`.
* `size_t` has 64 bits, `int` has 32 bits and the host is little-endian.
* An expression of type `int` whose value is outside the range of `int` has no
  defined behaviour in C; a call that evaluates one ends with the fault
  `int_overflow`. So does an access through a null pointer, with its own fault.
* `malloc` can refuse a request: the `Machine` says which sizes it grants.
-/

namespace TGA

/-! ## stdio -/

/-- A stream opened for reading: the bytes of the file and the position. -/
structure FILE where
  data : List (Fin 256)
  pos : Nat
deriving DecidableEq, Repr

/-- The constant `EOF` of stdio. -/
def EOF : Int := -1

/-- The function `fgetc`: the next byte as an `int` and the stream one byte further, or
`EOF` and the stream where it was. -/
def fgetc (fp : FILE) : Int × FILE :=
  match fp.data[fp.pos]? with
  | some b => ((b.val : Int), { fp with pos := fp.pos + 1 })
  | none => (EOF, fp)

/-- The function `fread` with element size 1 (or one element of `n` bytes): the bytes
obtained, at most `n` and fewer at the end of the file, and the stream behind them. -/
def fread (n : Nat) (fp : FILE) : List Nat × FILE :=
  let got := ((fp.data.drop fp.pos).take n).map (fun b => b.val)
  (got, { fp with pos := fp.pos + got.length })

/-- The function `fseek` with `SEEK_CUR` and a non-negative offset. -/
def fseek (fp : FILE) (offset : Nat) : FILE :=
  { fp with pos := fp.pos + offset }

/-- A block of memory after `fread` stored `got` at its start: the bytes beyond
what was read keep the contents `old` they had. -/
def overlay (got : List Nat) (old : Nat → Nat) : Nat → Nat :=
  fun i => got.getD i (old i % 256)

/-! ## C integer conversions -/

/-- The conversion `(GLubyte) x` of an `int`. -/
def GLubyte (x : Int) : Nat := (x % 256).toNat

/-- The conversion of an `int` to `unsigned short`. -/
def ushort (x : Int) : Nat := (x % 65536).toNat

/-- The `short` stored in two bytes, low byte first. -/
def short (lo hi : Nat) : Int :=
  if lo + 256 * hi < 32768 then ((lo + 256 * hi : Nat) : Int)
  else ((lo + 256 * hi : Nat) : Int) - 65536

/-- The conversion of an `int` to `size_t`. -/
def size_t (x : Int) : Nat := (x % 2 ^ 64).toNat

/-! ## Faults and the range of `int` -/

/-- The ways in which a call does not return normally. -/
inductive Fault where
  /-- An access through the null colormap pointer: a read by an indexed decoder,
  or a store by `fread`. -/
  | null_colormap
  /-- A `while` loop that was cut by its fuel. -/
  | out_of_fuel
  /-- An `int` expression whose value is outside the range of `int`: the behaviour
  of C is undefined there. -/
  | int_overflow
deriving DecidableEq, Repr

/-- The constant `INT_MAX` of `limits.h`, an `int` having 32 bits. -/
def INT_MAX : Int := 2147483647

/-- The constant `INT_MIN` of `limits.h`, an `int` having 32 bits. -/
def INT_MIN : Int := -2147483648

/-- The value of an expression of type `int` whose mathematical value is `x`: `x`
itself within the range of `int`, and a fault beyond it, where the arithmetic
of C overflows. -/
def int (x : Int) : Except Fault Int :=
  if INT_MIN ≤ x ∧ x ≤ INT_MAX then .ok x else .error Fault.int_overflow

/-! ## OpenGL constants (from `GL/gl.h`, which is not part of the repository) -/

/-- Modelled from the spec: the luminance layout, with the value `GL/gl.h` gives it. -/
def GL_LUMINANCE : Nat := 0x1909

/-- Modelled from the spec: the luminance+alpha layout, with the value `GL/gl.h` gives it. -/
def GL_LUMINANCE_ALPHA : Nat := 0x190A

/-- Modelled from the spec: the RGB layout, with the value `GL/gl.h` gives it. -/
def GL_RGB : Nat := 0x1907

/-- Modelled from the spec: the RGBA layout, with the value `GL/gl.h` gives it. -/
def GL_RGBA : Nat := 0x1908

/-! ## The records of `tgaMagic.h` -/

/-- The record `gl_texture_t`. The field `texels` is the memory at that pointer.
The fields `width` and `height` are `GLsizei`, an `int`; `GetTextureInfo` sets them
from the `short`s of the header, so that their product is within the range of
`int` in every record that `ReadTGAFile` passes on. -/
structure gl_texture_t where
  width : Int
  height : Int
  format : Nat
  internalFormat : Int
  id : Nat
  texels : Nat → Option Nat

/-- The record `tga_header_t`, packed: 18 bytes. -/
structure tga_header_t where
  id_length : Nat
  colormap_type : Nat
  image_type : Nat
  cm_first_entry : Int
  cm_length : Int
  cm_size : Nat
  x_origin : Int
  y_origin : Int
  width : Int
  height : Int
  pixel_depth : Nat
  image_descriptor : Nat
deriving DecidableEq, Repr

/-- The packed header record that occupies the 18 bytes `b 0 .. b 17`. -/
def tga_header_t.ofBytes (b : Nat → Nat) : tga_header_t :=
  { id_length := b 0
    colormap_type := b 1
    image_type := b 2
    cm_first_entry := short (b 3) (b 4)
    cm_length := short (b 5) (b 6)
    cm_size := b 7
    x_origin := short (b 8) (b 9)
    y_origin := short (b 10) (b 11)
    width := short (b 12) (b 13)
    height := short (b 14) (b 15)
    pixel_depth := b 16
    image_descriptor := b 17 }

/-- The assignment `texinfo->texels[off] = v`. -/
def gl_texture_t.store (t : gl_texture_t) (off : Nat) (v : Nat) : gl_texture_t :=
  { t with texels := fun o => if o = off then some v else t.texels o }

/-- The first `n` cells of the texel memory. -/
def gl_texture_t.buffer (t : gl_texture_t) (n : Nat) : List (Option Nat) :=
  (List.range n).map t.texels

/-! ## `GetTextureInfo` -/

/-- The function `GetTextureInfo` (tgaMagic.c 8-44). The record `texinfo` comes in
with the contents it had and leaves with the fields the function assigned. -/
def GetTextureInfo (header : tga_header_t) (texinfo : gl_texture_t) : gl_texture_t :=
  let texinfo := { texinfo with width := header.width, height := header.height }
  if header.image_type = 3 ∨ header.image_type = 11 then
    if header.pixel_depth = 8 then
      { texinfo with format := GL_LUMINANCE, internalFormat := 1 }
    else
      { texinfo with format := GL_LUMINANCE_ALPHA, internalFormat := 2 }
  else if header.image_type = 1 ∨ header.image_type = 2 ∨ header.image_type = 9
      ∨ header.image_type = 10 then
    if header.pixel_depth ≤ 24 then
      { texinfo with format := GL_RGB, internalFormat := 3 }
    else
      { texinfo with format := GL_RGBA, internalFormat := 4 }
  else
    texinfo

/-! ## Loops -/

/-- The loop `for (i = 0; i < n; ++i) body`. -/
def forLoop {σ : Type} (n : Nat) (body : Nat → σ → σ) (s : σ) : σ :=
  (List.range n).foldl (fun s i => body i s) s

/-- The loop `for (i = 0; i < n; ++i) body` with a body that can fault: the loop
ends at the first fault. -/
def forLoopE {σ : Type} : Nat → (Nat → σ → Except Fault σ) → σ → Except Fault σ
  | 0, _, s => .ok s
  | n + 1, body, s => (forLoopE n body s).bind (body n)

/-- The loop `while (cond) body`, cut after `fuel + 1` tests of the condition:
`none` when the condition still holds then. -/
def whileLoop {σ : Type} (fuel : Nat) (cond : σ → Bool) (body : σ → σ) (s : σ) : Option σ :=
  match fuel with
  | 0 => if cond s then none else some s
  | fuel + 1 => if cond s then whileLoop fuel cond body (body s) else some s

/-- The state of a decoder: the stream, the texture record, the write cursor
`ptr` as an offset from `texinfo->texels`, and the local pixel array
(`rgb`, `rgba`) of the decoders that have one. -/
structure Decoder where
  fp : FILE
  texinfo : gl_texture_t
  ptr : Nat
  rgb : Nat → Nat

/-- The 16-bit colour word `fgetc(fp) + (fgetc(fp) << 8)` as an `unsigned short`. C
does not fix which of the two calls is made first; they are taken in the order
of the text, the left operand first, so that the byte read first is the low
byte of the word. -/
def readColor16 (fp : FILE) : Nat × FILE :=
  let a := fgetc fp
  let b := fgetc a.2
  (ushort (a.1 + b.1 * 256), b.2)

/-- The red byte `(GLubyte) (((color & 0x7C00) >> 10) << 3)`. -/
def red16 (color : Nat) : Nat := (((color &&& 0x7C00) >>> 10) <<< 3) % 256

/-- The green byte `(GLubyte) (((color & 0x03E0) >> 5) << 3)`. -/
def green16 (color : Nat) : Nat := (((color &&& 0x03E0) >>> 5) <<< 3) % 256

/-- The blue byte `(GLubyte) (((color & 0x001F) >> 0) << 3)`. -/
def blue16 (color : Nat) : Nat := (((color &&& 0x001F) >>> 0) <<< 3) % 256

/-! ## Scanline decoders (uncompressed) -/

/-- The function `ReadTGA8bits` (tgaMagic.c 46-59). The colormap pointer is `none` when
null, and the memory at the pointer otherwise; with a null pointer the first
pixel faults. The loop variable `i` is an `int`, and so are the texel indices
`(i * 3) + 0`, `(i * 3) + 1`, `(i * 3) + 2`: a turn whose largest index is beyond
`INT_MAX` overflows. -/
def ReadTGA8bits (fp : FILE) (colormap : Option (Nat → Nat)) (texinfo : gl_texture_t) :
    Except Fault (FILE × gl_texture_t) :=
  match colormap with
  | none =>
    if 0 < texinfo.width * texinfo.height then .error Fault.null_colormap
    else .ok (fp, texinfo)
  | some colormap =>
    forLoopE (texinfo.width * texinfo.height).toNat
      (fun i s =>
        if (i : Int) * 3 + 2 ≤ INT_MAX then
          let c := fgetc s.1
          let color := GLubyte c.1
          .ok (c.2, ((s.2.store (i * 3 + 2) (colormap (color * 3 + 0))).store
            (i * 3 + 1) (colormap (color * 3 + 1))).store
            (i * 3 + 0) (colormap (color * 3 + 2)))
        else .error Fault.int_overflow)
      (fp, texinfo)

/-- The function `ReadTGA16bits` (tgaMagic.c 61-73). The texel indices `(i * 3) + 0`,
`(i * 3) + 1`, `(i * 3) + 2` are `int`s: a turn whose largest index is beyond
`INT_MAX` overflows. -/
def ReadTGA16bits (fp : FILE) (texinfo : gl_texture_t) : Except Fault (FILE × gl_texture_t) :=
  forLoopE (texinfo.width * texinfo.height).toNat
    (fun i s =>
      if (i : Int) * 3 + 2 ≤ INT_MAX then
        let color := readColor16 s.1
        .ok (color.2, ((s.2.store (i * 3 + 0) (red16 color.1)).store
          (i * 3 + 1) (green16 color.1)).store
          (i * 3 + 2) (blue16 color.1))
      else .error Fault.int_overflow)
    (fp, texinfo)

/-- The function `ReadTGA24bits` (tgaMagic.c 75-83). The texel indices `(i * 3) + 2`,
`(i * 3) + 1`, `(i * 3) + 0` are `int`s: a turn whose largest index is beyond
`INT_MAX` overflows. -/
def ReadTGA24bits (fp : FILE) (texinfo : gl_texture_t) : Except Fault (FILE × gl_texture_t) :=
  forLoopE (texinfo.width * texinfo.height).toNat
    (fun i s =>
      if (i : Int) * 3 + 2 ≤ INT_MAX then
        let c2 := fgetc s.1
        let c1 := fgetc c2.2
        let c0 := fgetc c1.2
        .ok (c0.2, ((s.2.store (i * 3 + 2) (GLubyte c2.1)).store
          (i * 3 + 1) (GLubyte c1.1)).store
          (i * 3 + 0) (GLubyte c0.1))
      else .error Fault.int_overflow)
    (fp, texinfo)

/-- The function `ReadTGA32bits` (tgaMagic.c 85-94). The texel indices `(i * 4) + 2`,
`(i * 4) + 1`, `(i * 4) + 0`, `(i * 4) + 3` are `int`s: a turn whose largest index
is beyond `INT_MAX` overflows. -/
def ReadTGA32bits (fp : FILE) (texinfo : gl_texture_t) : Except Fault (FILE × gl_texture_t) :=
  forLoopE (texinfo.width * texinfo.height).toNat
    (fun i s =>
      if (i : Int) * 4 + 3 ≤ INT_MAX then
        let c2 := fgetc s.1
        let c1 := fgetc c2.2
        let c0 := fgetc c1.2
        let c3 := fgetc c0.2
        .ok (c3.2, (((s.2.store (i * 4 + 2) (GLubyte c2.1)).store
          (i * 4 + 1) (GLubyte c1.1)).store
          (i * 4 + 0) (GLubyte c0.1)).store
          (i * 4 + 3) (GLubyte c3.1))
      else .error Fault.int_overflow)
    (fp, texinfo)

/-- The function `ReadTGAgray8bits` (tgaMagic.c 96-103). The index is `i` itself, below
the product of the two dimensions. -/
def ReadTGAgray8bits (fp : FILE) (texinfo : gl_texture_t) : FILE × gl_texture_t :=
  forLoop (texinfo.width * texinfo.height).toNat
    (fun i s =>
      let c := fgetc s.1
      (c.2, s.2.store i (GLubyte c.1)))
    (fp, texinfo)

/-- The function `ReadTGAgray16bits` (tgaMagic.c 105-113). The largest index `(i * 2) + 1`
is below twice the product of the two dimensions, which are `short`s in a
header: it is at most `INT_MAX`. -/
def ReadTGAgray16bits (fp : FILE) (texinfo : gl_texture_t) : FILE × gl_texture_t :=
  forLoop (texinfo.width * texinfo.height).toNat
    (fun i s =>
      let c0 := fgetc s.1
      let c1 := fgetc c0.2
      (c1.2, (s.2.store (i * 2 + 0) (GLubyte c0.1)).store (i * 2 + 1) (GLubyte c1.1)))
    (fp, texinfo)

/-! ## Run-length decoders -/

/-- The stores `ptr[0] = a; ptr[1] = b; ptr[2] = c` followed by `ptr += 3`. -/
def Decoder.put3 (s : Decoder) (a b c : Nat) : Decoder :=
  { s with
    texinfo := ((s.texinfo.store (s.ptr + 0) a).store (s.ptr + 1) b).store (s.ptr + 2) c
    ptr := s.ptr + 3 }

/-- The result of a run-length decoder from the result of its `while` loop. -/
def finish (r : Option Decoder) : Except Fault (FILE × gl_texture_t) :=
  match r with
  | some s => .ok (s.fp, s.texinfo)
  | none => .error Fault.out_of_fuel

/-- The state in which a run-length decoder enters its loop: `ptr = texinfo->texels`. -/
def start (rgb : Nat → Nat) (fp : FILE) (texinfo : gl_texture_t) : Decoder :=
  { fp := fp, texinfo := texinfo, ptr := 0, rgb := rgb }

/-- The offset `(texinfo->width * texinfo->height) * k` in the condition of the `while`
loops, a product in `int`: a fault when it overflows. -/
def bound (texinfo : gl_texture_t) (k : Int) : Except Fault Int :=
  int ((texinfo.width * texinfo.height) * k)

/-- The loop condition `ptr < texinfo->texels + n`, for the `int` value `n` of the
offset. -/
def inside (n : Int) (s : Decoder) : Bool :=
  decide ((s.ptr : Int) < n)

/-- One turn of the `while` loop of `ReadTGA8bitsRLE` (tgaMagic.c 122-144). -/
def ReadTGA8bitsRLE.packet (colormap : Nat → Nat) (s : Decoder) : Decoder :=
  let c := fgetc s.fp
  let packet_header := GLubyte c.1
  let size := 1 + (packet_header &&& 0x7f)
  if packet_header &&& 0x80 ≠ 0 then
    let d := fgetc c.2
    let color := GLubyte d.1
    forLoop size
      (fun _ s => s.put3 (colormap (color * 3 + 2)) (colormap (color * 3 + 1))
        (colormap (color * 3 + 0)))
      { s with fp := d.2 }
  else
    forLoop size
      (fun _ s =>
        let d := fgetc s.fp
        let color := GLubyte d.1
        { s with fp := d.2 }.put3 (colormap (color * 3 + 2)) (colormap (color * 3 + 1))
          (colormap (color * 3 + 0)))
      { s with fp := c.2 }

/-- The function `ReadTGA8bitsRLE` (tgaMagic.c 115-146). The offset in the loop condition
is computed when the condition is first tested. Every packet moves `ptr` by at
least one pixel, so `width * height` turns are enough fuel. With a null colormap
pointer the first packet faults, when the condition lets the loop start. -/
def ReadTGA8bitsRLE (fp : FILE) (colormap : Option (Nat → Nat)) (texinfo : gl_texture_t) :
    Except Fault (FILE × gl_texture_t) :=
  match colormap with
  | none =>
    (bound texinfo 3).bind fun n =>
      if 0 < n then .error Fault.null_colormap else .ok (fp, texinfo)
  | some colormap =>
    (bound texinfo 3).bind fun n =>
      finish (whileLoop (texinfo.width * texinfo.height).toNat (inside n)
        (ReadTGA8bitsRLE.packet colormap) (start (fun _ => 0) fp texinfo))

/-- One turn of the `while` loop of `ReadTGA16bitsRLE` (tgaMagic.c 155-177). -/
def ReadTGA16bitsRLE.packet (s : Decoder) : Decoder :=
  let c := fgetc s.fp
  let packet_header := GLubyte c.1
  let size := 1 + (packet_header &&& 0x7f)
  if packet_header &&& 0x80 ≠ 0 then
    let color := readColor16 c.2
    forLoop size
      (fun _ s => s.put3 (red16 color.1) (green16 color.1) (blue16 color.1))
      { s with fp := color.2 }
  else
    forLoop size
      (fun _ s =>
        let color := readColor16 s.fp
        { s with fp := color.2 }.put3 (red16 color.1) (green16 color.1) (blue16 color.1))
      { s with fp := c.2 }

/-- The function `ReadTGA16bitsRLE` (tgaMagic.c 148-179). -/
def ReadTGA16bitsRLE (fp : FILE) (texinfo : gl_texture_t) :
    Except Fault (FILE × gl_texture_t) :=
  (bound texinfo 3).bind fun n =>
    finish (whileLoop (texinfo.width * texinfo.height).toNat (inside n)
      ReadTGA16bitsRLE.packet (start (fun _ => 0) fp texinfo))

/-- One turn of the `while` loop of `ReadTGA24bitsRLE` (tgaMagic.c 188-208). The run
branch fills `rgb` with `fread`, which stores fewer than 3 bytes at the end
of the file; the raw branch reads with `fgetc`. -/
def ReadTGA24bitsRLE.packet (s : Decoder) : Decoder :=
  let c := fgetc s.fp
  let packet_header := GLubyte c.1
  let size := 1 + (packet_header &&& 0x7f)
  if packet_header &&& 0x80 ≠ 0 then
    let r := fread 3 c.2
    let rgb := overlay r.1 s.rgb
    forLoop size
      (fun _ s => s.put3 (rgb 2) (rgb 1) (rgb 0))
      { s with fp := r.2, rgb := rgb }
  else
    forLoop size
      (fun _ s =>
        let c2 := fgetc s.fp
        let c1 := fgetc c2.2
        let c0 := fgetc c1.2
        { s with fp := c0.2 }.put3 (GLubyte c0.1) (GLubyte c1.1) (GLubyte c2.1))
      { s with fp := c.2 }

/-- The function `ReadTGA24bitsRLE` (tgaMagic.c 181-210); `rgb` holds what the local array
of that name holds on entry. -/
def ReadTGA24bitsRLE (rgb : Nat → Nat) (fp : FILE) (texinfo : gl_texture_t) :
    Except Fault (FILE × gl_texture_t) :=
  (bound texinfo 3).bind fun n =>
    finish (whileLoop (texinfo.width * texinfo.height).toNat (inside n)
      ReadTGA24bitsRLE.packet (start rgb fp texinfo))

/-- The stores `ptr[0] = a; ptr[1] = b; ptr[2] = c; ptr[3] = d` followed by `ptr += 4`. -/
def Decoder.put4 (s : Decoder) (a b c d : Nat) : Decoder :=
  { s with
    texinfo := (((s.texinfo.store (s.ptr + 0) a).store (s.ptr + 1) b).store
      (s.ptr + 2) c).store (s.ptr + 3) d
    ptr := s.ptr + 4 }

/-- The stores `ptr[0] = a; ptr[1] = b` followed by `ptr += 2`. -/
def Decoder.put2 (s : Decoder) (a b : Nat) : Decoder :=
  { s with
    texinfo := (s.texinfo.store (s.ptr + 0) a).store (s.ptr + 1) b
    ptr := s.ptr + 2 }

/-- The store `*ptr = a` followed by `ptr++`. -/
def Decoder.put1 (s : Decoder) (a : Nat) : Decoder :=
  { s with texinfo := s.texinfo.store s.ptr a, ptr := s.ptr + 1 }

/-- One turn of the `while` loop of `ReadTGA32bitsRLE` (tgaMagic.c 219-241). -/
def ReadTGA32bitsRLE.packet (s : Decoder) : Decoder :=
  let c := fgetc s.fp
  let packet_header := GLubyte c.1
  let size := 1 + (packet_header &&& 0x7f)
  if packet_header &&& 0x80 ≠ 0 then
    let r := fread 4 c.2
    let rgba := overlay r.1 s.rgb
    forLoop size
      (fun _ s => s.put4 (rgba 2) (rgba 1) (rgba 0) (rgba 3))
      { s with fp := r.2, rgb := rgba }
  else
    forLoop size
      (fun _ s =>
        let c2 := fgetc s.fp
        let c1 := fgetc c2.2
        let c0 := fgetc c1.2
        let c3 := fgetc c0.2
        { s with fp := c3.2 }.put4 (GLubyte c0.1) (GLubyte c1.1) (GLubyte c2.1)
          (GLubyte c3.1))
      { s with fp := c.2 }

/-- The function `ReadTGA32bitsRLE` (tgaMagic.c 212-243); `rgba` holds what the local
array of that name holds on entry. -/
def ReadTGA32bitsRLE (rgba : Nat → Nat) (fp : FILE) (texinfo : gl_texture_t) :
    Except Fault (FILE × gl_texture_t) :=
  (bound texinfo 4).bind fun n =>
    finish (whileLoop (texinfo.width * texinfo.height).toNat (inside n)
      ReadTGA32bitsRLE.packet (start rgba fp texinfo))

/-- One turn of the `while` loop of `ReadTGAgray8bitsRLE` (tgaMagic.c 252-266). -/
def ReadTGAgray8bitsRLE.packet (s : Decoder) : Decoder :=
  let c := fgetc s.fp
  let packet_header := GLubyte c.1
  let size := 1 + (packet_header &&& 0x7f)
  if packet_header &&& 0x80 ≠ 0 then
    let d := fgetc c.2
    let color := GLubyte d.1
    forLoop size (fun _ s => s.put1 color) { s with fp := d.2 }
  else
    forLoop size
      (fun _ s =>
        let d := fgetc s.fp
        { s with fp := d.2 }.put1 (GLubyte d.1))
      { s with fp := c.2 }

/-- The function `ReadTGAgray8bitsRLE` (tgaMagic.c 245-268). The offset in its loop condition
is the product of the two dimensions, with no further factor. -/
def ReadTGAgray8bitsRLE (fp : FILE) (texinfo : gl_texture_t) :
    Except Fault (FILE × gl_texture_t) :=
  finish (whileLoop (texinfo.width * texinfo.height).toNat
    (inside (texinfo.width * texinfo.height))
    ReadTGAgray8bitsRLE.packet (start (fun _ => 0) fp texinfo))

/-- One turn of the `while` loop of `ReadTGAgray16bitsRLE` (tgaMagic.c 277-296). -/
def ReadTGAgray16bitsRLE.packet (s : Decoder) : Decoder :=
  let c := fgetc s.fp
  let packet_header := GLubyte c.1
  let size := 1 + (packet_header &&& 0x7f)
  if packet_header &&& 0x80 ≠ 0 then
    let d := fgetc c.2
    let color := GLubyte d.1
    let e := fgetc d.2
    let alpha := GLubyte e.1
    forLoop size (fun _ s => s.put2 color alpha) { s with fp := e.2 }
  else
    forLoop size
      (fun _ s =>
        let d := fgetc s.fp
        let e := fgetc d.2
        { s with fp := e.2 }.put2 (GLubyte d.1) (GLubyte e.1))
      { s with fp := c.2 }

/-- The function `ReadTGAgray16bitsRLE` (tgaMagic.c 270-298). -/
def ReadTGAgray16bitsRLE (fp : FILE) (texinfo : gl_texture_t) :
    Except Fault (FILE × gl_texture_t) :=
  (bound texinfo 2).bind fun n =>
    finish (whileLoop (texinfo.width * texinfo.height).toNat (inside n)
      ReadTGAgray16bitsRLE.packet (start (fun _ => 0) fp texinfo))

/-! ## `ReadTGAFile` -/

/-- What the surroundings of a call of `ReadTGAFile` decide: which requests for
the texel buffer and for the colormap block `malloc` grants, and the contents
of the storage that is read before it is written. The small record
`gl_texture_t` is taken to be granted always. -/
structure Machine where
  /-- Whether `malloc` of that many bytes, for the texels or for the colormap,
  returns a block. -/
  malloc : Nat → Bool
  /-- The bytes of the local `header` before `fread`. -/
  header : Nat → Nat
  /-- The record that `malloc (sizeof (gl_texture_t))` returns. -/
  texinfo : gl_texture_t
  /-- The bytes of the local arrays `rgb` and `rgba` on entry of a decoder. -/
  rgb : Nat → Nat
  /-- The bytes at and behind the colormap block before `fread`. -/
  colormap : Nat → Nat

/-- The lines that `ReadTGAFile` prints on `stderr`. -/
inductive Diagnostic where
  /-- The line `error: couldn't open "..."!`. -/
  | couldnt_open
  /-- The line `error: unknown TGA image type ...!`. -/
  | unknown_image_type (image_type : Nat)
deriving DecidableEq, Repr

/-- What a call of `ReadTGAFile` leaves: the pointer it returns (`none` for `NULL`)
and what it printed on `stderr`. -/
structure Returned where
  texinfo : Option gl_texture_t
  stderr : List Diagnostic

/-- A decoder that ran to its end hands the record back to `ReadTGAFile`. -/
def decoded (r : FILE × gl_texture_t) : FILE × Returned :=
  (r.1, { texinfo := some r.2, stderr := [] })

/-- The `switch (header.image_type)` of `ReadTGAFile` (tgaMagic.c 336-413), with the
stream as it is when the `switch` is left. -/
def readImageData (rgb : Nat → Nat) (header : tga_header_t) (fp : FILE)
    (colormap : Option (Nat → Nat)) (texinfo : gl_texture_t) : Except Fault (FILE × Returned) :=
  if header.image_type = 0 then
    .ok (decoded (fp, texinfo))
  else if header.image_type = 1 then
    (ReadTGA8bits fp colormap texinfo).map decoded
  else if header.image_type = 2 then
    if header.pixel_depth = 16 then (ReadTGA16bits fp texinfo).map decoded
    else if header.pixel_depth = 24 then (ReadTGA24bits fp texinfo).map decoded
    else if header.pixel_depth = 32 then (ReadTGA32bits fp texinfo).map decoded
    else .ok (decoded (fp, texinfo))
  else if header.image_type = 3 then
    if header.pixel_depth = 8 then .ok (decoded (ReadTGAgray8bits fp texinfo))
    else .ok (decoded (ReadTGAgray16bits fp texinfo))
  else if header.image_type = 9 then
    (ReadTGA8bitsRLE fp colormap texinfo).map decoded
  else if header.image_type = 10 then
    if header.pixel_depth = 16 then (ReadTGA16bitsRLE fp texinfo).map decoded
    else if header.pixel_depth = 24 then (ReadTGA24bitsRLE rgb fp texinfo).map decoded
    else if header.pixel_depth = 32 then (ReadTGA32bitsRLE rgb fp texinfo).map decoded
    else .ok (decoded (fp, texinfo))
  else if header.image_type = 11 then
    if header.pixel_depth = 8 then (ReadTGAgray8bitsRLE fp texinfo).map decoded
    else (ReadTGAgray16bitsRLE fp texinfo).map decoded
  else
    .ok (fp, { texinfo := none, stderr := [Diagnostic.unknown_image_type header.image_type] })

/-- The header that `fread (&header, sizeof (tga_header_t), 1, fp)` leaves in the
local `header`: the bytes of the file, and behind a short file what that
local held (the C library stores the bytes it could read and leaves the rest
of the block alone). -/
def readHeader (m : Machine) (fp : FILE) : tga_header_t × FILE :=
  let r := fread 18 fp
  (tga_header_t.ofBytes (overlay r.1 m.header), r.2)

/-- The size `sizeof (GLubyte) * width * height * internalFormat` passed to `malloc`,
a product in `size_t`. -/
def texelBytes (texinfo : gl_texture_t) : Nat :=
  size_t (1 * texinfo.width * texinfo.height * texinfo.internalFormat)

/-- The size `sizeof (GLubyte) * header.cm_length * (header.cm_size >> 3)` of the colormap
block, a product in `size_t`. -/
def colormapBytes (header : tga_header_t) : Nat :=
  size_t (1 * header.cm_length * ((header.cm_size >>> 3 : Nat) : Int))

/-- The colormap pointer and the stream after the statement
`if (header.colormap_type) { colormap = malloc (n); fread (colormap, sizeof (GLubyte), n, fp); }`
(tgaMagic.c 327-334). The result of `malloc` is not tested: when the request is
refused the pointer is null, and `fread` faults as soon as it has a byte of the
file to store through it; with no byte to store the pointer stays null. -/
def readColormap (m : Machine) (header : tga_header_t) (fp : FILE) :
    Except Fault (Option (Nat → Nat) × FILE) :=
  if header.colormap_type ≠ 0 then
    let r := fread (colormapBytes header) fp
    if m.malloc (colormapBytes header) then .ok (some (overlay r.1 m.colormap), r.2)
    else if r.1 = [] then .ok (none, r.2)
    else .error Fault.null_colormap
  else
    .ok (none, fp)

/-- The function `ReadTGAFile` (tgaMagic.c 300-421) up to `fclose`: the stream as it is
before it is closed and what the function returns. The file is `none` when
`fopen` fails. -/
def ReadTGAFile.run (m : Machine) (file : Option (List (Fin 256))) :
    Except Fault (Option FILE × Returned) :=
  match file with
  | none => .ok (none, { texinfo := none, stderr := [Diagnostic.couldnt_open] })
  | some bytes =>
    let h := readHeader m { data := bytes, pos := 0 }
    let header := h.1
    let texinfo := GetTextureInfo header m.texinfo
    let fp := fseek h.2 header.id_length
    if m.malloc (texelBytes texinfo) then
      let texinfo := { texinfo with texels := fun _ => none }
      (readColormap m header fp).bind fun cm =>
        (readImageData m.rgb header cm.2 cm.1 texinfo).map (fun r => (some r.1, r.2))
    else
      .ok (some fp, { texinfo := none, stderr := [] })

/-- The function `ReadTGAFile` (tgaMagic.c 300-421). -/
def ReadTGAFile (m : Machine) (file : Option (List (Fin 256))) : Except Fault Returned :=
  (ReadTGAFile.run m file).map (fun r => r.2)

/-! ## Vocabulary of the statements -/

/-- The texel memory after `bytes` were stored at the offsets `off`, `off + 1`, ... -/
def blit (t : gl_texture_t) (off : Nat) (bytes : List Nat) : gl_texture_t :=
  { t with
    texels := fun o =>
      if off ≤ o ∧ o < off + bytes.length then some (bytes.getD (o - off) 0) else t.texels o }

/-- Reading `n` pixels one after the other with `rd`: the destination bytes they
give, in order, and the stream behind them. -/
def pixelLoop (rd : FILE → List Nat × FILE) : Nat → FILE → List Nat × FILE
  | 0, fp => ([], fp)
  | n + 1, fp =>
    let a := pixelLoop rd n fp
    let r := rd a.2
    (a.1 ++ r.1, r.2)

/-- The six pixel encodings: colour mode and depth. -/
inductive Mode where
  | indexed8
  | true16
  | true24
  | true32
  | gray8
  | gray16
deriving DecidableEq, Repr

/-- The bytes of one pixel in the stream. -/
def Mode.srcBytes : Mode → Nat
  | .indexed8 => 1
  | .true16 => 2
  | .true24 => 3
  | .true32 => 4
  | .gray8 => 1
  | .gray16 => 2

/-- The bytes of one pixel in the texel buffer, as the decoders of the mode step. -/
def Mode.bpp : Mode → Nat
  | .indexed8 => 3
  | .true16 => 3
  | .true24 => 3
  | .true32 => 4
  | .gray8 => 1
  | .gray16 => 2

/-- The expansion of one source pixel `p` (its bytes in stream order) to its
destination bytes: palette lookup with the entry reversed, the three 5-bit
fields of the little-endian word, blue and red exchanged, or the bytes as they are. -/
def Mode.expand (colormap : Nat → Nat) : Mode → List Nat → List Nat
  | .indexed8, p =>
    [colormap (p.getD 0 0 * 3 + 2), colormap (p.getD 0 0 * 3 + 1), colormap (p.getD 0 0 * 3 + 0)]
  | .true16, p =>
    [red16 (p.getD 0 0 + 256 * p.getD 1 0), green16 (p.getD 0 0 + 256 * p.getD 1 0),
      blue16 (p.getD 0 0 + 256 * p.getD 1 0)]
  | .true24, p => [p.getD 2 0, p.getD 1 0, p.getD 0 0]
  | .true32, p => [p.getD 2 0, p.getD 1 0, p.getD 0 0, p.getD 3 0]
  | .gray8, p => [p.getD 0 0]
  | .gray16, p => [p.getD 0 0, p.getD 1 0]

/-- The turn of the `while` loop of the run-length decoder of a mode. -/
def Mode.packet (colormap : Nat → Nat) : Mode → Decoder → Decoder
  | .indexed8 => ReadTGA8bitsRLE.packet colormap
  | .true16 => ReadTGA16bitsRLE.packet
  | .true24 => ReadTGA24bitsRLE.packet
  | .true32 => ReadTGA32bitsRLE.packet
  | .gray8 => ReadTGAgray8bitsRLE.packet
  | .gray16 => ReadTGAgray16bitsRLE.packet

/-- The run-length decoder of a mode, the colormap pointer not null. -/
def Mode.decodeRLE (colormap : Nat → Nat) (rgb : Nat → Nat) :
    Mode → FILE → gl_texture_t → Except Fault (FILE × gl_texture_t)
  | .indexed8 => fun fp t => ReadTGA8bitsRLE fp (some colormap) t
  | .true16 => ReadTGA16bitsRLE
  | .true24 => ReadTGA24bitsRLE rgb
  | .true32 => ReadTGA32bitsRLE rgb
  | .gray8 => ReadTGAgray8bitsRLE
  | .gray16 => ReadTGAgray16bitsRLE

/-- The scanline decoder of a mode, the colormap pointer not null. -/
def Mode.decode (colormap : Nat → Nat) :
    Mode → FILE → gl_texture_t → Except Fault (FILE × gl_texture_t)
  | .indexed8 => fun fp t => ReadTGA8bits fp (some colormap) t
  | .true16 => ReadTGA16bits
  | .true24 => ReadTGA24bits
  | .true32 => ReadTGA32bits
  | .gray8 => fun fp t => .ok (ReadTGAgray8bits fp t)
  | .gray16 => fun fp t => .ok (ReadTGAgray16bits fp t)

/-- The `k` bytes of the `i`-th pixel of a source `src`. -/
def srcPixel (k : Nat) (src : List Nat) (i : Nat) : List Nat :=
  (src.drop (i * k)).take k

/-- The destination bytes of the first `n` pixels of a source: every pixel
expanded on its own, in stream order. -/
def expandAll (colormap : Nat → Nat) (mode : Mode) (src : List Nat) (n : Nat) : List Nat :=
  (List.range n).flatMap (fun i => mode.expand colormap (srcPixel mode.srcBytes src i))

/-- The bytes of a stream from its position on. -/
def FILE.rest (fp : FILE) : List Nat :=
  (fp.data.drop fp.pos).map (fun b => b.val)

/-- Reading one pixel of a mode the way the scanline decoder and the raw branch
of the run-length decoder do: its destination bytes and the stream behind it. -/
def Mode.read (colormap : Nat → Nat) : Mode → FILE → List Nat × FILE
  | .indexed8, fp =>
    let c := fgetc fp
    let color := GLubyte c.1
    ([colormap (color * 3 + 2), colormap (color * 3 + 1), colormap (color * 3 + 0)], c.2)
  | .true16, fp =>
    let color := readColor16 fp
    ([red16 color.1, green16 color.1, blue16 color.1], color.2)
  | .true24, fp =>
    let c2 := fgetc fp
    let c1 := fgetc c2.2
    let c0 := fgetc c1.2
    ([GLubyte c0.1, GLubyte c1.1, GLubyte c2.1], c0.2)
  | .true32, fp =>
    let c2 := fgetc fp
    let c1 := fgetc c2.2
    let c0 := fgetc c1.2
    let c3 := fgetc c0.2
    ([GLubyte c0.1, GLubyte c1.1, GLubyte c2.1, GLubyte c3.1], c3.2)
  | .gray8, fp =>
    let c := fgetc fp
    ([GLubyte c.1], c.2)
  | .gray16, fp =>
    let c0 := fgetc fp
    let c1 := fgetc c0.2
    ([GLubyte c0.1, GLubyte c1.1], c1.2)

/-- Reading the pixel of a run-length packet: its destination bytes, the stream
behind it and the local array. The 24- and 32-bit decoders fill the local array
with `fread`, the others read as the raw branch does. -/
def Mode.run (colormap : Nat → Nat) (rgb : Nat → Nat) :
    Mode → FILE → List Nat × FILE × (Nat → Nat)
  | .true24, fp =>
    let r := fread 3 fp
    ([overlay r.1 rgb 2, overlay r.1 rgb 1, overlay r.1 rgb 0], r.2, overlay r.1 rgb)
  | .true32, fp =>
    let r := fread 4 fp
    ([overlay r.1 rgb 2, overlay r.1 rgb 1, overlay r.1 rgb 0, overlay r.1 rgb 3], r.2,
      overlay r.1 rgb)
  | .indexed8, fp => ((Mode.read colormap .indexed8 fp).1, (Mode.read colormap .indexed8 fp).2, rgb)
  | .true16, fp => ((Mode.read colormap .true16 fp).1, (Mode.read colormap .true16 fp).2, rgb)
  | .gray8, fp => ((Mode.read colormap .gray8 fp).1, (Mode.read colormap .gray8 fp).2, rgb)
  | .gray16, fp => ((Mode.read colormap .gray16 fp).1, (Mode.read colormap .gray16 fp).2, rgb)

/-- The pixel count `1 + (packet_header & 0x7f)` of a packet. -/
def packetSize (packet_header : Nat) : Nat := 1 + (packet_header &&& 0x7f)

/-- What the loop of a run-length decoder keeps true: the fields of the texture
record other than the texels, every cell below `ptr` stored, every cell from
`ptr` on as it was. -/
def Filled (t : gl_texture_t) (s : Decoder) : Prop :=
  s.texinfo.width = t.width ∧ s.texinfo.height = t.height ∧ s.texinfo.format = t.format ∧
    s.texinfo.internalFormat = t.internalFormat ∧ s.texinfo.id = t.id ∧
    (∀ o, o < s.ptr → (s.texinfo.texels o).isSome = true) ∧
    (∀ o, s.ptr ≤ o → s.texinfo.texels o = t.texels o)

/-- The decoder that the `switch` of `ReadTGAFile` calls for a header: its mode and
whether it is the run-length one; `none` when no decoder is called. -/
def tga_header_t.dispatch (header : tga_header_t) : Option (Mode × Bool) :=
  if header.image_type = 1 then some (Mode.indexed8, false)
  else if header.image_type = 2 then
    if header.pixel_depth = 16 then some (Mode.true16, false)
    else if header.pixel_depth = 24 then some (Mode.true24, false)
    else if header.pixel_depth = 32 then some (Mode.true32, false)
    else none
  else if header.image_type = 3 then
    if header.pixel_depth = 8 then some (Mode.gray8, false) else some (Mode.gray16, false)
  else if header.image_type = 9 then some (Mode.indexed8, true)
  else if header.image_type = 10 then
    if header.pixel_depth = 16 then some (Mode.true16, true)
    else if header.pixel_depth = 24 then some (Mode.true24, true)
    else if header.pixel_depth = 32 then some (Mode.true32, true)
    else none
  else if header.image_type = 11 then
    if header.pixel_depth = 8 then some (Mode.gray8, true) else some (Mode.gray16, true)
  else none

/-- The offsets of a texture record that the decoders of a mode compute in `int`
stay within the range of `int`: the product `(width * height) * bpp` does, and
with it every texel index of the scanline decoder, which is below it. -/
def Mode.fits (mode : Mode) (t : gl_texture_t) : Prop :=
  INT_MIN ≤ t.width * t.height * mode.bpp ∧ t.width * t.height * mode.bpp ≤ INT_MAX

instance (mode : Mode) (t : gl_texture_t) : Decidable (mode.fits t) := by
  unfold Mode.fits
  infer_instance

/-- The scanline decoder of a mode meets no texel index beyond `INT_MAX` on a
texture record: its largest index is `(width * height) * bpp - 1`, and the
grayscale decoders are taken never to overflow. -/
def Mode.scanFits (mode : Mode) (t : gl_texture_t) : Prop :=
  mode = Mode.gray8 ∨ mode = Mode.gray16 ∨ t.width * t.height * mode.bpp ≤ INT_MAX + 1

/-- The offset in the loop condition of the run-length decoder of a mode is
within the range of `int`: the 8-bit grayscale decoder multiplies by no factor. -/
def Mode.rleFits (mode : Mode) (t : gl_texture_t) : Prop :=
  mode = Mode.gray8 ∨ mode.fits t

/-- The bytes per pixel by which the decoder called for a header steps through
the texels, 0 when the `switch` calls none. -/
def tga_header_t.step (header : tga_header_t) : Nat :=
  match header.dispatch with
  | some (mode, _) => mode.bpp
  | none => 0

/-- The dimensions of a header are such that the offsets which the decoder called
for it computes in `int` stay within the range of `int`. -/
def tga_header_t.fits (header : tga_header_t) : Prop :=
  INT_MIN ≤ header.width * header.height * header.step ∧
    header.width * header.height * header.step ≤ INT_MAX

instance (header : tga_header_t) : Decidable header.fits := by
  unfold tga_header_t.fits
  infer_instance

/-- A machine grants the colormap block that a header asks for: nothing is
required of it when `colormap_type` is 0, where no block is requested. -/
def Machine.grants (m : Machine) (header : tga_header_t) : Prop :=
  header.colormap_type ≠ 0 → m.malloc (colormapBytes header) = true

instance (m : Machine) (header : tga_header_t) : Decidable (m.grants header) := by
  unfold Machine.grants
  infer_instance

/-- The colormap pointer and the stream that `readColormap` leaves when the block is
granted: the block holds the bytes that `fread` obtained and, behind them, what
the memory held before. -/
def colormapOf (m : Machine) (header : tga_header_t) (fp : FILE) :
    Option (Nat → Nat) × FILE :=
  if header.colormap_type ≠ 0 then
    (some (overlay (fread (colormapBytes header) fp).1 m.colormap),
      (fread (colormapBytes header) fp).2)
  else
    (none, fp)

/-- The header that `ReadTGAFile` works with on a file. -/
def headerOf (m : Machine) (bytes : List (Fin 256)) : tga_header_t :=
  (readHeader m { data := bytes, pos := 0 }).1

/-- The texture record as `ReadTGAFile` has it when it asks for the texel buffer. -/
def recordOf (m : Machine) (bytes : List (Fin 256)) : gl_texture_t :=
  GetTextureInfo (headerOf m bytes) m.texinfo

/-- The image types that the `switch` of `ReadTGAFile` knows. -/
def knownType (image_type : Nat) : Prop :=
  image_type = 0 ∨ image_type = 1 ∨ image_type = 2 ∨ image_type = 3 ∨ image_type = 9 ∨
    image_type = 10 ∨ image_type = 11

instance (image_type : Nat) : Decidable (knownType image_type) := by
  unfold knownType
  infer_instance

/-- The record that a call returned, `none` when it returned `NULL` or did not return. -/
def image (r : Except Fault Returned) : Option gl_texture_t :=
  match r with
  | .ok x => x.texinfo
  | .error _ => none

/-- The lines a call printed, `none` when it did not return. -/
def printed (r : Except Fault Returned) : Option (List Diagnostic) :=
  match r with
  | .ok x => some x.stderr
  | .error _ => none

/-- The cell at offset `o` of the texels a decoder left, `none` also when it did not return. -/
def cellOf (r : Except Fault (FILE × gl_texture_t)) (o : Nat) : Option Nat :=
  match r with
  | .ok x => x.2.texels o
  | .error _ => none

/-- A record as `malloc` may return it: every field zero, no texel stored. -/
def blank : gl_texture_t :=
  { width := 0, height := 0, format := 0, internalFormat := 0, id := 0, texels := fun _ => none }

/-- A machine that grants every buffer and whose unwritten storage holds zeros. -/
def plain : Machine :=
  { malloc := fun _ => true
    header := fun _ => 0
    texinfo := blank
    rgb := fun _ => 0
    colormap := fun _ => 0 }

/-- A machine that grants the buffers below 2 GiB and whose fresh record has all
bits set in `internalFormat`. -/
def tight : Machine :=
  { malloc := fun n => decide (n < 2 ^ 31)
    header := fun _ => 0
    texinfo := { blank with internalFormat := -1 }
    rgb := fun _ => 0
    colormap := fun _ => 0 }

/-- The 18 header bytes of a file without image id and without colormap. -/
def headerBytes (image_type pixel_depth width height : Fin 256) : List (Fin 256) :=
  [0, 0, image_type, 0, 0, 0, 0, 0, 0, 0, 0, 0, width, 0, height, 0, pixel_depth, 0]

/-- A texture record of the given size with no texel stored. -/
def emptyTexture (width height internalFormat : Int) : gl_texture_t :=
  { blank with width := width, height := height, internalFormat := internalFormat }

/-- The stream as `ReadTGAFile` has it when it asks for the texel buffer: behind
the header and the image id. -/
def streamOf (m : Machine) (bytes : List (Fin 256)) : FILE :=
  fseek (readHeader m { data := bytes, pos := 0 }).2 (headerOf m bytes).id_length

/-- The texture record with its fresh texel buffer. -/
def freshOf (m : Machine) (bytes : List (Fin 256)) : gl_texture_t :=
  { recordOf m bytes with texels := fun _ => none }

/-- The encodings for which the decoder that `ReadTGAFile` calls steps through the
buffer with the bytes per pixel that `GetTextureInfo` resolved: indexed with a
depth of at most 24, true colour of depth 16, 24 or 32, and grayscale. -/
def Supported (header : tga_header_t) : Prop :=
  ((header.image_type = 1 ∨ header.image_type = 9) ∧ header.pixel_depth ≤ 24) ∨
    ((header.image_type = 2 ∨ header.image_type = 10) ∧
      (header.pixel_depth = 16 ∨ header.pixel_depth = 24 ∨ header.pixel_depth = 32)) ∨
    header.image_type = 3 ∨ header.image_type = 11

instance (header : tga_header_t) : Decidable (Supported header) := by
  unfold Supported
  infer_instance

/-- The position of the stream when `ReadTGAFile` is about to close it. -/
def finalPos (r : Except Fault (Option FILE × Returned)) : Option Nat :=
  match r with
  | .ok x => x.1.map (fun fp => fp.pos)
  | .error _ => none

/-- A machine that grants every buffer and whose fresh record holds 3 in
`internalFormat`, as a record freed by an earlier call does. -/
def stale : Machine :=
  { plain with texinfo := { blank with internalFormat := 3 } }

/-- A 2-by-1 uncompressed 24-bit file with its two pixels. -/
def twoPixels : List (Fin 256) :=
  headerBytes 2 24 2 1 ++ [1, 2, 3, 4, 5, 6]

/-- A buffer of 3-byte pixels with the bytes 0 and 2 of every pixel exchanged. -/
def swapRB : List Nat → List Nat
  | a :: b :: c :: rest => c :: b :: a :: swapRB rest
  | rest => rest

/-- The 16-bit word of pixel `i` of a source, low byte first: `in[2i] + 256 * in[2i+1]`. -/
def word16 (src : List Nat) (i : Nat) : Nat :=
  src.getD (2 * i) 0 + 256 * src.getD (2 * i + 1) 0

/-- The header of a 1-by-1 8-bit grayscale file with a colormap of 8-bit entries
whose length field holds the bytes `00 80`. -/
def longHeader : List (Fin 256) :=
  [0, 1, 3, 0, 0, 0, 0x80, 8, 0, 0, 0, 0, 1, 0, 1, 0, 8, 0]

/-- A file with the header `longHeader`: behind it 32768 bytes, and the byte 7 at
offset `18 + 32768`. -/
def longColormap : List (Fin 256) :=
  longHeader ++ (List.replicate 32768 0 ++ [7])

/-- A 2-by-1 indexed file with the image id `id0 id1`, a colormap of two 24-bit
entries and the pixels 1 and 0. -/
def idAndColormap (id0 id1 : Fin 256) : List (Fin 256) :=
  [2, 1, 1, 0, 0, 2, 0, 24, 0, 0, 0, 0, 2, 0, 1, 0, 8, 0] ++ [id0, id1] ++
    [1, 2, 3, 4, 5, 6] ++ [1, 0]

/-- A 1-by-1 indexed file with a colormap of six 24-bit entries, the entry at
index 5 being `(B=200, G=100, R=50)`, and the pixel byte 5. -/
def paletteFile : List (Fin 256) :=
  [0, 1, 1, 0, 0, 6, 0, 24, 0, 0, 0, 0, 1, 0, 1, 0, 8, 0] ++
    [0, 0, 0, 0, 0, 0, 0, 0, 0, 0, 0, 0, 0, 0, 0, 200, 100, 50] ++ [5]

/-- What a call left instead of returning: the fault, `none` when it returned. -/
def faultOf (r : Except Fault Returned) : Option Fault :=
  match r with
  | .ok _ => none
  | .error e => some e

/-- A 1-by-2 uncompressed 8-bit grayscale file with the rows 7 and 9, whose
`x_origin`, `y_origin` and `image_descriptor` hold the given bytes. -/
def withOrigin (x0 x1 y0 y1 descriptor : Fin 256) : List (Fin 256) :=
  [0, 0, 3, 0, 0, 0, 0, 0, x0, x1, y0, y1, 1, 0, 2, 0, 8, descriptor] ++ [7, 9]

/-- A raw packet of a mode, as its pixel count and its payload: from 1 to 128
pixels, the payload holding that many source pixels. -/
def RawPacket (mode : Mode) (k : Nat × List Nat) : Prop :=
  1 ≤ k.1 ∧ k.1 ≤ 128 ∧ k.2.length = k.1 * mode.srcBytes

instance (mode : Mode) (k : Nat × List Nat) : Decidable (RawPacket mode k) := by
  unfold RawPacket
  infer_instance

/-- The bytes of a run-length stream made of raw packets: every payload behind
its packet header, the pixel count less one. -/
def rawStream (packets : List (Nat × List Nat)) : List Nat :=
  packets.flatMap (fun k => (k.1 - 1) :: k.2)

/-- The payloads of the packets, one behind the other. -/
def payloads (packets : List (Nat × List Nat)) : List Nat :=
  packets.flatMap (fun k => k.2)

/-- The pixel counts of the packets, added up. -/
def pixelCount (packets : List (Nat × List Nat)) : Nat :=
  (packets.map (fun k => k.1)).sum

/-- A 1-by-1 indexed file whose colormap has two 24-bit entries, six bytes, and
whose pixel byte is 5. -/
def shortPalette : List (Fin 256) :=
  [0, 1, 1, 0, 0, 2, 0, 24, 0, 0, 0, 0, 1, 0, 1, 0, 8, 0] ++ [1, 2, 3, 4, 5, 6] ++ [5]

/-- The unsigned value of the two bytes of the width field of a file. -/
def widthField (bytes : List (Fin 256)) : Nat :=
  (bytes.getD 12 0).val + 256 * (bytes.getD 13 0).val

/-- The unsigned value of the two bytes of the height field of a file. -/
def heightField (bytes : List (Fin 256)) : Nat :=
  (bytes.getD 14 0).val + 256 * (bytes.getD 15 0).val

/-- The 18 header bytes of an uncompressed 24-bit file without image id and
without colormap, the width and the height fields holding the given bytes. -/
def sizedHeader (w0 w1 h0 h1 : Fin 256) : List (Fin 256) :=
  [0, 0, 2, 0, 0, 0, 0, 0, 0, 0, 0, 0, w0, w1, h0, h1, 24, 0]

end TGA

/-! ## `sll.c` -/

namespace SLL

/-- The record `SllElm`: the client's data (an address) and the pointer to the next
element, `none` for `NULL`. -/
structure SllElm where
  data : Nat
  next : Option Nat
deriving DecidableEq, Repr

/-- The record `Sll`. -/
structure Sll where
  elementCount : Int
  listHead : Option Nat
deriving DecidableEq, Repr

/-- What happens instead of a return. -/
inductive Fault where
  /-- A null pointer is dereferenced. -/
  | null_pointer
  /-- An address that holds no element is dereferenced or freed. -/
  | dangling
  /-- A loop was cut by its fuel. -/
  | out_of_fuel
deriving DecidableEq, Repr

/-- The memory a call works on: the elements by address (`none` where no element is
allocated) and the list record that `list` points to. -/
structure Memory where
  elm : Nat → Option SllElm
  list : Sll

/-- The element a pointer points to. -/
def Memory.load (mem : Memory) (p : Option Nat) : Except Fault SllElm :=
  match p with
  | none => .error Fault.null_pointer
  | some a =>
    match mem.elm a with
    | none => .error Fault.dangling
    | some e => .ok e

/-- The memory with the element at address `a` replaced. -/
def Memory.store (mem : Memory) (a : Nat) (e : SllElm) : Memory :=
  { mem with elm := fun b => if b = a then some e else mem.elm b }

/-- The call `free (p)`: nothing for `NULL`. -/
def Memory.free (mem : Memory) (p : Option Nat) : Except Fault Memory :=
  match p with
  | none => .ok mem
  | some a =>
    match mem.elm a with
    | none => .error Fault.dangling
    | some _ => .ok { mem with elm := fun b => if b = a then none else mem.elm b }

/-- The loops `for (prev = NULL, curr = list->listHead; curr != NULL && !stop (curr);
prev = curr, curr = curr->next) ;` of `sll.c`, entered with `prev` and `curr`: the two
pointers when the loop ends. The loop is cut after `fuel` steps. The loops
without `prev` are the same loops with `prev` ignored. -/
def walk (elm : Nat → Option SllElm) (stop : SllElm → Bool) :
    Nat → Option Nat → Option Nat → Except Fault (Option Nat × Option Nat)
  | fuel, prev, curr =>
    match curr with
    | none => .ok (prev, none)
    | some a =>
      match elm a with
      | none => .error Fault.dangling
      | some e =>
        if stop e then .ok (prev, curr)
        else
          match fuel with
          | 0 => .error Fault.out_of_fuel
          | fuel + 1 => walk elm stop fuel curr e.next

/-- The function `sllRemove` (sll.c 254-273): the pointer it returns and the memory it
leaves. -/
def sllRemove (fuel : Nat) (mem : Memory) (target : Nat) : Except Fault (Nat × Memory) :=
  match walk mem.elm (fun e => decide (e.data = target)) fuel none mem.list.listHead with
  | .error f => .error f
  | .ok (prev, curr) =>
    let unlinked : Except Fault Memory :=
      match prev with
      | none => .ok { mem with list := { mem.list with listHead := none } }
      | some p =>
        match mem.load curr, mem.load (some p) with
        | .ok c, .ok pe => .ok (mem.store p { pe with next := c.next })
        | .error f, _ => .error f
        | _, .error f => .error f
    match unlinked with
    | .error f => .error f
    | .ok mem =>
      match mem.free curr with
      | .error f => .error f
      | .ok mem =>
        .ok (target,
          { mem with list := { mem.list with elementCount := mem.list.elementCount - 1 } })

/-- The function `sllAddBefore` (sll.c 164-191). The pointer `elm` is what `malloc` returns. -/
def sllAddBefore (fuel : Nat) (mem : Memory) (elm : Option Nat) (target data : Nat) :
    Except Fault Memory :=
  match elm with
  | none => .error Fault.null_pointer
  | some n =>
    let mem := mem.store n { data := data, next := none }
    match walk mem.elm (fun e => decide (e.data = target)) fuel none mem.list.listHead with
    | .error f => .error f
    | .ok (prev, curr) =>
      let linked : Except Fault Memory :=
        match prev with
        | none =>
          .ok { mem.store n { data := data, next := mem.list.listHead } with
                list := { mem.list with listHead := some n } }
        | some p =>
          match (mem.store n { data := data, next := curr }).load (some p) with
          | .error f => .error f
          | .ok pe =>
            .ok ((mem.store n { data := data, next := curr }).store p { pe with next := some n })
      match linked with
      | .error f => .error f
      | .ok mem =>
        .ok { mem with list := { mem.list with elementCount := mem.list.elementCount + 1 } }

/-- The data of the elements of the list from the pointer `p` on, in order; `none`
when the chain does not end in `NULL` within `fuel` elements or leaves the
allocated elements. -/
def toList (elm : Nat → Option SllElm) : Nat → Option Nat → Option (List Nat)
  | _, none => some []
  | 0, some _ => none
  | fuel + 1, some a =>
    match elm a with
    | none => none
    | some e => (toList elm fuel e.next).map (fun xs => e.data :: xs)

/-- The elements at the addresses `as`, in this order, lead from the pointer `p` to
the pointer `q`. -/
def Seg (elm : Nat → Option SllElm) : Option Nat → List Nat → Option Nat → Prop
  | p, [], q => p = q
  | p, a :: as, q => p = some a ∧ ∃ e, elm a = some e ∧ Seg elm e.next as q

/-- The data of the elements at the addresses `as`. -/
def dataOf (elm : Nat → Option SllElm) (as : List Nat) : List Nat :=
  as.map (fun a => match elm a with
    | some e => e.data
    | none => 0)

/-- What a call returned, `none` when it did not return. -/
def returned {α : Type} (r : Except Fault α) : Option α :=
  match r with
  | .ok x => some x
  | .error _ => none

/-- A memory with the list of the two elements 1 and 2, at the addresses 10 and 20. -/
def twoElements : Memory :=
  { elm := fun a =>
      if a = 10 then some { data := 1, next := some 20 }
      else if a = 20 then some { data := 2, next := none }
      else none
    list := { elementCount := 2, listHead := some 10 } }

/-- The function `sllCreate` (sll.c 36-47), in a memory with the elements `elm`: the list
record it returns. -/
def sllCreate (elm : Nat → Option SllElm) : Memory :=
  { elm := elm, list := { elementCount := 0, listHead := none } }

/-- The function `sllAddFirst` (sll.c 74-87). The pointer `elm` is what `malloc` returns. -/
def sllAddFirst (mem : Memory) (elm : Option Nat) (data : Nat) : Except Fault Memory :=
  match elm with
  | none => .error Fault.null_pointer
  | some n =>
    let mem := mem.store n { data := data, next := mem.list.listHead }
    .ok { mem with
          list := { elementCount := mem.list.elementCount + 1, listHead := some n } }

/-- The function `sllAddLast` (sll.c 97-120). The pointer `elm` is what `malloc` returns. -/
def sllAddLast (fuel : Nat) (mem : Memory) (elm : Option Nat) (data : Nat) :
    Except Fault Memory :=
  match elm with
  | none => .error Fault.null_pointer
  | some n =>
    let mem := mem.store n { data := data, next := none }
    match walk mem.elm (fun e => decide (e.next = none)) fuel none mem.list.listHead with
    | .error f => .error f
    | .ok (_, curr) =>
      let linked : Except Fault Memory :=
        match curr with
        | none => .ok { mem with list := { mem.list with listHead := some n } }
        | some c =>
          match mem.load (some c) with
          | .error f => .error f
          | .ok ce => .ok (mem.store c { ce with next := some n })
      match linked with
      | .error f => .error f
      | .ok mem =>
        .ok { mem with list := { mem.list with elementCount := mem.list.elementCount + 1 } }

/-- The function `sllAddAfter` (sll.c 132-152). The pointer `elm` is what `malloc` returns. -/
def sllAddAfter (fuel : Nat) (mem : Memory) (elm : Option Nat) (target data : Nat) :
    Except Fault Memory :=
  match elm with
  | none => .error Fault.null_pointer
  | some n =>
    let mem := mem.store n { data := data, next := none }
    match walk mem.elm (fun e => decide (e.data = target)) fuel none mem.list.listHead with
    | .error f => .error f
    | .ok (_, curr) =>
      match mem.load curr with
      | .error f => .error f
      | .ok ce =>
        let mem := mem.store n { data := data, next := ce.next }
        match curr with
        | none => .error Fault.null_pointer
        | some c =>
          .ok { mem.store c { ce with next := some n } with
                list := { mem.list with elementCount := mem.list.elementCount + 1 } }

/-- The function `sllRemoveFirst` (sll.c 200-213): the data it returns and the memory it
leaves. -/
def sllRemoveFirst (mem : Memory) : Except Fault (Nat × Memory) :=
  match mem.load mem.list.listHead with
  | .error f => .error f
  | .ok ce =>
    let curr := mem.list.listHead
    let mem : Memory :=
      { mem with
        list := { elementCount := mem.list.elementCount - 1, listHead := ce.next } }
    match mem.free curr with
    | .error f => .error f
    | .ok mem => .ok (ce.data, mem)

/-- The function `sllRemoveLast` (sll.c 222-243): the data it returns and the memory it
leaves. -/
def sllRemoveLast (fuel : Nat) (mem : Memory) : Except Fault (Nat × Memory) :=
  match walk mem.elm (fun e => decide (e.next = none)) fuel none mem.list.listHead with
  | .error f => .error f
  | .ok (prev, curr) =>
    let unlinked : Except Fault Memory :=
      match prev with
      | none => .ok { mem with list := { mem.list with listHead := none } }
      | some p =>
        match mem.load curr, mem.load (some p) with
        | .ok c, .ok pe => .ok (mem.store p { pe with next := c.next })
        | .error f, _ => .error f
        | _, .error f => .error f
    match unlinked with
    | .error f => .error f
    | .ok mem =>
      match mem.load curr with
      | .error f => .error f
      | .ok ce =>
        match mem.free curr with
        | .error f => .error f
        | .ok mem =>
          .ok (ce.data,
            { mem with list := { mem.list with elementCount := mem.list.elementCount - 1 } })

/-- The loop `while (list->listHead != NULL)` of `sllClear`, cut after `fuel` turns. -/
def sllClear.loop : Nat → Memory → Except Fault Memory
  | fuel, mem =>
    match mem.list.listHead with
    | none => .ok mem
    | some c =>
      match fuel with
      | 0 => .error Fault.out_of_fuel
      | fuel + 1 =>
        match mem.load (some c) with
        | .error f => .error f
        | .ok ce =>
          match ({ mem with list := { mem.list with listHead := ce.next } } : Memory).free
              (some c) with
          | .error f => .error f
          | .ok mem => sllClear.loop fuel mem

/-- The function `sllClear` (sll.c 280-295). -/
def sllClear (fuel : Nat) (mem : Memory) : Except Fault Memory :=
  match sllClear.loop fuel mem with
  | .error f => .error f
  | .ok mem => .ok { mem with list := { elementCount := 0, listHead := none } }

/-- The function `sllSize` (sll.c 394-398). -/
def sllSize (mem : Memory) : Int := mem.list.elementCount

/-- The function `sllIsEmpty` (sll.c 405-409). -/
def sllIsEmpty (mem : Memory) : Int := if mem.list.elementCount = 0 then 1 else 0

/-- The number of elements reachable from `listHead`; `none` when the chain does not
end in `NULL` within `fuel` elements. -/
def reachable (fuel : Nat) (mem : Memory) : Option Nat :=
  (toList mem.elm fuel mem.list.listHead).map List.length

/-- A call sequence from `sllCreate` within the documented preconditions, `malloc`
returning the addresses 20, 10, 30, 40 and 50: the elements 2, 1, 3 are added, 4
after 1 and 5 before 3, then the first and the last element are removed. The
list holds 4, 2, 5. -/
def threeElements : Except Fault Memory :=
  match sllAddFirst (sllCreate (fun _ => none)) (some 20) 2 with
  | .error f => .error f
  | .ok m =>
    match sllAddFirst m (some 10) 1 with
    | .error f => .error f
    | .ok m =>
      match sllAddLast 5 m (some 30) 3 with
      | .error f => .error f
      | .ok m =>
        match sllAddAfter 5 m (some 40) 1 4 with
        | .error f => .error f
        | .ok m =>
          match sllAddBefore 5 m (some 50) 3 5 with
          | .error f => .error f
          | .ok m =>
            match sllRemoveFirst m with
            | .error f => .error f
            | .ok r =>
              match sllRemoveLast 5 r.2 with
              | .error f => .error f
              | .ok r => .ok r.2

/-- The sequence `threeElements` followed by `sllRemove` of the element 4, the head. -/
def headRemoved : Except Fault Memory :=
  match threeElements with
  | .error f => .error f
  | .ok m =>
    match sllRemove 5 m 4 with
    | .error f => .error f
    | .ok r => .ok r.2

end SLL

/-! ## `map.c` -/

namespace Map

/-- The 32-bit two's complement pattern of an `int`. -/
def bits (x : Int) : Nat := (x % 2 ^ 32).toNat

/-- The `int` that a 32-bit pattern stands for: a result that does not fit wraps. -/
def int (n : Nat) : Int :=
  if n % 2 ^ 32 < 2 ^ 31 then ((n % 2 ^ 32 : Nat) : Int) else ((n % 2 ^ 32 : Nat) : Int) - 2 ^ 32

/-- The operator `x & y` on `int`: the patterns bit by bit. -/
def band (x y : Int) : Int := int (bits x &&& bits y)

/-- The operator `x | y` on `int`: the patterns bit by bit. -/
def bor (x y : Int) : Int := int (bits x ||| bits y)

/-- The operator `x << k` on `int`, the bits shifted out dropped. -/
def shl (x : Int) (k : Nat) : Int := int (bits x <<< k)

/-- The operator `x >> k` on `int`, the sign bit shifted in (as gcc and clang do for
a negative `x`). -/
def sar (x : Int) (k : Nat) : Int := x >>> k

/-- The body of the loop of `convertLittleEndian` (map.c 61-67): `actualValue` from `value`. -/
def actualValue (value : Int) : Int :=
  let b0 := band (sar value 24) 0xFF
  let b1 := band (sar value 16) 0xFF
  let b2 := band (sar value 8) 0xFF
  let b3 := band value 0xFF
  bor (bor (bor (shl b3 24) (shl b2 16)) (shl b1 8)) b0

/-- The function `convertLittleEndian` (map.c 57-69) on the memory `data` points to:
the elements by index. -/
def convertLittleEndian (data : Nat → Int) (size : Int) : Nat → Int :=
  TGA.forLoop size.toNat (fun i data => fun j => if j = i then actualValue (data i) else data j)
    data

/-- The 32-bit pattern with the four bytes of the pattern `n` in reverse order. -/
def reverseBytes (n : Nat) : Nat :=
  n % 256 * 2 ^ 24 + n / 2 ^ 8 % 256 * 2 ^ 16 + n / 2 ^ 16 % 256 * 2 ^ 8 + n / 2 ^ 24 % 256

/-- Whether a value is one an `int` can hold. -/
def isInt (x : Int) : Prop := -2 ^ 31 ≤ x ∧ x < 2 ^ 31

instance (x : Int) : Decidable (isInt x) := by
  unfold isInt
  infer_instance

/-- An array of three elements: 1, -2 and 0x12345678. -/
def sample : Nat → Int := fun i => [1, -2, 0x12345678].getD i 0

end Map

/-! ## `math3d.c` -/

namespace Math3d

/-- The conversion of a value to `unsigned int`: 32 bits. -/
def uint (x : Nat) : Nat := x % 2 ^ 32

/-- The function `m3dIsPOW2` (math3d.c 63-70). The `while` loop is cut after `fuel + 1`
tests of its condition: `none` when the condition still holds then. -/
def m3dIsPOW2 (fuel : Nat) (iValue : Nat) : Option Nat :=
  TGA.whileLoop fuel (fun nPow2 => decide (iValue > nPow2)) (fun nPow2 => uint (nPow2 <<< 1)) 1

/-- The call `memcpy (dst + d, src + s, sizeof (float) * n)` on two arrays that do not
overlap: the memory at `dst` by index. An index beyond an array is the memory
behind it; the elements are copied as they are, whatever their type. -/
def memcpy {α : Type} (dst : Nat → α) (d : Nat) (src : Nat → α) (s n : Nat) : Nat → α :=
  fun i => if d ≤ i ∧ i < d + n then src (s + (i - d)) else dst i

/-- The function `m3dExtractRotation33f` (math3d.c 541-546): the memory at `dst`. -/
def m3dExtractRotation33f {α : Type} (dst src : Nat → α) : Nat → α :=
  memcpy (memcpy (memcpy dst 0 src 0 3) 3 src 4 3) 6 src 8 3

/-- The function `m3dInjectRotation44f` (math3d.c 558-563): the memory at `dst`. -/
def m3dInjectRotation44f {α : Type} (dst src : Nat → α) : Nat → α :=
  memcpy (memcpy (memcpy dst 0 src 0 4) 4 src 4 4) 8 src 8 4

end Math3d

/-! ## `alg.c` -/

namespace Alg

set_option linter.unusedVariables false in
/-- The function `algMatMultiply` (alg.c 308-318) on the three matrices, taken to be
distinct objects: the matrices `A`, `B` and `C` as the call leaves them. An element
`A[i][j]` is `A i j`; the values stored are the constants 0 and 1, and a `double` is
modelled by a rational number. The parameter `l` is not used, as in the source. -/
def algMatMultiply (m l n : Int) (A B C : Nat → Nat → Rat) :
    (Nat → Nat → Rat) × (Nat → Nat → Rat) × (Nat → Nat → Rat) :=
  (TGA.forLoop m.toNat
    (fun i A =>
      TGA.forLoop n.toNat
        (fun j A => fun r c => if r = i ∧ c = j then (if i = j then 1 else 0) else A r c) A)
    A, B, C)

/-- The element in row `i` and column `j` of the product of a matrix `A` of `l` columns
and a matrix `B` of `l` rows: the sum over `k` of `A[i][k] * B[k][j]`. -/
def product (l : Nat) (A B : Nat → Nat → Rat) (i j : Nat) : Rat :=
  ((List.range l).map (fun k => A i k * B k j)).sum

end Alg

namespace TGA

/-! ## Lemmas on loops and texel stores -/

theorem forLoop_zero {σ : Type} (body : Nat → σ → σ) (s : σ) : forLoop 0 body s = s := rfl

theorem forLoop_succ {σ : Type} (n : Nat) (body : Nat → σ → σ) (s : σ) :
    forLoop (n + 1) body s = body n (forLoop n body s) := by
  simp [forLoop, List.range_succ, List.foldl_append]

theorem texels_congr (t : gl_texture_t) (f g : Nat → Option Nat) (h : ∀ o, f o = g o) :
    { t with texels := f } = { t with texels := g } := by
  have : f = g := funext h
  rw [this]

theorem store_eq_blit (t : gl_texture_t) (o a : Nat) : t.store o a = blit t o [a] := by
  unfold gl_texture_t.store blit
  apply texels_congr
  intro x
  by_cases h : x = o
  · subst h; simp
  · have : ¬ (o ≤ x ∧ x < o + 1) := by omega
    simp [h, this]

theorem blit_blit (t : gl_texture_t) (o : Nat) (xs ys : List Nat) :
    blit (blit t o xs) (o + xs.length) ys = blit t o (xs ++ ys) := by
  unfold blit
  apply texels_congr
  intro x
  simp only [List.length_append]
  by_cases h1 : o + xs.length ≤ x ∧ x < o + xs.length + ys.length
  · have h2 : o ≤ x ∧ x < o + (xs.length + ys.length) := by omega
    rw [if_pos h1, if_pos h2]
    have h3 : x - o = xs.length + (x - (o + xs.length)) := by omega
    rw [h3, List.getD_append_right _ _ _ _ (by omega)]
    simp
  · rw [if_neg h1]
    by_cases h2 : o ≤ x ∧ x < o + xs.length
    · have h3 : o ≤ x ∧ x < o + (xs.length + ys.length) := by omega
      rw [if_pos h2, if_pos h3, List.getD_append _ _ _ _ (by omega)]
    · have h3 : ¬ (o ≤ x ∧ x < o + (xs.length + ys.length)) := by omega
      rw [if_neg h2, if_neg h3]

theorem blit_texels (t : gl_texture_t) (o : Nat) (xs : List Nat) (x : Nat) :
    (blit t o xs).texels x =
      if o ≤ x ∧ x < o + xs.length then some (xs.getD (x - o) 0) else t.texels x := rfl

theorem store_texels (t : gl_texture_t) (o a x : Nat) :
    (t.store o a).texels x = if x = o then some a else t.texels x := rfl

theorem texture_ext (s t : gl_texture_t) (hw : s.width = t.width) (hh : s.height = t.height)
    (hf : s.format = t.format) (hi : s.internalFormat = t.internalFormat) (hid : s.id = t.id)
    (hx : ∀ o, s.texels o = t.texels o) : s = t := by
  cases s; cases t
  simp only [gl_texture_t.mk.injEq]
  exact ⟨hw, hh, hf, hi, hid, funext hx⟩

theorem blit_nil (t : gl_texture_t) (o : Nat) : blit t o [] = t := by
  apply texture_ext <;> try rfl
  intro x
  rw [blit_texels, if_neg (by simp)]

theorem store3_rev (t : gl_texture_t) (o a b c : Nat) :
    ((t.store (o + 2) a).store (o + 1) b).store (o + 0) c = blit t o [c, b, a] := by
  apply texture_ext <;> try rfl
  intro x
  simp only [store_texels, blit_texels, List.length_cons, List.length_nil]
  rcases (by omega : x < o ∨ x = o ∨ x = o + 1 ∨ x = o + 2 ∨ o + 3 ≤ x) with h | h | h | h | h
  · rw [if_neg (by omega), if_neg (by omega), if_neg (by omega), if_neg (by omega)]
  · subst h; simp
  · subst h; simp
  · subst h; simp
  · rw [if_neg (by omega), if_neg (by omega), if_neg (by omega), if_neg (by omega)]

theorem store4_rev (t : gl_texture_t) (o a b c d : Nat) :
    (((t.store (o + 2) a).store (o + 1) b).store (o + 0) c).store (o + 3) d =
      blit t o [c, b, a, d] := by
  apply texture_ext <;> try rfl
  intro x
  simp only [store_texels, blit_texels, List.length_cons, List.length_nil]
  rcases (by omega : x < o ∨ x = o ∨ x = o + 1 ∨ x = o + 2 ∨ x = o + 3 ∨ o + 4 ≤ x)
    with h | h | h | h | h | h
  · rw [if_neg (by omega), if_neg (by omega), if_neg (by omega), if_neg (by omega),
      if_neg (by omega)]
  · subst h; simp
  · subst h; simp
  · subst h; simp
  · subst h; simp
  · rw [if_neg (by omega), if_neg (by omega), if_neg (by omega), if_neg (by omega),
      if_neg (by omega)]

theorem store4 (t : gl_texture_t) (o a b c d : Nat) :
    (((t.store (o + 0) a).store (o + 1) b).store (o + 2) c).store (o + 3) d =
      blit t o [a, b, c, d] := by
  apply texture_ext <;> try rfl
  intro x
  simp only [store_texels, blit_texels, List.length_cons, List.length_nil]
  rcases (by omega : x < o ∨ x = o ∨ x = o + 1 ∨ x = o + 2 ∨ x = o + 3 ∨ o + 4 ≤ x)
    with h | h | h | h | h | h
  · rw [if_neg (by omega), if_neg (by omega), if_neg (by omega), if_neg (by omega),
      if_neg (by omega)]
  · subst h; simp
  · subst h; simp
  · subst h; simp
  · subst h; simp
  · rw [if_neg (by omega), if_neg (by omega), if_neg (by omega), if_neg (by omega),
      if_neg (by omega)]

theorem store3 (t : gl_texture_t) (o a b c : Nat) :
    ((t.store (o + 0) a).store (o + 1) b).store (o + 2) c = blit t o [a, b, c] := by
  apply texture_ext <;> try rfl
  intro x
  simp only [store_texels, blit_texels, List.length_cons, List.length_nil]
  rcases (by omega : x < o ∨ x = o ∨ x = o + 1 ∨ x = o + 2 ∨ o + 3 ≤ x) with h | h | h | h | h
  · rw [if_neg (by omega), if_neg (by omega), if_neg (by omega), if_neg (by omega)]
  · subst h; simp
  · subst h; simp
  · subst h; simp
  · rw [if_neg (by omega), if_neg (by omega), if_neg (by omega), if_neg (by omega)]

theorem store2 (t : gl_texture_t) (o a b : Nat) :
    (t.store (o + 0) a).store (o + 1) b = blit t o [a, b] := by
  apply texture_ext <;> try rfl
  intro x
  simp only [store_texels, blit_texels, List.length_cons, List.length_nil]
  rcases (by omega : x < o ∨ x = o ∨ x = o + 1 ∨ o + 2 ≤ x) with h | h | h | h
  · rw [if_neg (by omega), if_neg (by omega), if_neg (by omega)]
  · subst h; simp
  · subst h; simp
  · rw [if_neg (by omega), if_neg (by omega), if_neg (by omega)]

theorem pixelLoop_length (rd : FILE → List Nat × FILE) (bpp : Nat)
    (hlen : ∀ fp, (rd fp).1.length = bpp) (n : Nat) (fp : FILE) :
    (pixelLoop rd n fp).1.length = n * bpp := by
  induction n with
  | zero => simp [pixelLoop]
  | succ n ih => simp [pixelLoop, ih, hlen, Nat.succ_mul]

/-- A scanline loop whose turn `i` reads one pixel and stores it at `i * bpp`
stores the pixels of `pixelLoop` from offset 0 on. -/
theorem forLoop_scan (rd : FILE → List Nat × FILE) (bpp : Nat)
    (body : Nat → FILE × gl_texture_t → FILE × gl_texture_t)
    (hbody : ∀ i s, body i s = ((rd s.1).2, blit s.2 (i * bpp) (rd s.1).1))
    (hlen : ∀ fp, (rd fp).1.length = bpp) (n : Nat) (fp : FILE) (t : gl_texture_t) :
    forLoop n body (fp, t) = ((pixelLoop rd n fp).2, blit t 0 (pixelLoop rd n fp).1) := by
  induction n with
  | zero => simp [forLoop_zero, pixelLoop, blit_nil]
  | succ n ih =>
    rw [forLoop_succ, ih, hbody]
    have hl := pixelLoop_length rd bpp hlen n fp
    have h0 : n * bpp = 0 + (pixelLoop rd n fp).1.length := by omega
    simp only [pixelLoop]
    rw [h0, blit_blit]

/-- A packet loop whose turns read one pixel each and store it at `ptr`, moving
`ptr` by `bpp`, stores the pixels of `pixelLoop` from the first `ptr` on. -/
theorem forLoop_put (rd : FILE → List Nat × FILE) (bpp : Nat)
    (body : Nat → Decoder → Decoder)
    (hbody : ∀ i s, body i s =
      { s with
        fp := (rd s.fp).2
        texinfo := blit s.texinfo s.ptr (rd s.fp).1
        ptr := s.ptr + bpp })
    (hlen : ∀ fp, (rd fp).1.length = bpp) (n : Nat) (s : Decoder) :
    forLoop n body s =
      { s with
        fp := (pixelLoop rd n s.fp).2
        texinfo := blit s.texinfo s.ptr (pixelLoop rd n s.fp).1
        ptr := s.ptr + n * bpp } := by
  induction n with
  | zero => simp [forLoop_zero, pixelLoop, blit_nil]
  | succ n ih =>
    rw [forLoop_succ, ih, hbody]
    have hl := pixelLoop_length rd bpp hlen n s.fp
    simp only [pixelLoop]
    rw [← hl, blit_blit, hl, Nat.succ_mul, Nat.add_assoc]

theorem forLoopE_ok {σ : Type} (n : Nat) (body : Nat → σ → Except Fault σ)
    (step : Nat → σ → σ) (s : σ) (h : ∀ i, i < n → ∀ s, body i s = .ok (step i s)) :
    forLoopE n body s = .ok (forLoop n step s) := by
  induction n with
  | zero => rfl
  | succ n ih =>
    rw [forLoopE, ih (fun i hi => h i (Nat.lt_succ_of_lt hi)), forLoop_succ]
    exact h n (Nat.lt_succ_self n) _

/-- What every turn of a fallible loop keeps holds when the loop returns. -/
theorem forLoopE_inv {σ : Type} (P : σ → Prop) (n : Nat) (body : Nat → σ → Except Fault σ)
    (s s' : σ) (hP : ∀ i s s', P s → body i s = .ok s' → P s') (h0 : P s)
    (h : forLoopE n body s = .ok s') : P s' := by
  induction n generalizing s' with
  | zero =>
    have h1 : (Except.ok s : Except Fault σ) = .ok s' := h
    injection h1 with h1
    exact h1 ▸ h0
  | succ n ih =>
    rw [forLoopE] at h
    cases hr : forLoopE n body s with
    | error e =>
      rw [hr] at h
      have h1 : (Except.error e : Except Fault σ) = .ok s' := h
      cases h1
    | ok x =>
      rw [hr] at h
      exact hP n x s' (ih x hr) h

/-- A loop stops with the fault of turn `k` when that turn faults in every state
and no turn faults in another way. -/
theorem forLoopE_error {σ : Type} (n k : Nat) (body : Nat → σ → Except Fault σ) (e : Fault)
    (s : σ) (hk : k < n) (hfail : ∀ s, body k s = .error e)
    (hone : ∀ i s e0, body i s = .error e0 → e0 = e) :
    forLoopE n body s = .error e := by
  induction n with
  | zero => omega
  | succ n ih =>
    rw [forLoopE]
    by_cases hkn : k < n
    · rw [ih hkn]; rfl
    · have hk' : k = n := by omega
      subst hk'
      cases hr : forLoopE k body s with
      | error e0 =>
        have : ∀ (j : Nat) (e1 : Fault), forLoopE j body s = .error e1 → e1 = e := by
          intro j
          induction j with
          | zero => intro e1 h1; simp [forLoopE] at h1
          | succ j ihj =>
            intro e1 h1
            rw [forLoopE] at h1
            cases hj : forLoopE j body s with
            | error e2 =>
              rw [hj] at h1
              have h2 : e2 = e1 := by
                simpa [Except.bind] using h1
              exact h2 ▸ ihj e2 hj
            | ok x =>
              rw [hj] at h1
              exact hone j x e1 h1
        rw [this k e0 hr]; rfl
      | ok x => exact hfail x

/-- A fallible scanline loop whose turn `i` reads one pixel and stores it at
`i * bpp` stores the pixels of `pixelLoop` from offset 0 on. -/
theorem forLoopE_scan (rd : FILE → List Nat × FILE) (bpp : Nat)
    (body : Nat → FILE × gl_texture_t → Except Fault (FILE × gl_texture_t)) (n : Nat)
    (hbody : ∀ i, i < n → ∀ s, body i s = .ok ((rd s.1).2, blit s.2 (i * bpp) (rd s.1).1))
    (hlen : ∀ fp, (rd fp).1.length = bpp) (fp : FILE) (t : gl_texture_t) :
    forLoopE n body (fp, t) = .ok ((pixelLoop rd n fp).2, blit t 0 (pixelLoop rd n fp).1) := by
  rw [forLoopE_ok n body (fun i s => ((rd s.1).2, blit s.2 (i * bpp) (rd s.1).1)) (fp, t) hbody]
  exact congrArg Except.ok (forLoop_scan rd bpp _ (fun _ _ => rfl) hlen n fp t)

theorem int_ok (x : Int) (h1 : INT_MIN ≤ x) (h2 : x ≤ INT_MAX) : int x = .ok x :=
  if_pos ⟨h1, h2⟩

theorem bound_ok (mode : Mode) (t : gl_texture_t) (hfit : mode.fits t) :
    bound t mode.bpp = .ok (t.width * t.height * mode.bpp) :=
  int_ok _ hfit.1 hfit.2

/-- The run-length indexed decoder with a null colormap pointer: it overflows in
the offset of its loop condition, or faults in its first packet, or, with no
pixel to decode, returns at once. -/
theorem null_rle (fp : FILE) (t : gl_texture_t) :
    ReadTGA8bitsRLE fp none t = .error Fault.int_overflow ∨
      ReadTGA8bitsRLE fp none t = .error Fault.null_colormap ∨
      (Mode.indexed8.fits t ∧ ¬ 0 < t.width * t.height ∧
        ReadTGA8bitsRLE fp none t = .ok (fp, t)) := by
  by_cases hr : Mode.indexed8.fits t
  · have hb : bound t 3 = .ok (t.width * t.height * 3) := bound_ok Mode.indexed8 t hr
    by_cases hpos : 0 < t.width * t.height
    · have hn : (0 : Int) < t.width * t.height * 3 := by omega
      refine Or.inr (Or.inl ?_)
      simp only [ReadTGA8bitsRLE, hb]
      exact if_pos hn
    · have hn : ¬ (0 : Int) < t.width * t.height * 3 := by omega
      refine Or.inr (Or.inr ⟨hr, hpos, ?_⟩)
      simp only [ReadTGA8bitsRLE, hb]
      exact if_neg hn
  · refine Or.inl ?_
    have hb : bound t 3 = .error Fault.int_overflow := if_neg hr
    simp only [ReadTGA8bitsRLE, hb]
    rfl

/-- The result of the run-length indexed decoder with a null colormap pointer
does not depend on the stream, up to the stream it hands back. -/
theorem null_rle_congr (fp fp' : FILE) (t : gl_texture_t) :
    ((ReadTGA8bitsRLE fp none t).map decoded).map Prod.snd =
      ((ReadTGA8bitsRLE fp' none t).map decoded).map Prod.snd := by
  simp only [ReadTGA8bitsRLE]
  cases bound t 3 with
  | error e => rfl
  | ok n =>
    by_cases hn : 0 < n
    · simp only [Except.bind, if_pos hn]
    · simp only [Except.bind, if_neg hn]
      rfl

/-- The largest texel index of a turn of a scanline loop is within the range of
`int` when the product of the dimensions and the bytes per pixel is. -/
theorem index_le (p : Int) (k i : Nat) (hk : 0 < k) (hfit : p * k ≤ INT_MAX + 1)
    (hi : i < p.toNat) : (i : Int) * k + (k - 1 : Nat) ≤ INT_MAX := by
  have h1 : ((i : Int) + 1) * k ≤ p * k :=
    Int.mul_le_mul_of_nonneg_right (by omega) (by omega)
  have h2 : ((i : Int) + 1) * k = (i : Int) * k + k := by ring
  have h3 : ((k - 1 : Nat) : Int) = (k : Int) - 1 := by omega
  rw [h3]
  omega

theorem read_length (colormap : Nat → Nat) (mode : Mode) (fp : FILE) :
    (mode.read colormap fp).1.length = mode.bpp := by
  cases mode <;> rfl

/-- The scanline decoder of a mode stores, from offset 0 on, the pixels that
`width * height` reads of the mode give. -/
theorem fits_scan {mode : Mode} {t : gl_texture_t} (h : mode.fits t) : mode.scanFits t :=
  Or.inr (Or.inr (le_trans h.2 (by decide)))

theorem fits_rle {mode : Mode} {t : gl_texture_t} (h : mode.fits t) : mode.rleFits t :=
  Or.inr h

theorem decode_eq (colormap : Nat → Nat) (mode : Mode) (fp : FILE) (t : gl_texture_t)
    (hfit : mode.scanFits t) :
    mode.decode colormap fp t =
      .ok ((pixelLoop (mode.read colormap) (t.width * t.height).toNat fp).2,
        blit t 0 (pixelLoop (mode.read colormap) (t.width * t.height).toNat fp).1) := by
  cases mode
  · have hfit : t.width * t.height * Mode.indexed8.bpp ≤ INT_MAX + 1 := by
      rcases hfit with h | h | h
      · cases h
      · cases h
      · exact h
    exact forLoopE_scan (Mode.read colormap .indexed8) 3 _ _
      (fun i hi s => (if_pos (index_le _ 3 i (by decide) hfit hi)).trans
        (congrArg Except.ok (congrArg (Prod.mk _) (store3_rev _ _ _ _ _))))
      (read_length colormap _) fp t
  · have hfit : t.width * t.height * Mode.true16.bpp ≤ INT_MAX + 1 := by
      rcases hfit with h | h | h
      · cases h
      · cases h
      · exact h
    exact forLoopE_scan (Mode.read colormap .true16) 3 _ _
      (fun i hi s => (if_pos (index_le _ 3 i (by decide) hfit hi)).trans
        (congrArg Except.ok (congrArg (Prod.mk _) (store3 _ _ _ _ _))))
      (read_length colormap _) fp t
  · have hfit : t.width * t.height * Mode.true24.bpp ≤ INT_MAX + 1 := by
      rcases hfit with h | h | h
      · cases h
      · cases h
      · exact h
    exact forLoopE_scan (Mode.read colormap .true24) 3 _ _
      (fun i hi s => (if_pos (index_le _ 3 i (by decide) hfit hi)).trans
        (congrArg Except.ok (congrArg (Prod.mk _) (store3_rev _ _ _ _ _))))
      (read_length colormap _) fp t
  · have hfit : t.width * t.height * Mode.true32.bpp ≤ INT_MAX + 1 := by
      rcases hfit with h | h | h
      · cases h
      · cases h
      · exact h
    exact forLoopE_scan (Mode.read colormap .true32) 4 _ _
      (fun i hi s => (if_pos (index_le _ 4 i (by decide) hfit hi)).trans
        (congrArg Except.ok (congrArg (Prod.mk _) (store4_rev _ _ _ _ _ _))))
      (read_length colormap _) fp t
  · exact congrArg Except.ok (forLoop_scan (Mode.read colormap .gray8) 1 _
      (fun i s => congrArg (Prod.mk _) ((store_eq_blit _ _ _).trans (by rw [Nat.mul_one]; rfl)))
      (read_length colormap _) _ fp t)
  · exact congrArg Except.ok (forLoop_scan (Mode.read colormap .gray16) 2 _
      (fun i s => congrArg (Prod.mk _) (store2 _ _ _ _)) (read_length colormap _) _ fp t)

/-- A scanline loop whose last turn has an index beyond `INT_MAX` faults. -/
theorem scan_overflow (p : Int) (k : Nat) (hk : 0 < k) (hfit : ¬ p * k ≤ INT_MAX + 1)
    (step : Nat → FILE × gl_texture_t → FILE × gl_texture_t) (s : FILE × gl_texture_t) :
    forLoopE p.toNat
      (fun i s => if (i : Int) * k + (k - 1 : Nat) ≤ INT_MAX then .ok (step i s)
        else .error Fault.int_overflow) s = .error Fault.int_overflow := by
  have hk0 : (0 : Int) < k := by exact_mod_cast hk
  have hp : 0 < p := by
    by_contra hc
    have h1 : p * k ≤ 0 := Int.mul_nonpos_of_nonpos_of_nonneg (not_lt.mp hc) (le_of_lt hk0)
    have h2 : (0 : Int) ≤ INT_MAX + 1 := by decide
    exact hfit (le_trans h1 h2)
  refine forLoopE_error p.toNat (p.toNat - 1) _ Fault.int_overflow s (by omega) ?_ ?_
  · intro s
    have h1 : ((p.toNat - 1 : Nat) : Int) = p - 1 := by omega
    have h2 : ((k - 1 : Nat) : Int) = (k : Int) - 1 := by omega
    have h3 : (p - 1) * k + ((k : Int) - 1) = p * k - 1 := by ring
    have hc : ¬ ((p.toNat - 1 : Nat) : Int) * k + (k - 1 : Nat) ≤ INT_MAX := by
      rw [h1, h2, h3]
      omega
    exact if_neg hc
  · intro i s e0 h
    by_cases hc : (i : Int) * k + (k - 1 : Nat) ≤ INT_MAX
    · rw [if_pos hc] at h; cases h
    · rw [if_neg hc] at h
      injection h with h
      exact h.symm

/-- Beyond the range of `int` every scanline decoder that multiplies its index
faults, on every stream and with every colormap. -/
theorem decode_overflow (colormap : Nat → Nat) (mode : Mode) (fp : FILE) (t : gl_texture_t)
    (hfit : ¬ mode.scanFits t) : mode.decode colormap fp t = .error Fault.int_overflow := by
  unfold Mode.scanFits at hfit
  simp only [not_or] at hfit
  obtain ⟨h8, h16, hfit⟩ := hfit
  cases mode
  · exact scan_overflow (t.width * t.height) 3 (by decide) hfit _ (fp, t)
  · exact scan_overflow (t.width * t.height) 3 (by decide) hfit _ (fp, t)
  · exact scan_overflow (t.width * t.height) 3 (by decide) hfit _ (fp, t)
  · exact scan_overflow (t.width * t.height) 4 (by decide) hfit _ (fp, t)
  · exact absurd rfl h8
  · exact absurd rfl h16

theorem pixelLoop_const (px : List Nat) (n : Nat) (fp : FILE) :
    pixelLoop (fun fp => (px, fp)) n fp = ((List.replicate n px).flatten, fp) := by
  induction n with
  | zero => rfl
  | succ n ih =>
    simp only [pixelLoop, ih, List.replicate_succ', List.flatten_append, List.flatten_cons,
      List.flatten_nil, List.append_nil]

theorem put1_blit (s : Decoder) (a : Nat) :
    s.put1 a = { s with texinfo := blit s.texinfo s.ptr [a], ptr := s.ptr + 1 } := by
  simp only [Decoder.put1, store_eq_blit]

theorem put2_blit (s : Decoder) (a b : Nat) :
    s.put2 a b = { s with texinfo := blit s.texinfo s.ptr [a, b], ptr := s.ptr + 2 } := by
  simp only [Decoder.put2, store2]

theorem put3_blit (s : Decoder) (a b c : Nat) :
    s.put3 a b c = { s with texinfo := blit s.texinfo s.ptr [a, b, c], ptr := s.ptr + 3 } := by
  simp only [Decoder.put3, store3]

theorem put4_blit (s : Decoder) (a b c d : Nat) :
    s.put4 a b c d =
      { s with texinfo := blit s.texinfo s.ptr [a, b, c, d], ptr := s.ptr + 4 } := by
  simp only [Decoder.put4, store4]

/-- The packet loop of the raw branch of a mode. -/
theorem raw_loop (colormap : Nat → Nat) (mode : Mode) (n : Nat) (s : Decoder) :
    forLoop n (fun _ s =>
        { s with
          fp := (mode.read colormap s.fp).2
          texinfo := blit s.texinfo s.ptr (mode.read colormap s.fp).1
          ptr := s.ptr + mode.bpp }) s =
      { s with
        fp := (pixelLoop (mode.read colormap) n s.fp).2
        texinfo := blit s.texinfo s.ptr (pixelLoop (mode.read colormap) n s.fp).1
        ptr := s.ptr + n * mode.bpp } :=
  forLoop_put (mode.read colormap) mode.bpp _ (fun _ _ => rfl) (read_length colormap mode) n s

/-- The packet loop of the run branch: the same pixel `px` stored `n` times. -/
theorem run_loop (px : List Nat) (n : Nat) (s : Decoder) :
    forLoop n (fun _ s =>
        { s with texinfo := blit s.texinfo s.ptr px, ptr := s.ptr + px.length }) s =
      { s with
        texinfo := blit s.texinfo s.ptr (List.replicate n px).flatten
        ptr := s.ptr + n * px.length } := by
  have h := forLoop_put (fun fp => (px, fp)) px.length
    (fun _ s => { s with texinfo := blit s.texinfo s.ptr px, ptr := s.ptr + px.length })
    (fun _ _ => rfl) (fun _ => rfl) n s
  rw [h, pixelLoop_const]

/-- The turn of the `while` loop of every run-length decoder: the packet header
is read, then either one pixel is read and stored `size` times, or `size` pixels
are read and stored one after the other. -/
theorem packet_eq (colormap : Nat → Nat) (mode : Mode) (s : Decoder) :
    mode.packet colormap s =
      if GLubyte (fgetc s.fp).1 &&& 0x80 ≠ 0 then
        { fp := (mode.run colormap s.rgb (fgetc s.fp).2).2.1
          rgb := (mode.run colormap s.rgb (fgetc s.fp).2).2.2
          texinfo := blit s.texinfo s.ptr
            (List.replicate (packetSize (GLubyte (fgetc s.fp).1))
              (mode.run colormap s.rgb (fgetc s.fp).2).1).flatten
          ptr := s.ptr + packetSize (GLubyte (fgetc s.fp).1) * mode.bpp }
      else
        { s with
          fp := (pixelLoop (mode.read colormap) (packetSize (GLubyte (fgetc s.fp).1))
            (fgetc s.fp).2).2
          texinfo := blit s.texinfo s.ptr
            (pixelLoop (mode.read colormap) (packetSize (GLubyte (fgetc s.fp).1))
              (fgetc s.fp).2).1
          ptr := s.ptr + packetSize (GLubyte (fgetc s.fp).1) * mode.bpp } := by
  by_cases h : GLubyte (fgetc s.fp).1 &&& 0x80 ≠ 0
  · rw [if_pos h]
    cases mode <;>
      simp only [Mode.packet, ReadTGA8bitsRLE.packet, ReadTGA16bitsRLE.packet,
        ReadTGA24bitsRLE.packet, ReadTGA32bitsRLE.packet, ReadTGAgray8bitsRLE.packet,
        ReadTGAgray16bitsRLE.packet, put1_blit, put2_blit, put3_blit, put4_blit]
    · exact (if_pos h).trans (run_loop [_, _, _] _ _)
    · exact (if_pos h).trans (run_loop [_, _, _] _ _)
    · exact (if_pos h).trans (run_loop [_, _, _] _ _)
    · exact (if_pos h).trans (run_loop [_, _, _, _] _ _)
    · exact (if_pos h).trans (run_loop [_] _ _)
    · exact (if_pos h).trans (run_loop [_, _] _ _)
  · rw [if_neg h]
    cases mode <;>
      simp only [Mode.packet, ReadTGA8bitsRLE.packet, ReadTGA16bitsRLE.packet,
        ReadTGA24bitsRLE.packet, ReadTGA32bitsRLE.packet, ReadTGAgray8bitsRLE.packet,
        ReadTGAgray16bitsRLE.packet, put1_blit, put2_blit, put3_blit, put4_blit]
    · exact (if_neg h).trans (raw_loop colormap .indexed8 _ _)
    · exact (if_neg h).trans (raw_loop colormap .true16 _ _)
    · exact (if_neg h).trans (raw_loop colormap .true24 _ _)
    · exact (if_neg h).trans (raw_loop colormap .true32 _ _)
    · exact (if_neg h).trans (raw_loop colormap .gray8 _ _)
    · exact (if_neg h).trans (raw_loop colormap .gray16 _ _)

theorem GLubyte_cast (b : Nat) (h : b < 256) : GLubyte (b : Int) = b := by
  unfold GLubyte
  omega

theorem rest_lt (fp : FILE) (x : Nat) (h : x ∈ fp.rest) : x < 256 := by
  unfold FILE.rest at h
  rw [List.mem_map] at h
  obtain ⟨b, _, rfl⟩ := h
  exact b.isLt

theorem rest_fseek (fp : FILE) (n : Nat) : (fseek fp n).rest = fp.rest.drop n := by
  simp [FILE.rest, fseek, List.drop_drop, List.map_drop, Nat.add_comm]

theorem fseek_fseek (fp : FILE) (m n : Nat) : fseek (fseek fp m) n = fseek fp (m + n) := by
  simp [fseek, Nat.add_assoc]

/-- With a byte left in the stream, `fgetc` returns it and steps over it. -/
theorem fgetc_cons (fp : FILE) (b : Nat) (r : List Nat) (h : fp.rest = b :: r) :
    fgetc fp = ((b : Int), fseek fp 1) := by
  unfold FILE.rest at h
  rw [List.map_eq_cons_iff] at h
  obtain ⟨x, xs, hd, hx, _⟩ := h
  have hlt : fp.pos < fp.data.length := by
    by_contra hc
    rw [List.drop_eq_nil_of_le (by omega)] at hd
    exact List.noConfusion hd
  rw [List.drop_eq_getElem_cons hlt] at hd
  have h1 : fp.data[fp.pos] = x := (List.cons.inj hd).1
  unfold fgetc
  rw [List.getElem?_eq_getElem hlt, h1, ← hx]
  rfl

/-- At the end of the stream `fgetc` returns `EOF` and the stream stays. -/
theorem fgetc_nil (fp : FILE) (h : fp.rest = []) : fgetc fp = (EOF, fp) := by
  unfold FILE.rest at h
  have hd : fp.data.drop fp.pos = [] := by simpa using h
  have hle : fp.data.length ≤ fp.pos := by
    by_contra hc
    rw [List.drop_eq_getElem_cons (by omega)] at hd
    exact List.noConfusion hd
  unfold fgetc
  rw [List.getElem?_eq_none hle]
theorem fgetc_step (fp : FILE) (b : Nat) (r : List Nat) (h : fp.rest = b :: r) :
    fgetc fp = ((b : Int), fseek fp 1) ∧ (fseek fp 1).rest = r ∧ GLubyte (b : Int) = b := by
  refine ⟨fgetc_cons fp b r h, ?_, ?_⟩
  · rw [rest_fseek, h]; rfl
  · exact GLubyte_cast b (rest_lt fp b (by rw [h]; exact List.mem_cons_self _ _))

theorem fread_rest (n : Nat) (fp : FILE) :
    fread n fp = (fp.rest.take n, fseek fp (fp.rest.take n).length) := by
  simp [fread, FILE.rest, fseek, List.map_take]

theorem ushort_word (a b : Nat) (ha : a < 256) (hb : b < 256) :
    ushort ((a : Int) + (b : Int) * 256) = a + 256 * b := by
  unfold ushort
  omega

/-- With a whole pixel left in the stream, reading it gives its expansion and
steps over its bytes. -/
theorem read_rest (colormap : Nat → Nat) (mode : Mode) (fp : FILE) (p tail : List Nat)
    (h : fp.rest = p ++ tail) (hp : p.length = mode.srcBytes) :
    mode.read colormap fp = (mode.expand colormap p, fseek fp mode.srcBytes) := by
  cases mode
  · obtain ⟨b0, rfl⟩ : ∃ b0, p = [b0] := List.length_eq_one.mp hp
    obtain ⟨h0, _, g0⟩ := fgetc_step fp b0 _ h
    simp only [Mode.read, Mode.expand, Mode.srcBytes, h0, g0, List.getD_cons_zero]
  · obtain ⟨b0, b1, rfl⟩ : ∃ b0 b1, p = [b0, b1] := List.length_eq_two.mp hp
    obtain ⟨h0, r0, g0⟩ := fgetc_step fp b0 _ h
    obtain ⟨h1, r1, g1⟩ := fgetc_step _ b1 _ r0
    have l0 := rest_lt fp b0 (by rw [h]; simp)
    have l1 := rest_lt fp b1 (by rw [h]; simp)
    simp only [Mode.read, Mode.expand, Mode.srcBytes, readColor16, h0, h1,
      ushort_word b0 b1 l0 l1, List.getD_cons_zero, List.getD_cons_succ]
    rfl
  · obtain ⟨b0, b1, b2, rfl⟩ : ∃ b0 b1 b2, p = [b0, b1, b2] := List.length_eq_three.mp hp
    obtain ⟨h0, r0, g0⟩ := fgetc_step fp b0 _ h
    obtain ⟨h1, r1, g1⟩ := fgetc_step _ b1 _ r0
    obtain ⟨h2, r2, g2⟩ := fgetc_step _ b2 _ r1
    simp only [Mode.read, Mode.expand, Mode.srcBytes, h0, h1, h2, g0, g1, g2,
      List.getD_cons_zero, List.getD_cons_succ]
    rfl
  · obtain ⟨b0, b1, b2, b3, rfl⟩ : ∃ b0 b1 b2 b3, p = [b0, b1, b2, b3] := by
      match p, hp with
      | [b0, b1, b2, b3], _ => exact ⟨b0, b1, b2, b3, rfl⟩
    obtain ⟨h0, r0, g0⟩ := fgetc_step fp b0 _ h
    obtain ⟨h1, r1, g1⟩ := fgetc_step _ b1 _ r0
    obtain ⟨h2, r2, g2⟩ := fgetc_step _ b2 _ r1
    obtain ⟨h3, r3, g3⟩ := fgetc_step _ b3 _ r2
    simp only [Mode.read, Mode.expand, Mode.srcBytes, h0, h1, h2, h3, g0, g1, g2, g3,
      List.getD_cons_zero, List.getD_cons_succ]
    rfl
  · obtain ⟨b0, rfl⟩ : ∃ b0, p = [b0] := List.length_eq_one.mp hp
    obtain ⟨h0, _, g0⟩ := fgetc_step fp b0 _ h
    simp only [Mode.read, Mode.expand, Mode.srcBytes, h0, g0, List.getD_cons_zero]
  · obtain ⟨b0, b1, rfl⟩ : ∃ b0 b1, p = [b0, b1] := List.length_eq_two.mp hp
    obtain ⟨h0, r0, g0⟩ := fgetc_step fp b0 _ h
    obtain ⟨h1, r1, g1⟩ := fgetc_step _ b1 _ r0
    simp only [Mode.read, Mode.expand, Mode.srcBytes, h0, h1, g0, g1,
      List.getD_cons_zero, List.getD_cons_succ]
    rfl
theorem overlay_getD (p : List Nat) (rgb : Nat → Nat) (i : Nat) (h : i < p.length) :
    overlay p rgb i = p.getD i 0 := by
  unfold overlay
  rw [List.getD_eq_getElem _ _ h, List.getD_eq_getElem _ _ h]

/-- With a whole pixel left in the stream, the run branch reads it, gets its
expansion and steps over its bytes. -/
theorem run_rest (colormap : Nat → Nat) (rgb : Nat → Nat) (mode : Mode) (fp : FILE)
    (p tail : List Nat) (h : fp.rest = p ++ tail) (hp : p.length = mode.srcBytes) :
    (mode.run colormap rgb fp).1 = mode.expand colormap p ∧
      (mode.run colormap rgb fp).2.1 = fseek fp mode.srcBytes := by
  have hr := read_rest colormap mode fp p tail h hp
  have ht : fp.rest.take p.length = p := by rw [h, List.take_left]
  cases mode
  · simp only [Mode.run, hr, and_self]
  · simp only [Mode.run, hr, and_self]
  · have hp3 : p.length = 3 := hp
    rw [hp3] at ht
    simp only [Mode.run, fread_rest, ht, Mode.expand, Mode.srcBytes, hp3,
      overlay_getD p rgb 2 (by omega), overlay_getD p rgb 1 (by omega),
      overlay_getD p rgb 0 (by omega), and_self]
  · have hp4 : p.length = 4 := hp
    rw [hp4] at ht
    simp only [Mode.run, fread_rest, ht, Mode.expand, Mode.srcBytes, hp4,
      overlay_getD p rgb 2 (by omega), overlay_getD p rgb 1 (by omega),
      overlay_getD p rgb 0 (by omega), overlay_getD p rgb 3 (by omega), and_self]
  · simp only [Mode.run, hr, and_self]
  · simp only [Mode.run, hr, and_self]

theorem expandAll_succ (colormap : Nat → Nat) (mode : Mode) (src : List Nat) (n : Nat) :
    expandAll colormap mode src (n + 1) =
      expandAll colormap mode src n ++ mode.expand colormap (srcPixel mode.srcBytes src n) := by
  simp [expandAll, List.range_succ, List.flatMap_append]

/-- With `n` whole pixels left in the stream, reading them one after the other
gives their expansions in stream order and steps over their bytes. -/
theorem pixelLoop_rest (colormap : Nat → Nat) (mode : Mode) (n : Nat) (fp : FILE)
    (h : n * mode.srcBytes ≤ fp.rest.length) :
    pixelLoop (mode.read colormap) n fp =
      (expandAll colormap mode fp.rest n, fseek fp (n * mode.srcBytes)) := by
  induction n with
  | zero => simp [pixelLoop, expandAll, fseek]
  | succ n ih =>
    have hn : n * mode.srcBytes ≤ fp.rest.length := by
      rw [Nat.succ_mul] at h; omega
    have hk : mode.srcBytes ≤ (fp.rest.drop (n * mode.srcBytes)).length := by
      rw [Nat.succ_mul] at h; rw [List.length_drop]; omega
    have hsplit : (fseek fp (n * mode.srcBytes)).rest =
        srcPixel mode.srcBytes fp.rest n ++
          (fp.rest.drop (n * mode.srcBytes)).drop mode.srcBytes := by
      rw [rest_fseek, srcPixel, List.take_append_drop]
    have hlen : (srcPixel mode.srcBytes fp.rest n).length = mode.srcBytes := by
      rw [srcPixel, List.length_take]; omega
    simp only [pixelLoop, ih hn, read_rest colormap mode _ _ _ hsplit hlen, expandAll_succ,
      fseek_fseek, Nat.succ_mul]

theorem run_length (colormap : Nat → Nat) (rgb : Nat → Nat) (mode : Mode) (fp : FILE) :
    (mode.run colormap rgb fp).1.length = mode.bpp := by
  cases mode <;> rfl

theorem packetSize_pos (h : Nat) : 1 ≤ packetSize h := by
  unfold packetSize
  omega

/-- Every packet stores a whole number of pixels, at least one, from `ptr` on
and moves `ptr` behind them; nothing else in the texture record changes. -/
theorem packet_shape (colormap : Nat → Nat) (mode : Mode) (s : Decoder) :
    ∃ out : List Nat,
      (mode.packet colormap s).texinfo = blit s.texinfo s.ptr out ∧
      (mode.packet colormap s).ptr = s.ptr + out.length ∧
      out.length = packetSize (GLubyte (fgetc s.fp).1) * mode.bpp := by
  rw [packet_eq]
  by_cases h : GLubyte (fgetc s.fp).1 &&& 0x80 ≠ 0
  · rw [if_pos h]
    refine ⟨_, rfl, ?_, ?_⟩
    · simp [List.length_flatten, run_length]
    · simp [List.length_flatten, run_length]
  · rw [if_neg h]
    refine ⟨_, rfl, ?_, ?_⟩
    · simp [pixelLoop_length _ _ (read_length colormap mode)]
    · simp [pixelLoop_length _ _ (read_length colormap mode)]

/-- A `while` loop whose body lowers a measure below the fuel runs to its end:
the condition fails in the state it leaves, and an invariant of the body holds there. -/
theorem whileLoop_ends {σ : Type} (cond : σ → Bool) (body : σ → σ) (μ : σ → Nat)
    (P : σ → Prop) (hμ : ∀ s, P s → cond s = true → μ (body s) < μ s)
    (hP : ∀ s, P s → cond s = true → P (body s)) (fuel : Nat) (s : σ) (h0 : P s)
    (hf : μ s ≤ fuel) :
    ∃ s', whileLoop fuel cond body s = some s' ∧ cond s' = false ∧ P s' := by
  induction fuel generalizing s with
  | zero =>
    have hc : cond s = false := by
      by_contra hc
      have := hμ s h0 (by simpa using hc)
      omega
    exact ⟨s, by simp [whileLoop, hc], hc, h0⟩
  | succ fuel ih =>
    by_cases hc : cond s = true
    · have := hμ s h0 hc
      obtain ⟨s', h1, h2, h3⟩ := ih (body s) (hP s h0 hc) (by omega)
      exact ⟨s', by simp [whileLoop, hc, h1], h2, h3⟩
    · have hc' : cond s = false := by simpa using hc
      exact ⟨s, by simp [whileLoop, hc'], hc', h0⟩

theorem filled_start (rgb : Nat → Nat) (fp : FILE) (t : gl_texture_t) :
    Filled t (start rgb fp t) :=
  ⟨rfl, rfl, rfl, rfl, rfl, fun o h => absurd h (Nat.not_lt_zero o), fun _ _ => rfl⟩

theorem filled_packet (colormap : Nat → Nat) (mode : Mode) (t : gl_texture_t) (s : Decoder)
    (h : Filled t s) : Filled t (mode.packet colormap s) := by
  obtain ⟨out, h1, h2, _⟩ := packet_shape colormap mode s
  obtain ⟨a, b, c, d, e, f, g⟩ := h
  rw [Filled, h1, h2]
  refine ⟨a, b, c, d, e, ?_, ?_⟩
  · intro o ho
    rw [blit_texels]
    by_cases hin : s.ptr ≤ o ∧ o < s.ptr + out.length
    · rw [if_pos hin]; rfl
    · rw [if_neg hin]; exact f o (by omega)
  · intro o ho
    rw [blit_texels, if_neg (by omega)]
    exact g o (by omega)

/-- The loop of every run-length decoder runs to its end within its fuel, on
every stream: it leaves the cursor at or behind the end of the image, every cell
below the cursor stored, and the other fields of the record as they were. -/
theorem rle_ends (colormap : Nat → Nat) (mode : Mode) (rgb : Nat → Nat) (fp : FILE)
    (t : gl_texture_t) :
    ∃ s, whileLoop (t.width * t.height).toNat (inside (t.width * t.height * mode.bpp))
        (mode.packet colormap) (start rgb fp t) = some s ∧
      inside (t.width * t.height * mode.bpp) s = false ∧ Filled t s := by
  apply whileLoop_ends (inside (t.width * t.height * mode.bpp)) (mode.packet colormap)
    (fun s => (t.width * t.height).toNat - s.ptr / mode.bpp) (Filled t)
  · intro s _ hc
    obtain ⟨out, _, h2, h3⟩ := packet_shape colormap mode s
    have hs := packetSize_pos (GLubyte (fgetc s.fp).1)
    simp only [inside, decide_eq_true_eq] at hc
    rw [h2, h3]
    generalize t.width * t.height = npix at hc ⊢
    generalize packetSize (GLubyte (fgetc s.fp).1) = size at hs ⊢
    cases mode <;> simp only [Mode.bpp] at hc ⊢ <;> omega
  · intro s hs _
    exact filled_packet colormap mode t s hs
  · exact filled_start rgb fp t
  · simp [start]

theorem decodeRLE_loops (colormap : Nat → Nat) (rgb : Nat → Nat) (mode : Mode)
    (t : gl_texture_t) (hfit : mode.rleFits t) :
    ∃ rgb0, ∀ fp, mode.decodeRLE colormap rgb fp t =
      finish (whileLoop (t.width * t.height).toNat (inside (t.width * t.height * mode.bpp))
        (mode.packet colormap) (start rgb0 fp t)) := by
  have hb : mode ≠ Mode.gray8 → bound t mode.bpp = .ok (t.width * t.height * mode.bpp) := by
    intro h8
    rcases hfit with h | h
    · exact absurd h h8
    · exact bound_ok mode t h
  cases mode
  · have hb := hb (by decide)
    exact ⟨fun _ => 0, fun fp => by
      simp only [Mode.decodeRLE, ReadTGA8bitsRLE]
      erw [hb]; rfl⟩
  · have hb := hb (by decide)
    exact ⟨fun _ => 0, fun fp => by
      simp only [Mode.decodeRLE, ReadTGA16bitsRLE]
      erw [hb]; rfl⟩
  · have hb := hb (by decide)
    exact ⟨rgb, fun fp => by
      simp only [Mode.decodeRLE, ReadTGA24bitsRLE]
      erw [hb]; rfl⟩
  · have hb := hb (by decide)
    exact ⟨rgb, fun fp => by
      simp only [Mode.decodeRLE, ReadTGA32bitsRLE]
      erw [hb]; rfl⟩
  · exact ⟨fun _ => 0, fun fp => by
      simp only [Mode.decodeRLE, ReadTGAgray8bitsRLE, Mode.bpp, Nat.cast_one, Int.mul_one]
      rfl⟩
  · have hb := hb (by decide)
    exact ⟨fun _ => 0, fun fp => by
      simp only [Mode.decodeRLE, ReadTGAgray16bitsRLE]
      erw [hb]; rfl⟩

/-- Every run-length decoder is the `while` loop over the packets of its mode,
entered with `ptr` at the start of the texels, when the offset of its loop
condition is within the range of `int`. -/
theorem decodeRLE_loop (colormap : Nat → Nat) (rgb : Nat → Nat) (mode : Mode) (fp : FILE)
    (t : gl_texture_t) (hfit : mode.rleFits t) :
    ∃ rgb0, mode.decodeRLE colormap rgb fp t =
      finish (whileLoop (t.width * t.height).toNat (inside (t.width * t.height * mode.bpp))
        (mode.packet colormap) (start rgb0 fp t)) := by
  obtain ⟨rgb0, h⟩ := decodeRLE_loops colormap rgb mode t hfit
  exact ⟨rgb0, h fp⟩

/-- Beyond the range of `int` every run-length decoder that multiplies in its
loop condition faults, on every stream and with every colormap. -/
theorem decodeRLE_overflow (colormap : Nat → Nat) (rgb : Nat → Nat) (mode : Mode) (fp : FILE)
    (t : gl_texture_t) (hfit : ¬ mode.rleFits t) :
    mode.decodeRLE colormap rgb fp t = .error Fault.int_overflow := by
  unfold Mode.rleFits at hfit
  simp only [not_or] at hfit
  obtain ⟨h8, hfit⟩ := hfit
  have hb : bound t mode.bpp = .error Fault.int_overflow := if_neg hfit
  cases mode
  · simp only [Mode.decodeRLE, ReadTGA8bitsRLE]
    erw [hb]; rfl
  · simp only [Mode.decodeRLE, ReadTGA16bitsRLE]
    erw [hb]; rfl
  · simp only [Mode.decodeRLE, ReadTGA24bitsRLE]
    erw [hb]; rfl
  · simp only [Mode.decodeRLE, ReadTGA32bitsRLE]
    erw [hb]; rfl
  · exact absurd rfl h8
  · simp only [Mode.decodeRLE, ReadTGAgray16bitsRLE]
    erw [hb]; rfl

theorem decodeRLE_ok (colormap : Nat → Nat) (rgb : Nat → Nat) (mode : Mode) (fp : FILE)
    (t : gl_texture_t) (hfit : mode.rleFits t) :
    ∃ s, mode.decodeRLE colormap rgb fp t = .ok (s.fp, s.texinfo) ∧
      inside (t.width * t.height * mode.bpp) s = false ∧ Filled t s := by
  obtain ⟨rgb0, hloop⟩ := decodeRLE_loop colormap rgb mode fp t hfit
  obtain ⟨s, h1, h2, h3⟩ := rle_ends colormap mode rgb0 fp t
  exact ⟨s, by rw [hloop, h1]; rfl, h2, h3⟩

/-- What every turn of a `while` loop keeps holds when the loop ends. -/
theorem whileLoop_inv {σ : Type} (P : σ → Prop) (cond : σ → Bool) (body : σ → σ)
    (hP : ∀ s, P s → P (body s)) (fuel : Nat) (s s' : σ) (h0 : P s)
    (h : whileLoop fuel cond body s = some s') : P s' := by
  induction fuel generalizing s with
  | zero =>
    by_cases hc : cond s = true
    · simp [whileLoop, hc] at h
    · simp [whileLoop, hc] at h
      exact h ▸ h0
  | succ fuel ih =>
    by_cases hc : cond s = true
    · simp only [whileLoop, hc, if_true] at h
      exact ih (body s) (hP s h0) h
    · simp [whileLoop, hc] at h
      exact h ▸ h0

/-- The fields of the texture record other than the texels. -/
theorem store_fields (t : gl_texture_t) (off v : Nat) :
    (t.store off v).width = t.width ∧ (t.store off v).height = t.height ∧
      (t.store off v).format = t.format ∧ (t.store off v).internalFormat = t.internalFormat :=
  ⟨rfl, rfl, rfl, rfl⟩

/-- A scanline decoder that returns hands back the record with the size and the
layout it came with. -/
theorem decode_fields (colormap : Nat → Nat) (mode : Mode) (fp fp' : FILE)
    (t t' : gl_texture_t) (h : mode.decode colormap fp t = .ok (fp', t')) :
    t'.width = t.width ∧ t'.height = t.height ∧ t'.format = t.format ∧
      t'.internalFormat = t.internalFormat := by
  have key : ∀ (body : Nat → FILE × gl_texture_t → Except Fault (FILE × gl_texture_t)),
      (∀ i s s', body i s = .ok s' → s'.2.width = s.2.width ∧ s'.2.height = s.2.height ∧
        s'.2.format = s.2.format ∧ s'.2.internalFormat = s.2.internalFormat) →
      forLoopE (t.width * t.height).toNat body (fp, t) = .ok (fp', t') →
      t'.width = t.width ∧ t'.height = t.height ∧ t'.format = t.format ∧
        t'.internalFormat = t.internalFormat := by
    intro body hb hl
    exact forLoopE_inv (fun s => s.2.width = t.width ∧ s.2.height = t.height ∧
      s.2.format = t.format ∧ s.2.internalFormat = t.internalFormat) _ body (fp, t) (fp', t')
      (fun i s s' hp hs => by
        obtain ⟨a, b, c, d⟩ := hb i s s' hs
        exact ⟨a.trans hp.1, b.trans hp.2.1, c.trans hp.2.2.1, d.trans hp.2.2.2⟩)
      ⟨rfl, rfl, rfl, rfl⟩ hl
  cases mode
  · refine key _ ?_ h
    intro i s s' hs
    by_cases hc : (i : Int) * 3 + 2 ≤ INT_MAX
    · rw [if_pos hc] at hs
      injection hs with hs
      rw [← hs]; exact ⟨rfl, rfl, rfl, rfl⟩
    · rw [if_neg hc] at hs; cases hs
  · refine key _ ?_ h
    intro i s s' hs
    by_cases hc : (i : Int) * 3 + 2 ≤ INT_MAX
    · rw [if_pos hc] at hs
      injection hs with hs
      rw [← hs]; exact ⟨rfl, rfl, rfl, rfl⟩
    · rw [if_neg hc] at hs; cases hs
  · refine key _ ?_ h
    intro i s s' hs
    by_cases hc : (i : Int) * 3 + 2 ≤ INT_MAX
    · rw [if_pos hc] at hs
      injection hs with hs
      rw [← hs]; exact ⟨rfl, rfl, rfl, rfl⟩
    · rw [if_neg hc] at hs; cases hs
  · refine key _ ?_ h
    intro i s s' hs
    by_cases hc : (i : Int) * 4 + 3 ≤ INT_MAX
    · rw [if_pos hc] at hs
      injection hs with hs
      rw [← hs]; exact ⟨rfl, rfl, rfl, rfl⟩
    · rw [if_neg hc] at hs; cases hs
  · have h1 := forLoop_scan (Mode.read colormap .gray8) 1
      (fun i s => ((fgetc s.1).2, s.2.store i (GLubyte (fgetc s.1).1)))
      (fun i s => congrArg (Prod.mk _) ((store_eq_blit _ _ _).trans (by rw [Nat.mul_one]; rfl)))
      (read_length colormap _) (t.width * t.height).toNat fp t
    have h2 : (Except.ok (ReadTGAgray8bits fp t) : Except Fault _) = .ok (fp', t') := h
    injection h2 with h2
    have h3 : (fp', t') = _ := h2.symm.trans h1
    rw [(Prod.mk.inj h3).2]; exact ⟨rfl, rfl, rfl, rfl⟩
  · have h1 := forLoop_scan (Mode.read colormap .gray16) 2
      (fun i s => ((fgetc (fgetc s.1).2).2,
        (s.2.store (i * 2 + 0) (GLubyte (fgetc s.1).1)).store (i * 2 + 1)
          (GLubyte (fgetc (fgetc s.1).2).1)))
      (fun i s => congrArg (Prod.mk _) (store2 _ _ _ _))
      (read_length colormap _) (t.width * t.height).toNat fp t
    have h2 : (Except.ok (ReadTGAgray16bits fp t) : Except Fault _) = .ok (fp', t') := h
    injection h2 with h2
    have h3 : (fp', t') = _ := h2.symm.trans h1
    rw [(Prod.mk.inj h3).2]; exact ⟨rfl, rfl, rfl, rfl⟩

/-- A run-length decoder that returns ran its loop to the end from the start of
the texels, whatever the offset of its condition was. -/
theorem decodeRLE_some (colormap : Nat → Nat) (rgb : Nat → Nat) (mode : Mode) (fp fp' : FILE)
    (t t' : gl_texture_t) (h : mode.decodeRLE colormap rgb fp t = .ok (fp', t')) :
    ∃ n rgb0 s, whileLoop (t.width * t.height).toNat (inside n) (mode.packet colormap)
      (start rgb0 fp t) = some s ∧ s.fp = fp' ∧ s.texinfo = t' := by
  have fin : ∀ r : Option Decoder, finish r = .ok (fp', t') →
      ∃ s, r = some s ∧ s.fp = fp' ∧ s.texinfo = t' := by
    intro r hr
    cases r with
    | none => cases hr
    | some s =>
      have h1 : (Except.ok (s.fp, s.texinfo) : Except Fault _) = .ok (fp', t') := hr
      injection h1 with h1
      exact ⟨s, rfl, (Prod.mk.inj h1).1, (Prod.mk.inj h1).2⟩
  have bnd : ∀ (k : Int) (f : Int → Except Fault (FILE × gl_texture_t)),
      (bound t k).bind f = .ok (fp', t') → ∃ n, f n = .ok (fp', t') := by
    intro k f hb
    cases hk : bound t k with
    | error e => rw [hk] at hb; cases hb
    | ok n => rw [hk] at hb; exact ⟨n, hb⟩
  cases mode
  · obtain ⟨n, hn⟩ := bnd 3 _ h
    obtain ⟨s, hs⟩ := fin _ hn
    exact ⟨n, _, s, hs⟩
  · obtain ⟨n, hn⟩ := bnd 3 _ h
    obtain ⟨s, hs⟩ := fin _ hn
    exact ⟨n, _, s, hs⟩
  · obtain ⟨n, hn⟩ := bnd 3 _ h
    obtain ⟨s, hs⟩ := fin _ hn
    exact ⟨n, _, s, hs⟩
  · obtain ⟨n, hn⟩ := bnd 4 _ h
    obtain ⟨s, hs⟩ := fin _ hn
    exact ⟨n, _, s, hs⟩
  · obtain ⟨s, hs⟩ := fin _ h
    exact ⟨_, _, s, hs⟩
  · obtain ⟨n, hn⟩ := bnd 2 _ h
    obtain ⟨s, hs⟩ := fin _ hn
    exact ⟨n, _, s, hs⟩

/-- A run-length decoder that returns hands back the record with the size and
the layout it came with. -/
theorem decodeRLE_fields (colormap : Nat → Nat) (rgb : Nat → Nat) (mode : Mode)
    (fp fp' : FILE) (t t' : gl_texture_t)
    (h : mode.decodeRLE colormap rgb fp t = .ok (fp', t')) :
    t'.width = t.width ∧ t'.height = t.height ∧ t'.format = t.format ∧
      t'.internalFormat = t.internalFormat := by
  obtain ⟨n, rgb0, s, hs, _, ht⟩ := decodeRLE_some colormap rgb mode fp fp' t t' h
  have hf : Filled t s :=
    whileLoop_inv (Filled t) (inside n) (mode.packet colormap)
      (fun s hs => filled_packet colormap mode t s hs) _ _ s (filled_start rgb0 fp t) hs
  rw [← ht]
  exact ⟨hf.1, hf.2.1, hf.2.2.1, hf.2.2.2.1⟩

/-- The `switch` of `ReadTGAFile` calls the decoder that `dispatch` names. -/
theorem readImageData_dispatch (rgb : Nat → Nat) (header : tga_header_t) (fp : FILE)
    (colormap : Option (Nat → Nat)) (cm : Nat → Nat) (t : gl_texture_t) (mode : Mode)
    (rle : Bool) (hd : header.dispatch = some (mode, rle))
    (hcm : mode = Mode.indexed8 → colormap = some cm) :
    readImageData rgb header fp colormap t =
      ((if rle then mode.decodeRLE cm rgb fp t else mode.decode cm fp t).map decoded) := by
  unfold tga_header_t.dispatch at hd
  unfold readImageData
  split_ifs at hd <;> simp only [Option.some.injEq, Prod.mk.injEq] at hd <;>
    obtain ⟨rfl, rfl⟩ := hd <;> simp_all [Mode.decode, Mode.decodeRLE] <;> rfl

theorem whileLoop_false {σ : Type} (cond : σ → Bool) (body : σ → σ) (fuel : Nat) (s : σ)
    (h : cond s = false) : whileLoop fuel cond body s = some s := by
  cases fuel <;> simp [whileLoop, h]

theorem whileLoop_true {σ : Type} (cond : σ → Bool) (body : σ → σ) (fuel : Nat) (s : σ)
    (h : cond s = true) :
    whileLoop (fuel + 1) cond body s = whileLoop fuel cond body (body s) := by
  simp [whileLoop, h]

/-- The effect of a run-length packet on a stream that holds its pixel. -/
theorem packet_run (colormap : Nat → Nat) (mode : Mode) (s : Decoder) (h : Nat)
    (p tail : List Nat) (hrest : s.fp.rest = h :: (p ++ tail)) (hp : p.length = mode.srcBytes)
    (hrun : h &&& 0x80 ≠ 0) :
    (mode.packet colormap s).fp = fseek s.fp (1 + mode.srcBytes) ∧
      (mode.packet colormap s).ptr = s.ptr + (1 + (h &&& 0x7f)) * mode.bpp ∧
      (mode.packet colormap s).texinfo =
        blit s.texinfo s.ptr
          (List.replicate (1 + (h &&& 0x7f)) (mode.expand colormap p)).flatten := by
  obtain ⟨h0, r0, g0⟩ := fgetc_step s.fp h _ hrest
  obtain ⟨e1, e2⟩ := run_rest colormap s.rgb mode (fseek s.fp 1) p tail r0 hp
  rw [packet_eq, h0]
  simp only [g0]
  rw [if_pos hrun]
  simp only [e1, e2, fseek_fseek, packetSize, and_self]

theorem srcPixel_append (k : Nat) (src tail : List Nat) (i : Nat)
    (h : (i + 1) * k ≤ src.length) : srcPixel k (src ++ tail) i = srcPixel k src i := by
  have h1 : i * k ≤ src.length := by rw [Nat.succ_mul] at h; omega
  have h2 : k ≤ (src.drop (i * k)).length := by
    rw [Nat.succ_mul] at h; rw [List.length_drop]; omega
  rw [srcPixel, srcPixel, List.drop_append_of_le_length h1, List.take_append_of_le_length h2]

theorem expandAll_append (colormap : Nat → Nat) (mode : Mode) (src tail : List Nat) (n : Nat)
    (h : n * mode.srcBytes ≤ src.length) :
    expandAll colormap mode (src ++ tail) n = expandAll colormap mode src n := by
  induction n with
  | zero => rfl
  | succ n ih =>
    have hn : n * mode.srcBytes ≤ src.length := by rw [Nat.succ_mul] at h; omega
    rw [expandAll_succ, expandAll_succ, ih hn, srcPixel_append _ _ _ _ h]

theorem expandAll_length (colormap : Nat → Nat) (mode : Mode) (src : List Nat) (n : Nat) :
    (expandAll colormap mode src n).length = n * mode.bpp := by
  induction n with
  | zero => simp [expandAll]
  | succ n ih =>
    rw [expandAll_succ, List.length_append, ih, Nat.succ_mul]
    cases mode <;> rfl

/-- The effect of a raw packet on a stream that holds its pixels. -/
theorem packet_raw (colormap : Nat → Nat) (mode : Mode) (s : Decoder) (h : Nat)
    (src tail : List Nat) (hrest : s.fp.rest = h :: (src ++ tail))
    (hsrc : src.length = (1 + (h &&& 0x7f)) * mode.srcBytes) (hraw : h &&& 0x80 = 0) :
    (mode.packet colormap s).fp = fseek s.fp (1 + (1 + (h &&& 0x7f)) * mode.srcBytes) ∧
      (mode.packet colormap s).ptr = s.ptr + (1 + (h &&& 0x7f)) * mode.bpp ∧
      (mode.packet colormap s).texinfo =
        blit s.texinfo s.ptr (expandAll colormap mode src (1 + (h &&& 0x7f))) := by
  obtain ⟨h0, r0, g0⟩ := fgetc_step s.fp h _ hrest
  have hlen : (1 + (h &&& 0x7f)) * mode.srcBytes ≤ (fseek s.fp 1).rest.length := by
    rw [r0, List.length_append]; omega
  have hloop := pixelLoop_rest colormap mode (1 + (h &&& 0x7f)) (fseek s.fp 1) hlen
  rw [r0, expandAll_append colormap mode src tail _ (by omega)] at hloop
  rw [packet_eq, h0]
  simp only [g0]
  rw [if_neg (by simpa using hraw)]
  simp only [packetSize, hloop, fseek_fseek, and_self]

/-- An image that one packet fills: the decoder returns what that packet leaves. -/
theorem decodeRLE_single (colormap : Nat → Nat) (rgb : Nat → Nat) (mode : Mode) (fp : FILE)
    (t : gl_texture_t) (hfit : mode.rleFits t) (hpos : 0 < t.width * t.height)
    (hfill : ∀ rgb0, t.width * t.height * mode.bpp ≤
      ((mode.packet colormap (start rgb0 fp t)).ptr : Int)) :
    ∃ rgb0, mode.decodeRLE colormap rgb fp t =
      .ok ((mode.packet colormap (start rgb0 fp t)).fp,
        (mode.packet colormap (start rgb0 fp t)).texinfo) := by
  obtain ⟨rgb0, hloop⟩ := decodeRLE_loop colormap rgb mode fp t hfit
  refine ⟨rgb0, ?_⟩
  have hbpp : 0 < (mode.bpp : Int) := by cases mode <;> decide
  obtain ⟨n, hn⟩ : ∃ n, (t.width * t.height).toNat = n + 1 :=
    ⟨(t.width * t.height).toNat - 1, by omega⟩
  have h1 : inside (t.width * t.height * mode.bpp) (start rgb0 fp t) = true := by
    simp only [inside, start, decide_eq_true_eq]
    exact_mod_cast Int.mul_pos hpos hbpp
  have h2 : inside (t.width * t.height * mode.bpp) (mode.packet colormap (start rgb0 fp t)) =
      false := by
    simp only [inside, decide_eq_false_iff_not, not_lt]
    exact hfill rgb0
  rw [hloop, hn, whileLoop_true _ _ _ _ h1, whileLoop_false _ _ _ _ h2]
  rfl

theorem except_map_map {ε α β γ : Type} (f : α → β) (g : β → γ) (x : Except ε α) :
    (x.map f).map g = x.map (fun a => g (f a)) := by
  cases x <;> rfl

/-- With the colormap block granted, `readColormap` leaves what `colormapOf` names. -/
theorem readColormap_granted (m : Machine) (header : tga_header_t) (fp : FILE)
    (h : m.grants header) : readColormap m header fp = .ok (colormapOf m header fp) := by
  unfold readColormap colormapOf
  by_cases hc : header.colormap_type ≠ 0
  · rw [if_pos hc, if_pos hc]
    simp only [h hc, if_true]
  · rw [if_neg hc, if_neg hc]

/-- With the colormap block refused and a byte of the file left for it, `fread`
stores through the null pointer. -/
theorem readColormap_refused (m : Machine) (header : tga_header_t) (fp : FILE)
    (hc : header.colormap_type ≠ 0) (h : m.malloc (colormapBytes header) = false)
    (hgot : (fread (colormapBytes header) fp).1 ≠ []) :
    readColormap m header fp = .error Fault.null_colormap := by
  unfold readColormap
  rw [if_pos hc]
  simp only [h, Bool.false_eq_true, if_false, if_neg hgot]

/-- A call of `ReadTGAFile` whose texel buffer is granted: the colormap is read, then
the `switch` runs. -/
theorem ReadTGAFile_run (m : Machine) (bytes : List (Fin 256))
    (h : m.malloc (texelBytes (recordOf m bytes)) = true) :
    ReadTGAFile.run m (some bytes) =
      (readColormap m (headerOf m bytes) (streamOf m bytes)).bind fun cm =>
        (readImageData m.rgb (headerOf m bytes) cm.2 cm.1 (freshOf m bytes)).map
          (fun r => (some r.1, r.2)) := by
  have h' : m.malloc (texelBytes (GetTextureInfo (readHeader m { data := bytes, pos := 0 }).1
      m.texinfo)) = true := h
  simp only [ReadTGAFile.run, h', if_true]
  rfl

theorem ReadTGAFile_granted (m : Machine) (bytes : List (Fin 256))
    (h : m.malloc (texelBytes (recordOf m bytes)) = true) (hcm : m.grants (headerOf m bytes)) :
    ReadTGAFile m (some bytes) =
      (readImageData m.rgb (headerOf m bytes)
        (colormapOf m (headerOf m bytes) (streamOf m bytes)).2
        (colormapOf m (headerOf m bytes) (streamOf m bytes)).1 (freshOf m bytes)).map
        (fun r => r.2) := by
  rw [ReadTGAFile, ReadTGAFile_run m bytes h, readColormap_granted m _ _ hcm]
  exact except_map_map _ _ _

theorem ReadTGAFile_refused (m : Machine) (bytes : List (Fin 256))
    (h : m.malloc (texelBytes (recordOf m bytes)) = false) :
    ReadTGAFile m (some bytes) = .ok { texinfo := none, stderr := [] } := by
  have h' : m.malloc (texelBytes (GetTextureInfo (readHeader m { data := bytes, pos := 0 }).1
      m.texinfo)) = false := h
  simp only [ReadTGAFile, ReadTGAFile.run, h']
  rfl

theorem colormapOf_some (m : Machine) (header : tga_header_t) (fp : FILE)
    (h : header.colormap_type ≠ 0) :
    ∃ cm, (colormapOf m header fp).1 = some cm := by
  simp only [colormapOf, if_pos h]
  exact ⟨_, rfl⟩

/-- For a header for which the `switch` calls no decoder and whose image type it
knows, the record is handed back as it came. -/
theorem readImageData_none (rgb : Nat → Nat) (header : tga_header_t) (fp : FILE)
    (colormap : Option (Nat → Nat)) (t : gl_texture_t) (hd : header.dispatch = none)
    (hk : knownType header.image_type) :
    readImageData rgb header fp colormap t = .ok (fp, { texinfo := some t, stderr := [] }) := by
  unfold knownType at hk
  rcases hk with h | h | h | h | h | h | h
  · simp [readImageData, h, decoded]
  · simp [tga_header_t.dispatch, h] at hd
  · simp [tga_header_t.dispatch, h] at hd
    simp only [readImageData, h]
    split_ifs at hd with a b c
    simp [a, b, c, decoded]
  · simp [tga_header_t.dispatch, h] at hd
    split_ifs at hd
  · simp [tga_header_t.dispatch, h] at hd
  · simp [tga_header_t.dispatch, h] at hd
    simp only [readImageData, h]
    split_ifs at hd with a b c
    simp [a, b, c, decoded]
  · simp [tga_header_t.dispatch, h] at hd
    split_ifs at hd

/-- For a header whose image type the `switch` does not know, no record is
handed back and the type is reported. -/
theorem readImageData_unknown (rgb : Nat → Nat) (header : tga_header_t) (fp : FILE)
    (colormap : Option (Nat → Nat)) (t : gl_texture_t) (hk : ¬ knownType header.image_type) :
    readImageData rgb header fp colormap t =
      .ok (fp, { texinfo := none,
                 stderr := [Diagnostic.unknown_image_type header.image_type] }) := by
  unfold knownType at hk
  simp only [not_or] at hk
  obtain ⟨h0, h1, h2, h3, h9, h10, h11⟩ := hk
  simp only [readImageData, h0, h1, h2, h3, h9, h10, h11, if_false]

/-- With a known image type and, for the indexed types, a colormap, the
`switch` hands back a record with the size and format it came with and prints
nothing, on every stream. -/
theorem readImageData_returns (rgb : Nat → Nat) (header : tga_header_t) (fp : FILE)
    (colormap : Option (Nat → Nat)) (t : gl_texture_t) (hk : knownType header.image_type)
    (hcm : header.image_type = 1 ∨ header.image_type = 9 → ∃ cm, colormap = some cm)
    (hfit : ∀ mode rle, header.dispatch = some (mode, rle) → mode.fits t) :
    ∃ fp' t', readImageData rgb header fp colormap t =
        .ok (fp', { texinfo := some t', stderr := [] }) ∧
      t'.width = t.width ∧ t'.height = t.height ∧ t'.format = t.format ∧
      t'.internalFormat = t.internalFormat := by
  rcases hdisp : header.dispatch with _ | ⟨mode, rle⟩
  · exact ⟨fp, t, readImageData_none rgb header fp colormap t hdisp hk, rfl, rfl, rfl, rfl⟩
  · obtain ⟨cm, hcm'⟩ : ∃ cm, mode = Mode.indexed8 → colormap = some cm := by
      by_cases hi : header.image_type = 1 ∨ header.image_type = 9
      · obtain ⟨cm, h⟩ := hcm hi
        exact ⟨cm, fun _ => h⟩
      · refine ⟨fun _ => 0, fun hm => ?_⟩
        exfalso
        subst hm
        unfold tga_header_t.dispatch at hdisp
        split_ifs at hdisp <;> simp_all
    rw [readImageData_dispatch rgb header fp colormap cm t mode rle hdisp hcm']
    have hfit := hfit mode rle hdisp
    cases rle
    · simp only [Bool.false_eq_true, if_false, decode_eq cm mode fp t (fits_scan hfit)]
      exact ⟨_, _, rfl, rfl, rfl, rfl, rfl⟩
    · obtain ⟨s, h1, _, h3⟩ := decodeRLE_ok cm rgb mode fp t (fits_rle hfit)
      simp only [if_true, h1]
      exact ⟨s.fp, s.texinfo, rfl, h3.1, h3.2.1, h3.2.2.1, h3.2.2.2.1⟩

/-- For a supported encoding the `switch` calls a decoder, and the decoder steps
with the bytes per pixel that `GetTextureInfo` resolved. -/
theorem supported_dispatch (header : tga_header_t) (t0 : gl_texture_t)
    (h : Supported header) :
    ∃ mode rle, header.dispatch = some (mode, rle) ∧
      (GetTextureInfo header t0).internalFormat = mode.bpp ∧
      (rle = true ↔ 9 ≤ header.image_type) ∧
      (mode = Mode.indexed8 → header.image_type = 1 ∨ header.image_type = 9) := by
  unfold Supported at h
  rcases h with ⟨h1 | h1, h2⟩ | ⟨h1 | h1, h2 | h2 | h2⟩ | h1 | h1
  · exact ⟨Mode.indexed8, false, by simp [tga_header_t.dispatch, h1],
      by simp [GetTextureInfo, h1, h2, Mode.bpp], by simp [h1], fun _ => Or.inl h1⟩
  · exact ⟨Mode.indexed8, true, by simp [tga_header_t.dispatch, h1],
      by simp [GetTextureInfo, h1, h2, Mode.bpp], by simp [h1], fun _ => Or.inr h1⟩
  · exact ⟨Mode.true16, false, by simp [tga_header_t.dispatch, h1, h2],
      by simp [GetTextureInfo, h1, h2, Mode.bpp], by simp [h1], fun h => by cases h⟩
  · exact ⟨Mode.true24, false, by simp [tga_header_t.dispatch, h1, h2],
      by simp [GetTextureInfo, h1, h2, Mode.bpp], by simp [h1], fun h => by cases h⟩
  · exact ⟨Mode.true32, false, by simp [tga_header_t.dispatch, h1, h2],
      by simp [GetTextureInfo, h1, h2, Mode.bpp], by simp [h1], fun h => by cases h⟩
  · exact ⟨Mode.true16, true, by simp [tga_header_t.dispatch, h1, h2],
      by simp [GetTextureInfo, h1, h2, Mode.bpp], by simp [h1], fun h => by cases h⟩
  · exact ⟨Mode.true24, true, by simp [tga_header_t.dispatch, h1, h2],
      by simp [GetTextureInfo, h1, h2, Mode.bpp], by simp [h1], fun h => by cases h⟩
  · exact ⟨Mode.true32, true, by simp [tga_header_t.dispatch, h1, h2],
      by simp [GetTextureInfo, h1, h2, Mode.bpp], by simp [h1], fun h => by cases h⟩
  · by_cases h8 : header.pixel_depth = 8
    · exact ⟨Mode.gray8, false, by simp [tga_header_t.dispatch, h1, h8],
        by simp [GetTextureInfo, h1, h8, Mode.bpp], by simp [h1], fun h => by cases h⟩
    · exact ⟨Mode.gray16, false, by simp [tga_header_t.dispatch, h1, h8],
        by simp [GetTextureInfo, h1, h8, Mode.bpp], by simp [h1], fun h => by cases h⟩
  · by_cases h8 : header.pixel_depth = 8
    · exact ⟨Mode.gray8, true, by simp [tga_header_t.dispatch, h1, h8],
        by simp [GetTextureInfo, h1, h8, Mode.bpp], by simp [h1], fun h => by cases h⟩
    · exact ⟨Mode.gray16, true, by simp [tga_header_t.dispatch, h1, h8],
        by simp [GetTextureInfo, h1, h8, Mode.bpp], by simp [h1], fun h => by cases h⟩

/-- The decoder that the `switch` calls stores every cell below
`width * height * bpp` of the record it hands back, on every stream. -/
theorem readImageData_filled (rgb : Nat → Nat) (header : tga_header_t) (fp : FILE)
    (colormap : Option (Nat → Nat)) (cm : Nat → Nat) (t : gl_texture_t) (mode : Mode)
    (rle : Bool) (hd : header.dispatch = some (mode, rle))
    (hcm : mode = Mode.indexed8 → colormap = some cm) (hfit : mode.fits t) :
    ∃ fp' t', readImageData rgb header fp colormap t =
        .ok (fp', { texinfo := some t', stderr := [] }) ∧
      t'.width = t.width ∧ t'.height = t.height ∧ t'.format = t.format ∧
      t'.internalFormat = t.internalFormat ∧
      ∀ o : Nat, (o : Int) < t.width * t.height * mode.bpp → (t'.texels o).isSome = true := by
  rw [readImageData_dispatch rgb header fp colormap cm t mode rle hd hcm]
  cases rle
  · simp only [Bool.false_eq_true, if_false, decode_eq cm mode fp t (fits_scan hfit)]
    refine ⟨_, _, rfl, rfl, rfl, rfl, rfl, ?_⟩
    intro o ho
    have hl := pixelLoop_length (mode.read cm) mode.bpp (read_length cm mode)
      (t.width * t.height).toNat fp
    have hb : 0 ≤ (mode.bpp : Int) := Int.ofNat_nonneg _
    have hpos : 0 < t.width * t.height := by
      by_contra hc
      have := Int.mul_nonpos_of_nonpos_of_nonneg (not_lt.mp hc) hb
      omega
    have hlt : o < (t.width * t.height).toNat * mode.bpp := by
      have h1 : ((t.width * t.height).toNat : Int) = t.width * t.height :=
        Int.toNat_of_nonneg (le_of_lt hpos)
      have h2 : (o : Int) < (((t.width * t.height).toNat * mode.bpp : Nat) : Int) := by
        rw [Nat.cast_mul, h1]; exact ho
      exact_mod_cast h2
    rw [blit_texels, if_pos ⟨Nat.zero_le _, by rw [hl]; omega⟩]
    rfl
  · obtain ⟨s, h1, h2, h3⟩ := decodeRLE_ok cm rgb mode fp t (fits_rle hfit)
    simp only [if_true, h1]
    refine ⟨s.fp, s.texinfo, rfl, h3.1, h3.2.1, h3.2.2.1, h3.2.2.2.1, ?_⟩
    intro o ho
    apply h3.2.2.2.2.2.1
    simp only [inside, decide_eq_false_iff_not, not_lt] at h2
    have : (o : Int) < (s.ptr : Int) := lt_of_lt_of_le ho h2
    exact_mod_cast this

/-- Whatever the `switch` of `ReadTGAFile` hands back has the width and height the
record came with. -/
theorem readImageData_size (rgb : Nat → Nat) (header : tga_header_t) (fp fp' : FILE)
    (colormap : Option (Nat → Nat)) (t t' : gl_texture_t) (r : Returned)
    (h : readImageData rgb header fp colormap t = .ok (fp', r)) (ht : r.texinfo = some t') :
    t'.width = t.width ∧ t'.height = t.height ∧ t'.format = t.format ∧
      t'.internalFormat = t.internalFormat := by
  have dec : ∀ x : Except Fault (FILE × gl_texture_t), x.map decoded = .ok (fp', r) →
      x = .ok (fp', t') := by
    intro x hx
    cases x with
    | error e => cases hx
    | ok y =>
      have h1 : (Except.ok (decoded y) : Except Fault _) = .ok (fp', r) := hx
      injection h1 with h1
      have h2 : y.1 = fp' := (Prod.mk.inj h1).1
      have h3 : some y.2 = some t' := by
        rw [← ht, ← (Prod.mk.inj h1).2]
      injection h3 with h3
      rw [← h2, ← h3]
  by_cases hk : knownType header.image_type
  · rcases hdisp : header.dispatch with _ | ⟨mode, rle⟩
    · rw [readImageData_none rgb header fp colormap t hdisp hk] at h
      injection h with h
      have hr : r = { texinfo := some t, stderr := [] } := (Prod.mk.inj h).2.symm
      rw [hr] at ht
      injection ht with ht
      rw [← ht]
      exact ⟨rfl, rfl, rfl, rfl⟩
    · cases colormap with
      | some cm =>
        rw [readImageData_dispatch rgb header fp (some cm) cm t mode rle hdisp
          (fun _ => rfl)] at h
        cases rle
        · exact decode_fields cm mode fp fp' t t' (dec _ h)
        · exact decodeRLE_fields cm rgb mode fp fp' t t' (dec _ h)
      | none =>
        by_cases hm : mode = Mode.indexed8
        · subst hm
          have hty : header.image_type = 1 ∨ header.image_type = 9 := by
            unfold tga_header_t.dispatch at hdisp
            split_ifs at hdisp <;> simp_all
          rcases hty with h1 | h9
          · by_cases hpos : 0 < t.width * t.height
            · simp [readImageData, h1, ReadTGA8bits, hpos, Except.map] at h
            · simp [readImageData, h1, ReadTGA8bits, hpos, Except.map, decoded] at h
              obtain ⟨_, hr⟩ := h
              rw [← hr] at ht
              injection ht with ht
              rw [← ht]
              exact ⟨rfl, rfl, rfl, rfl⟩
          · rcases null_rle fp t with e | e | ⟨_, _, e⟩
            · simp [readImageData, h9, e, Except.map] at h
            · simp [readImageData, h9, e, Except.map] at h
            · simp [readImageData, h9, e, Except.map, decoded] at h
              obtain ⟨_, hr⟩ := h
              rw [← hr] at ht
              injection ht with ht
              rw [← ht]
              exact ⟨rfl, rfl, rfl, rfl⟩
        · rw [readImageData_dispatch rgb header fp none (fun _ => 0) t mode rle hdisp
            (fun h => absurd h hm)] at h
          cases rle
          · exact decode_fields _ mode fp fp' t t' (dec _ h)
          · exact decodeRLE_fields _ rgb mode fp fp' t t' (dec _ h)
  · rw [readImageData_unknown rgb header fp colormap t hk] at h
    injection h with h
    have hr : r = { texinfo := none, stderr := [_] } := (Prod.mk.inj h).2.symm
    rw [hr] at ht
    exact absurd ht (by simp)

/-- The record that `ReadTGAFile` returns has the width and height of the header and
the layout that `GetTextureInfo` resolved. -/
theorem ReadTGAFile_size (m : Machine) (bytes : List (Fin 256)) (t : gl_texture_t)
    (h : image (ReadTGAFile m (some bytes)) = some t) :
    t.width = (headerOf m bytes).width ∧ t.height = (headerOf m bytes).height ∧
      t.format = (recordOf m bytes).format ∧
      t.internalFormat = (recordOf m bytes).internalFormat := by
  have hw : (recordOf m bytes).width = (headerOf m bytes).width := by
    simp only [recordOf, GetTextureInfo]; split_ifs <;> rfl
  have hh : (recordOf m bytes).height = (headerOf m bytes).height := by
    simp only [recordOf, GetTextureInfo]; split_ifs <;> rfl
  by_cases hg : m.malloc (texelBytes (recordOf m bytes)) = true
  · rw [ReadTGAFile, ReadTGAFile_run m bytes hg] at h
    rcases hc : readColormap m (headerOf m bytes) (streamOf m bytes) with e | cm
    · rw [hc] at h
      exact absurd h (by simp [image, Except.map, Except.bind])
    · rw [hc] at h
      rcases hr : readImageData m.rgb (headerOf m bytes) cm.2 cm.1 (freshOf m bytes) with
        e | ⟨fp', r⟩
      · have h' : image ((Except.map (fun r => (some r.1, r.2))
            (readImageData m.rgb (headerOf m bytes) cm.2 cm.1 (freshOf m bytes))).map
              fun r => r.2) = some t := h
        rw [hr] at h'
        exact absurd h' (by simp [image, Except.map])
      · have h' : image ((Except.map (fun r => (some r.1, r.2))
            (readImageData m.rgb (headerOf m bytes) cm.2 cm.1 (freshOf m bytes))).map
              fun r => r.2) = some t := h
        rw [hr] at h'
        have ht : r.texinfo = some t := h'
        obtain ⟨a, b, c, d⟩ := readImageData_size _ _ _ _ _ _ _ _ hr ht
        exact ⟨a.trans hw, b.trans hh, c, d⟩
  · have hg' : m.malloc (texelBytes (recordOf m bytes)) = false := by simpa using hg
    rw [ReadTGAFile_refused m bytes hg'] at h
    exact absurd h (by simp [image])

theorem overlay_take (bytes : List (Fin 256)) (old : Nat → Nat) (n i : Nat) (hi : i < n)
    (hn : n ≤ bytes.length) :
    overlay ((bytes.take n).map (fun b => b.val)) old i = (bytes.getD i 0).val := by
  have h1 : i < ((bytes.take n).map (fun b => b.val)).length := by
    rw [List.length_map, List.length_take]; omega
  have h2 : i < bytes.length := by omega
  unfold overlay
  rw [List.getD_eq_getElem _ _ h1, List.getD_eq_getElem _ _ h2]
  simp

/-- On a file of at least 18 bytes the header is the packed record in its first
18 bytes, whatever the header variable held. -/
theorem headerOf_full (m : Machine) (bytes : List (Fin 256)) (hlen : 18 ≤ bytes.length) :
    headerOf m bytes = tga_header_t.ofBytes (fun i => (bytes.getD i 0).val) ∧
      (readHeader m { data := bytes, pos := 0 }).2 = { data := bytes, pos := 18 } := by
  have hf : fread 18 { data := bytes, pos := 0 } =
      ((bytes.take 18).map (fun b => b.val), { data := bytes, pos := 18 }) := by
    simp [fread, List.length_take, hlen]
  constructor
  · simp only [headerOf, readHeader, hf, tga_header_t.ofBytes]
    simp only [overlay_take bytes m.header 18 _ (by decide : 0 < 18) hlen,
      overlay_take bytes m.header 18 _ (by decide : 1 < 18) hlen,
      overlay_take bytes m.header 18 _ (by decide : 2 < 18) hlen,
      overlay_take bytes m.header 18 _ (by decide : 3 < 18) hlen,
      overlay_take bytes m.header 18 _ (by decide : 4 < 18) hlen,
      overlay_take bytes m.header 18 _ (by decide : 5 < 18) hlen,
      overlay_take bytes m.header 18 _ (by decide : 6 < 18) hlen,
      overlay_take bytes m.header 18 _ (by decide : 7 < 18) hlen,
      overlay_take bytes m.header 18 _ (by decide : 8 < 18) hlen,
      overlay_take bytes m.header 18 _ (by decide : 9 < 18) hlen,
      overlay_take bytes m.header 18 _ (by decide : 10 < 18) hlen,
      overlay_take bytes m.header 18 _ (by decide : 11 < 18) hlen,
      overlay_take bytes m.header 18 _ (by decide : 12 < 18) hlen,
      overlay_take bytes m.header 18 _ (by decide : 13 < 18) hlen,
      overlay_take bytes m.header 18 _ (by decide : 14 < 18) hlen,
      overlay_take bytes m.header 18 _ (by decide : 15 < 18) hlen,
      overlay_take bytes m.header 18 _ (by decide : 16 < 18) hlen,
      overlay_take bytes m.header 18 _ (by decide : 17 < 18) hlen]
  · simp only [readHeader, hf]

theorem expand_length (colormap : Nat → Nat) (mode : Mode) (p : List Nat) :
    (mode.expand colormap p).length = mode.bpp := by
  cases mode <;> rfl

theorem bpp_pos (mode : Mode) : 0 < mode.bpp := by
  cases mode <;> decide

/-- The byte at offset `o` of the expansion of a source: byte `o % bpp` of the
expansion of pixel `o / bpp`. -/
theorem expandAll_getD (colormap : Nat → Nat) (mode : Mode) (src : List Nat) (n o : Nat)
    (ho : o < n * mode.bpp) :
    (expandAll colormap mode src n).getD o 0 =
      (mode.expand colormap (srcPixel mode.srcBytes src (o / mode.bpp))).getD
        (o % mode.bpp) 0 := by
  induction n with
  | zero => simp at ho
  | succ n ih =>
    have hl := expandAll_length colormap mode src n
    rw [expandAll_succ]
    by_cases hlt : o < n * mode.bpp
    · rw [List.getD_append _ _ _ _ (by rw [hl]; exact hlt)]
      exact ih hlt
    · have hge : n * mode.bpp ≤ o := not_lt.mp hlt
      rw [Nat.succ_mul] at ho
      have hpos := bpp_pos mode
      have hdiv : o / mode.bpp = n := by
        apply Nat.div_eq_of_lt_le
        · rw [Nat.mul_comm] at hge; rw [Nat.mul_comm]; exact hge
        · rw [Nat.succ_mul]; exact ho
      have hmod : o % mode.bpp = o - n * mode.bpp := by
        have := Nat.div_add_mod o mode.bpp
        rw [hdiv, Nat.mul_comm] at this
        omega
      rw [List.getD_append_right _ _ _ _ (by rw [hl]; exact hge), hl, hdiv, hmod]

theorem srcPixel_getD (k : Nat) (src : List Nat) (i j : Nat) (hj : j < k) :
    (srcPixel k src i).getD j 0 = src.getD (i * k + j) 0 := by
  simp only [srcPixel, List.getD_eq_getElem?_getD, List.getElem?_take, hj, if_true,
    List.getElem?_drop]

/-- The texels a scanline decoder leaves when the stream holds all pixels: below
`n * bpp` the expansions in stream order, from there on what was there; the
stream is left behind the pixels. -/
theorem decode_cells (colormap : Nat → Nat) (mode : Mode) (fp : FILE) (t : gl_texture_t)
    (hfit : mode.scanFits t)
    (hlen : (t.width * t.height).toNat * mode.srcBytes ≤ fp.rest.length) :
    ∃ t', mode.decode colormap fp t =
        .ok (fseek fp ((t.width * t.height).toNat * mode.srcBytes), t') ∧
      t' = blit t 0 (expandAll colormap mode fp.rest (t.width * t.height).toNat) ∧
      (∀ o, o < (t.width * t.height).toNat * mode.bpp →
        t'.texels o = some ((mode.expand colormap
          (srcPixel mode.srcBytes fp.rest (o / mode.bpp))).getD (o % mode.bpp) 0)) ∧
      (∀ o, (t.width * t.height).toNat * mode.bpp ≤ o → t'.texels o = t.texels o) := by
  refine ⟨_, ?_, rfl, ?_, ?_⟩
  · rw [decode_eq colormap mode fp t hfit, pixelLoop_rest colormap mode _ fp hlen]
  · intro o ho
    rw [blit_texels, if_pos ⟨Nat.zero_le _, by rw [expandAll_length]; omega⟩, Nat.sub_zero,
      expandAll_getD _ _ _ _ _ ho]
  · intro o ho
    rw [blit_texels, if_neg (by rw [expandAll_length]; omega)]

theorem buffer_blit (t : gl_texture_t) (out : List Nat) :
    (blit t 0 out).buffer out.length = out.map some := by
  apply List.ext_getElem
  · simp [gl_texture_t.buffer]
  · intro i h1 h2
    have hi : i < out.length := by simpa [gl_texture_t.buffer] using h1
    simp only [gl_texture_t.buffer, List.getElem_map, List.getElem_range, blit_texels]
    rw [if_pos ⟨Nat.zero_le _, by omega⟩, Nat.sub_zero, List.getD_eq_getElem _ _ hi]

theorem srcPixel_succ (k : Nat) (src : List Nat) (i : Nat) :
    srcPixel k src (i + 1) = srcPixel k (src.drop k) i := by
  simp only [srcPixel, List.drop_drop, Nat.succ_mul]
  congr 2
  omega

theorem expandAll_cons (colormap : Nat → Nat) (mode : Mode) (src : List Nat) (n : Nat) :
    expandAll colormap mode src (n + 1) =
      mode.expand colormap (src.take mode.srcBytes) ++
        expandAll colormap mode (src.drop mode.srcBytes) n := by
  simp only [expandAll, List.range_succ_eq_map, List.flatMap_cons, List.flatMap_map,
    srcPixel_succ]
  simp [srcPixel]

theorem swapRB_swapRB : ∀ l : List Nat, swapRB (swapRB l) = l
  | a :: b :: c :: rest => by simp [swapRB, swapRB_swapRB rest]
  | [] => rfl
  | [_] => rfl
  | [_, _] => rfl

/-- The expansion of a 24-bit source is the source with blue and red exchanged
in every pixel. -/
theorem expandAll_true24 (colormap : Nat → Nat) (n : Nat) (src : List Nat)
    (h : src.length = 3 * n) : expandAll colormap Mode.true24 src n = swapRB src := by
  induction n generalizing src with
  | zero =>
    have : src = [] := List.length_eq_zero.mp (by omega)
    subst this
    rfl
  | succ n ih =>
    match src, h with
    | a :: b :: c :: rest, h =>
      have hr : rest.length = 3 * n := by simp at h; omega
      rw [expandAll_cons]
      simp only [Mode.srcBytes, Mode.expand, List.take_succ_cons, List.take_zero,
        List.drop_succ_cons, List.drop_zero, List.getD_cons_zero, List.getD_cons_succ,
        ih rest hr, swapRB]
      rfl

theorem and_shiftRight (a b i : Nat) : (a &&& b) >>> i = (a >>> i) &&& (b >>> i) := by
  apply Nat.eq_of_testBit_eq
  intro j
  simp only [Nat.testBit_shiftRight, Nat.testBit_and]

theorem red16_eq (w : Nat) : red16 w = ((w >>> 10) &&& 31) * 8 := by
  unfold red16
  rw [and_shiftRight, Nat.shiftLeft_eq]
  have h31 : (0x7C00 >>> 10 : Nat) = 31 := by decide
  rw [h31]
  have hle : (w >>> 10) &&& 31 ≤ 31 := Nat.and_le_right
  omega

theorem green16_eq (w : Nat) : green16 w = ((w >>> 5) &&& 31) * 8 := by
  unfold green16
  rw [and_shiftRight, Nat.shiftLeft_eq]
  have h31 : (0x03E0 >>> 5 : Nat) = 31 := by decide
  rw [h31]
  have hle : (w >>> 5) &&& 31 ≤ 31 := Nat.and_le_right
  omega

theorem blue16_eq (w : Nat) : blue16 w = (w &&& 31) * 8 := by
  unfold blue16
  rw [Nat.shiftRight_zero, Nat.shiftLeft_eq]
  have hle : w &&& 31 ≤ 31 := Nat.and_le_right
  show (w &&& 31) * 2 ^ 3 % 256 = (w &&& 31) * 8
  omega

theorem field5 (x : Nat) : x &&& 31 = x % 32 := Nat.and_pow_two_sub_one_eq_mod x 5

/-- Bit 15 of a colour word plays no part in its three fields. -/
theorem fields_without_bit15 (w : Nat) :
    ((w % 32768) >>> 10) &&& 31 = (w >>> 10) &&& 31 ∧
      ((w % 32768) >>> 5) &&& 31 = (w >>> 5) &&& 31 ∧ (w % 32768) &&& 31 = w &&& 31 := by
  simp only [field5, Nat.shiftRight_eq_div_pow]
  refine ⟨?_, ?_, ?_⟩ <;> omega

/-! ### Streams with the same bytes ahead -/

theorem fgetc_congr (fp fp' : FILE) (h : fp.rest = fp'.rest) :
    (fgetc fp).1 = (fgetc fp').1 ∧ (fgetc fp).2.rest = (fgetc fp').2.rest := by
  rcases hr : fp.rest with _ | ⟨b, r⟩
  · rw [fgetc_nil fp hr, fgetc_nil fp' (h ▸ hr)]
    exact ⟨rfl, h⟩
  · rw [fgetc_cons fp b r hr, fgetc_cons fp' b r (h ▸ hr)]
    refine ⟨rfl, ?_⟩
    show (fseek fp 1).rest = (fseek fp' 1).rest
    rw [rest_fseek, rest_fseek, h]

theorem fread_congr (n : Nat) (fp fp' : FILE) (h : fp.rest = fp'.rest) :
    (fread n fp).1 = (fread n fp').1 ∧ (fread n fp).2.rest = (fread n fp').2.rest := by
  rw [fread_rest, fread_rest]
  refine ⟨by rw [h], ?_⟩
  show (fseek fp _).rest = (fseek fp' _).rest
  rw [rest_fseek, rest_fseek, h]

theorem readColor16_congr (fp fp' : FILE) (h : fp.rest = fp'.rest) :
    (readColor16 fp).1 = (readColor16 fp').1 ∧
      (readColor16 fp).2.rest = (readColor16 fp').2.rest := by
  obtain ⟨a1, a2⟩ := fgetc_congr fp fp' h
  obtain ⟨b1, b2⟩ := fgetc_congr _ _ a2
  exact ⟨by simp only [readColor16, a1, b1], b2⟩

theorem read_congr (colormap : Nat → Nat) (mode : Mode) (fp fp' : FILE)
    (h : fp.rest = fp'.rest) :
    (mode.read colormap fp).1 = (mode.read colormap fp').1 ∧
      (mode.read colormap fp).2.rest = (mode.read colormap fp').2.rest := by
  cases mode
  · obtain ⟨a1, a2⟩ := fgetc_congr fp fp' h
    exact ⟨by simp only [Mode.read, a1], a2⟩
  · obtain ⟨a1, a2⟩ := readColor16_congr fp fp' h
    exact ⟨by simp only [Mode.read, a1], a2⟩
  · obtain ⟨a1, a2⟩ := fgetc_congr fp fp' h
    obtain ⟨b1, b2⟩ := fgetc_congr _ _ a2
    obtain ⟨c1, c2⟩ := fgetc_congr _ _ b2
    exact ⟨by simp only [Mode.read, a1, b1, c1], c2⟩
  · obtain ⟨a1, a2⟩ := fgetc_congr fp fp' h
    obtain ⟨b1, b2⟩ := fgetc_congr _ _ a2
    obtain ⟨c1, c2⟩ := fgetc_congr _ _ b2
    obtain ⟨d1, d2⟩ := fgetc_congr _ _ c2
    exact ⟨by simp only [Mode.read, a1, b1, c1, d1], d2⟩
  · obtain ⟨a1, a2⟩ := fgetc_congr fp fp' h
    exact ⟨by simp only [Mode.read, a1], a2⟩
  · obtain ⟨a1, a2⟩ := fgetc_congr fp fp' h
    obtain ⟨b1, b2⟩ := fgetc_congr _ _ a2
    exact ⟨by simp only [Mode.read, a1, b1], b2⟩

theorem run_congr (colormap : Nat → Nat) (rgb : Nat → Nat) (mode : Mode) (fp fp' : FILE)
    (h : fp.rest = fp'.rest) :
    (mode.run colormap rgb fp).1 = (mode.run colormap rgb fp').1 ∧
      (mode.run colormap rgb fp).2.1.rest = (mode.run colormap rgb fp').2.1.rest ∧
      (mode.run colormap rgb fp).2.2 = (mode.run colormap rgb fp').2.2 := by
  cases mode
  · obtain ⟨a1, a2⟩ := read_congr colormap .indexed8 fp fp' h
    exact ⟨a1, a2, rfl⟩
  · obtain ⟨a1, a2⟩ := read_congr colormap .true16 fp fp' h
    exact ⟨a1, a2, rfl⟩
  · obtain ⟨a1, a2⟩ := fread_congr 3 fp fp' h
    exact ⟨by simp only [Mode.run, a1], a2, by simp only [Mode.run, a1]⟩
  · obtain ⟨a1, a2⟩ := fread_congr 4 fp fp' h
    exact ⟨by simp only [Mode.run, a1], a2, by simp only [Mode.run, a1]⟩
  · obtain ⟨a1, a2⟩ := read_congr colormap .gray8 fp fp' h
    exact ⟨a1, a2, rfl⟩
  · obtain ⟨a1, a2⟩ := read_congr colormap .gray16 fp fp' h
    exact ⟨a1, a2, rfl⟩

theorem pixelLoop_congr (colormap : Nat → Nat) (mode : Mode) (n : Nat) (fp fp' : FILE)
    (h : fp.rest = fp'.rest) :
    (pixelLoop (mode.read colormap) n fp).1 = (pixelLoop (mode.read colormap) n fp').1 ∧
      (pixelLoop (mode.read colormap) n fp).2.rest =
        (pixelLoop (mode.read colormap) n fp').2.rest := by
  induction n with
  | zero => exact ⟨rfl, h⟩
  | succ n ih =>
    obtain ⟨a1, a2⟩ := read_congr colormap mode _ _ ih.2
    exact ⟨by simp only [pixelLoop, ih.1, a1], a2⟩

/-- The texels a scanline decoder leaves depend on the stream through the bytes
ahead of its position only. -/
theorem decode_congr (colormap : Nat → Nat) (mode : Mode) (fp fp' : FILE) (t : gl_texture_t)
    (h : fp.rest = fp'.rest) :
    (mode.decode colormap fp t).map Prod.snd = (mode.decode colormap fp' t).map Prod.snd := by
  by_cases hfit : mode.scanFits t
  · rw [decode_eq colormap mode fp t hfit, decode_eq colormap mode fp' t hfit]
    show Except.ok _ = Except.ok _
    rw [(pixelLoop_congr colormap mode _ fp fp' h).1]
  · rw [decode_overflow colormap mode fp t hfit, decode_overflow colormap mode fp' t hfit]

/-- Two decoder states that differ in the stream only, and there only behind
the position. -/
theorem packet_congr (colormap : Nat → Nat) (mode : Mode) (s s' : Decoder)
    (hfp : s.fp.rest = s'.fp.rest) (ht : s.texinfo = s'.texinfo) (hp : s.ptr = s'.ptr)
    (hr : s.rgb = s'.rgb) :
    (mode.packet colormap s).fp.rest = (mode.packet colormap s').fp.rest ∧
      (mode.packet colormap s).texinfo = (mode.packet colormap s').texinfo ∧
      (mode.packet colormap s).ptr = (mode.packet colormap s').ptr ∧
      (mode.packet colormap s).rgb = (mode.packet colormap s').rgb := by
  obtain ⟨a1, a2⟩ := fgetc_congr _ _ hfp
  obtain ⟨b1, b2, b3⟩ := run_congr colormap s'.rgb mode _ _ a2
  rw [packet_eq, packet_eq, a1, ht, hp, hr]
  by_cases hc : GLubyte (fgetc s'.fp).1 &&& 0x80 ≠ 0
  · rw [if_pos hc, if_pos hc]
    exact ⟨b2, by rw [b1], rfl, b3⟩
  · rw [if_neg hc, if_neg hc]
    obtain ⟨c1, c2⟩ := pixelLoop_congr colormap mode (packetSize (GLubyte (fgetc s'.fp).1)) _ _ a2
    exact ⟨c2, by show blit _ _ _ = blit _ _ _; rw [c1], rfl, rfl⟩

theorem whileLoop_congr (colormap : Nat → Nat) (mode : Mode) (n : Int) (fuel : Nat)
    (s s' : Decoder) (hfp : s.fp.rest = s'.fp.rest) (ht : s.texinfo = s'.texinfo)
    (hp : s.ptr = s'.ptr) (hr : s.rgb = s'.rgb) :
    (finish (whileLoop fuel (inside n) (mode.packet colormap) s)).map Prod.snd =
      (finish (whileLoop fuel (inside n) (mode.packet colormap) s')).map Prod.snd := by
  have hc : inside n s = inside n s' := by simp only [inside, hp]
  induction fuel generalizing s s' with
  | zero =>
    simp only [whileLoop, hc]
    split_ifs
    · rfl
    · show Except.ok _ = Except.ok _
      rw [ht]
  | succ fuel ih =>
    simp only [whileLoop, hc]
    split_ifs
    · obtain ⟨a, b, c, d⟩ := packet_congr colormap mode s s' hfp ht hp hr
      exact ih _ _ a b c d (by simp only [inside, c])
    · show Except.ok _ = Except.ok _
      rw [ht]

/-- The texels a run-length decoder leaves depend on the stream through the
bytes ahead of its position only. -/
theorem decodeRLE_congr (colormap : Nat → Nat) (rgb : Nat → Nat) (mode : Mode) (fp fp' : FILE)
    (t : gl_texture_t) (h : fp.rest = fp'.rest) :
    (mode.decodeRLE colormap rgb fp t).map Prod.snd =
      (mode.decodeRLE colormap rgb fp' t).map Prod.snd := by
  by_cases hfit : mode.rleFits t
  · obtain ⟨rgb0, h1⟩ := decodeRLE_loops colormap rgb mode t hfit
    rw [h1 fp, h1 fp']
    exact whileLoop_congr colormap mode _ _ (start _ fp t) (start _ fp' t) h rfl rfl rfl
  · rw [decodeRLE_overflow colormap rgb mode fp t hfit,
      decodeRLE_overflow colormap rgb mode fp' t hfit]

theorem map_decoded (x : Except Fault (FILE × gl_texture_t)) :
    (x.map decoded).map Prod.snd =
      (x.map Prod.snd).map (fun t => ({ texinfo := some t, stderr := [] } : Returned)) := by
  cases x <;> rfl

theorem readImageData_type1 (rgb : Nat → Nat) (header : tga_header_t) (fp : FILE)
    (colormap : Option (Nat → Nat)) (t : gl_texture_t) (h : header.image_type = 1) :
    readImageData rgb header fp colormap t = (ReadTGA8bits fp colormap t).map decoded := by
  simp [readImageData, h]

theorem readImageData_type9 (rgb : Nat → Nat) (header : tga_header_t) (fp : FILE)
    (colormap : Option (Nat → Nat)) (t : gl_texture_t) (h : header.image_type = 9) :
    readImageData rgb header fp colormap t = (ReadTGA8bitsRLE fp colormap t).map decoded := by
  simp [readImageData, h]

/-- What the `switch` of `ReadTGAFile` hands back depends on the stream through the
bytes ahead of its position only. -/
theorem readImageData_congr (rgb : Nat → Nat) (header : tga_header_t) (fp fp' : FILE)
    (colormap : Option (Nat → Nat)) (t : gl_texture_t) (h : fp.rest = fp'.rest) :
    (readImageData rgb header fp colormap t).map Prod.snd =
      (readImageData rgb header fp' colormap t).map Prod.snd := by
  have hs : ∀ (mode : Mode) (cm : Nat → Nat),
      ((mode.decode cm fp t).map decoded).map Prod.snd =
        ((mode.decode cm fp' t).map decoded).map Prod.snd := by
    intro mode cm
    rw [map_decoded, map_decoded, decode_congr cm mode fp fp' t h]
  have hr : ∀ (mode : Mode) (cm : Nat → Nat),
      ((mode.decodeRLE cm rgb fp t).map decoded).map Prod.snd =
        ((mode.decodeRLE cm rgb fp' t).map decoded).map Prod.snd := by
    intro mode cm
    rw [map_decoded, map_decoded, decodeRLE_congr cm rgb mode fp fp' t h]
  rcases hdisp : header.dispatch with _ | ⟨mode, rle⟩
  · by_cases hk : knownType header.image_type
    · rw [readImageData_none rgb header fp colormap t hdisp hk,
        readImageData_none rgb header fp' colormap t hdisp hk]
      rfl
    · rw [readImageData_unknown rgb header fp colormap t hk,
        readImageData_unknown rgb header fp' colormap t hk]
      rfl
  · by_cases hcm : ∃ cm, mode = Mode.indexed8 → colormap = some cm
    · obtain ⟨cm, hcm⟩ := hcm
      rw [readImageData_dispatch rgb header fp colormap cm t mode rle hdisp hcm,
        readImageData_dispatch rgb header fp' colormap cm t mode rle hdisp hcm]
      cases rle
      · exact hs mode cm
      · exact hr mode cm
    · have hm : mode = Mode.indexed8 := by
        by_contra hc
        exact hcm ⟨fun _ => 0, fun h => absurd h hc⟩
      have hnone : colormap = none := by
        cases colormap with
        | none => rfl
        | some cm => exact absurd ⟨cm, fun _ => rfl⟩ hcm
      subst hm hnone
      have hty : header.image_type = 1 ∨ header.image_type = 9 := by
        unfold tga_header_t.dispatch at hdisp
        split_ifs at hdisp <;> simp_all
      rcases hty with h1 | h9
      · rw [readImageData_type1 rgb header fp none t h1,
          readImageData_type1 rgb header fp' none t h1]
        by_cases hpos : 0 < t.width * t.height
        · simp only [ReadTGA8bits, if_pos hpos]
        · simp only [ReadTGA8bits, if_neg hpos]
          rfl
      · rw [readImageData_type9 rgb header fp none t h9,
          readImageData_type9 rgb header fp' none t h9]
        exact null_rle_congr fp fp' t

/-- What `readColormap` leaves depends on the stream through the bytes ahead of its
position only. -/
theorem readColormap_congr (m : Machine) (header : tga_header_t) (fp fp' : FILE)
    (h : fp.rest = fp'.rest) :
    (readColormap m header fp).map (fun cm => (cm.1, cm.2.rest)) =
      (readColormap m header fp').map (fun cm => (cm.1, cm.2.rest)) := by
  obtain ⟨a1, a2⟩ := fread_congr (colormapBytes header) fp fp' h
  unfold readColormap
  by_cases hc : header.colormap_type ≠ 0
  · simp only [if_pos hc, a1]
    by_cases hm : m.malloc (colormapBytes header) = true
    · simp only [hm, if_true]
      show Except.ok (_, (fread (colormapBytes header) fp).2.rest) = Except.ok (_, _)
      rw [a2]
    · simp only [hm, Bool.false_eq_true, if_false]
      by_cases he : (fread (colormapBytes header) fp').1 = []
      · simp only [he, if_true]
        show Except.ok (_, (fread (colormapBytes header) fp).2.rest) = Except.ok (_, _)
        rw [a2]
      · simp only [he, if_false]
  · simp only [if_neg hc]
    show Except.ok (_, fp.rest) = Except.ok (_, _)
    rw [h]

/-- A call of `ReadTGAFile` whose texel buffer is granted, as to what it returns. -/
theorem ReadTGAFile_bind (m : Machine) (bytes : List (Fin 256))
    (h : m.malloc (texelBytes (recordOf m bytes)) = true) :
    ReadTGAFile m (some bytes) =
      (readColormap m (headerOf m bytes) (streamOf m bytes)).bind fun cm =>
        (readImageData m.rgb (headerOf m bytes) cm.2 cm.1 (freshOf m bytes)).map Prod.snd := by
  rw [ReadTGAFile, ReadTGAFile_run m bytes h]
  cases readColormap m (headerOf m bytes) (streamOf m bytes) with
  | error e => rfl
  | ok cm => exact except_map_map _ _ _

/-- The `switch` behind two colormap reads that left the same pointer and the
same bytes ahead hands back the same. -/
theorem switch_congr (rgb : Nat → Nat) (header : tga_header_t) (t : gl_texture_t)
    (x x' : Except Fault (Option (Nat → Nat) × FILE))
    (hx : x.map (fun cm => (cm.1, cm.2.rest)) = x'.map (fun cm => (cm.1, cm.2.rest))) :
    (x.bind fun cm => (readImageData rgb header cm.2 cm.1 t).map Prod.snd) =
      (x'.bind fun cm => (readImageData rgb header cm.2 cm.1 t).map Prod.snd) := by
  cases x with
  | error e =>
    cases x' with
    | error e' =>
      have h1 : (Except.error e : Except Fault (Option (Nat → Nat) × List Nat)) = .error e' := hx
      injection h1 with h1
      rw [h1]
    | ok cm' => cases hx
  | ok cm =>
    cases x' with
    | error e' => cases hx
    | ok cm' =>
      have h1 : (Except.ok (cm.1, cm.2.rest) : Except Fault (Option (Nat → Nat) × List Nat)) =
          .ok (cm'.1, cm'.2.rest) := hx
      injection h1 with h1
      show (readImageData rgb header cm.2 cm.1 t).map Prod.snd =
        (readImageData rgb header cm'.2 cm'.1 t).map Prod.snd
      rw [(Prod.mk.inj h1).1]
      exact readImageData_congr _ _ _ _ _ _ (Prod.mk.inj h1).2

theorem readColormap_fields (m : Machine) (h h' : tga_header_t) (fp : FILE)
    (hc : h'.colormap_type = h.colormap_type) (hl : h'.cm_length = h.cm_length)
    (hs : h'.cm_size = h.cm_size) :
    readColormap m h' fp = readColormap m h fp := by
  simp only [readColormap, colormapBytes, hc, hl, hs]

theorem colormapOf_congr (m : Machine) (header : tga_header_t) (fp fp' : FILE)
    (h : fp.rest = fp'.rest) :
    (colormapOf m header fp).1 = (colormapOf m header fp').1 ∧
      (colormapOf m header fp).2.rest = (colormapOf m header fp').2.rest := by
  unfold colormapOf
  split_ifs
  · obtain ⟨a1, a2⟩ := fread_congr (colormapBytes header) fp fp' h
    exact ⟨by simp only [a1], a2⟩
  · exact ⟨rfl, h⟩

/-- The header read takes the first 18 bytes of the file and nothing else. -/
theorem readHeader_take (m : Machine) (bytes : List (Fin 256)) :
    headerOf m bytes = tga_header_t.ofBytes (overlay ((bytes.take 18).map (fun b => b.val))
      m.header) ∧
    (readHeader m { data := bytes, pos := 0 }).2 = ⟨bytes, (bytes.take 18).length⟩ := by
  constructor
  · simp [headerOf, readHeader, fread, List.map_take]
  · simp [readHeader, fread]

/-- The stream behind the header and the image id presents the bytes of the
file from offset `18 + id_length` on. -/
theorem streamOf_rest (m : Machine) (bytes : List (Fin 256)) :
    (streamOf m bytes).rest =
      (bytes.drop (18 + (headerOf m bytes).id_length)).map (fun b => b.val) := by
  unfold streamOf
  rw [rest_fseek, (readHeader_take m bytes).2]
  simp only [FILE.rest, List.length_take, ← List.map_drop, List.drop_drop]
  by_cases hl : 18 ≤ bytes.length
  · rw [Nat.min_eq_left hl, Nat.add_comm]
  · rw [List.drop_eq_nil_of_le (by omega), List.drop_eq_nil_of_le (by omega)]

/-- The stream behind the colormap presents the bytes of the file from offset
`18 + id_length + colormapBytes` on, and the colormap block holds the bytes before. -/
theorem colormapOf_rest (m : Machine) (bytes : List (Fin 256))
    (h : (headerOf m bytes).colormap_type ≠ 0) :
    (colormapOf m (headerOf m bytes) (streamOf m bytes)).1 =
        some (overlay (((bytes.drop (18 + (headerOf m bytes).id_length)).take
          (colormapBytes (headerOf m bytes))).map (fun b => b.val)) m.colormap) ∧
      (colormapOf m (headerOf m bytes) (streamOf m bytes)).2.rest =
        (bytes.drop (18 + (headerOf m bytes).id_length +
          colormapBytes (headerOf m bytes))).map (fun b => b.val) := by
  simp only [colormapOf, if_pos h, fread_rest, rest_fseek, streamOf_rest, List.map_take,
    List.map_drop, List.length_take, List.length_map, List.length_drop, List.drop_drop]
  refine ⟨trivial, ?_⟩
  generalize colormapBytes (headerOf m bytes) = c
  generalize 18 + (headerOf m bytes).id_length = a
  by_cases hc : c ≤ bytes.length - a
  · rw [Nat.min_eq_left hc]
  · rw [List.drop_eq_nil_of_le (by rw [List.length_map]; omega),
      List.drop_eq_nil_of_le (by rw [List.length_map]; omega)]
theorem overlay_lt (got : List (Fin 256)) (old : Nat → Nat) (i : Nat) :
    overlay (got.map (fun b => b.val)) old i < 256 := by
  unfold overlay
  by_cases h : i < got.length
  · rw [List.getD_eq_getElem _ _ (by rw [List.length_map]; exact h), List.getElem_map]
    exact (got[i]).isLt
  · rw [List.getD_eq_default _ _ (by rw [List.length_map]; omega)]
    exact Nat.mod_lt _ (by decide)

theorem short_lt (lo hi : Nat) (hlo : lo < 256) (hhi : hi < 256) : short lo hi < 32768 := by
  unfold short
  split_ifs <;> omega

/-- The fields `cm_length` and `cm_size` of a header read from a file are a `short` and
a byte. -/
theorem headerOf_bounds (m : Machine) (bytes : List (Fin 256)) :
    (headerOf m bytes).cm_length < 32768 ∧ (headerOf m bytes).cm_size < 256 := by
  rw [(readHeader_take m bytes).1]
  exact ⟨short_lt _ _ (overlay_lt _ _ _) (overlay_lt _ _ _), overlay_lt _ _ _⟩

/-- With a colormap length that is not negative the size of the colormap block
is the product `cm_length * (cm_size / 8)`. -/
theorem colormapBytes_eq (m : Machine) (bytes : List (Fin 256))
    (h : 0 ≤ (headerOf m bytes).cm_length) :
    colormapBytes (headerOf m bytes) =
      (headerOf m bytes).cm_length.toNat * ((headerOf m bytes).cm_size / 8) := by
  obtain ⟨h1, h2⟩ := headerOf_bounds m bytes
  unfold colormapBytes size_t
  generalize (headerOf m bytes).cm_length = l at *
  generalize (headerOf m bytes).cm_size = s at *
  obtain ⟨n, rfl⟩ := Int.eq_ofNat_of_zero_le h
  have hn : n < 32768 := by omega
  have hs : s >>> 3 = s / 8 := by rw [Nat.shiftRight_eq_div_pow]
  rw [hs, Int.toNat_ofNat]
  have hp : n * (s / 8) < 32768 * 32 := by
    have : s / 8 < 32 := by omega
    exact Nat.mul_lt_mul'' hn this
  have key : ∀ x : Int, x = ((n * (s / 8) : Nat) : Int) → (x % 2 ^ 64).toNat = n * (s / 8) := by
    intro x hx
    rw [hx]
    omega
  apply key
  push_cast
  ring

/-- What `ReadTGAFile` returns with the buffer granted is what the `switch` decodes
from the bytes of the file behind the header, the image id and the colormap
block, with the colormap block read from the bytes behind the image id. -/
theorem ReadTGAFile_colormap (m : Machine) (bytes : List (Fin 256))
    (hg : m.malloc (texelBytes (recordOf m bytes)) = true)
    (hc : (headerOf m bytes).colormap_type ≠ 0)
    (hcm : m.malloc (colormapBytes (headerOf m bytes)) = true) :
    ReadTGAFile m (some bytes) =
      (readImageData m.rgb (headerOf m bytes)
        (FILE.mk (bytes.drop (18 + (headerOf m bytes).id_length +
          colormapBytes (headerOf m bytes))) 0)
        (some (overlay (((bytes.drop (18 + (headerOf m bytes).id_length)).take
          (colormapBytes (headerOf m bytes))).map (fun b => b.val)) m.colormap))
        (freshOf m bytes)).map Prod.snd := by
  obtain ⟨h1, h2⟩ := colormapOf_rest m bytes hc
  rw [ReadTGAFile_granted m bytes hg (fun _ => hcm), h1]
  exact readImageData_congr _ _ _ _ _ _ (by rw [h2]; simp [FILE.rest])

/-- Without a colormap the `switch` decodes from the bytes behind the header and
the image id. -/
theorem ReadTGAFile_no_colormap (m : Machine) (bytes : List (Fin 256))
    (hg : m.malloc (texelBytes (recordOf m bytes)) = true)
    (hc : (headerOf m bytes).colormap_type = 0) :
    ReadTGAFile m (some bytes) =
      (readImageData m.rgb (headerOf m bytes)
        (FILE.mk (bytes.drop (18 + (headerOf m bytes).id_length)) 0) none
        (freshOf m bytes)).map Prod.snd := by
  rw [ReadTGAFile_granted m bytes hg (fun h => absurd hc h)]
  have hr : colormapOf m (headerOf m bytes) (streamOf m bytes) = (none, streamOf m bytes) := by
    simp [colormapOf, hc]
  rw [hr]
  exact readImageData_congr _ _ _ _ _ _ (by rw [streamOf_rest]; simp [FILE.rest])

/-- Two files with the same first 18 bytes and the same bytes behind the image id
give the same result. -/
theorem ReadTGAFile_image_id (m : Machine) (bytes bytes' : List (Fin 256))
    (ht : bytes'.take 18 = bytes.take 18)
    (hd : bytes'.drop (18 + (headerOf m bytes).id_length) =
      bytes.drop (18 + (headerOf m bytes).id_length)) :
    ReadTGAFile m (some bytes') = ReadTGAFile m (some bytes) := by
  have hh : headerOf m bytes' = headerOf m bytes := by
    rw [(readHeader_take m bytes').1, (readHeader_take m bytes).1, ht]
  have hrec : recordOf m bytes' = recordOf m bytes := by simp only [recordOf, hh]
  have hfresh : freshOf m bytes' = freshOf m bytes := by simp only [freshOf, hrec]
  have hs : (streamOf m bytes').rest = (streamOf m bytes).rest := by
    rw [streamOf_rest, streamOf_rest, hh, hd]
  by_cases hg : m.malloc (texelBytes (recordOf m bytes)) = true
  · rw [ReadTGAFile_bind m bytes hg, ReadTGAFile_bind m bytes' (by rw [hrec]; exact hg),
      hh, hfresh]
    exact switch_congr _ _ _ _ _ (readColormap_congr m (headerOf m bytes) _ _ hs)
  · have hg' : m.malloc (texelBytes (recordOf m bytes)) = false := by
      cases hm : m.malloc (texelBytes (recordOf m bytes))
      · rfl
      · exact absurd hm hg
    rw [ReadTGAFile_refused m bytes hg', ReadTGAFile_refused m bytes' (by rw [hrec]; exact hg')]

theorem getD_behind (hdr : List (Fin 256)) (n : Nat) (x : Fin 256) :
    (hdr ++ (List.replicate n 0 ++ [x])).getD (hdr.length + n) 0 = x := by
  rw [List.getD_append_right _ _ _ _ (Nat.le_add_right _ _), Nat.add_sub_cancel_left]
  have h : n = (List.replicate n (0 : Fin 256)).length + 0 := by rw [List.length_replicate]; rfl
  nth_rewrite 2 [h]
  rw [List.getD_append_right _ _ _ _ (Nat.le_add_right _ _), Nat.add_sub_cancel_left]
  rfl

theorem drop_behind (hdr : List (Fin 256)) (n : Nat) (x : Fin 256) :
    (hdr ++ (List.replicate n 0 ++ [x])).drop (hdr.length + n) = [x] := by
  rw [← List.drop_drop, List.drop_left]
  have h : n = (List.replicate n (0 : Fin 256)).length := by rw [List.length_replicate]
  nth_rewrite 1 [h]
  rw [List.drop_left]

theorem longColormap_length : longColormap.length = 18 + 32768 + 1 := by
  rw [longColormap, List.length_append, List.length_append, List.length_replicate]
  rfl

/-- The expansion of an 8-bit grayscale source is the source. -/
theorem expandAll_gray8 (colormap : Nat → Nat) (n : Nat) (src : List Nat)
    (h : src.length = n) : expandAll colormap Mode.gray8 src n = src := by
  induction n generalizing src with
  | zero =>
    have : src = [] := List.length_eq_zero.mp h
    subst this
    rfl
  | succ n ih =>
    match src, h with
    | a :: rest, h =>
      have hr : rest.length = n := by simpa using h
      rw [expandAll_cons]
      simp only [Mode.srcBytes, Mode.expand, List.take_succ_cons, List.take_zero,
        List.drop_succ_cons, List.drop_zero, List.getD_cons_zero, ih rest hr]
      rfl

theorem overlay_same (bytes bytes' : List (Fin 256)) (old : Nat → Nat) (i : Nat)
    (hlen : bytes'.length = bytes.length) (h : bytes'.getD i 0 = bytes.getD i 0) :
    overlay ((bytes'.take 18).map (fun b => b.val)) old i =
      overlay ((bytes.take 18).map (fun b => b.val)) old i := by
  unfold overlay
  simp only [List.getD_eq_getElem?_getD, List.getElem?_map, List.getElem?_take] at h ⊢
  by_cases hi : i < 18
  · simp only [hi, if_true]
    by_cases hb : i < bytes.length
    · have hb' : i < bytes'.length := by omega
      rw [List.getElem?_eq_getElem hb, List.getElem?_eq_getElem hb'] at h ⊢
      simp only [Option.getD_some, Option.map_some'] at h ⊢
      rw [h]
    · have hb' : ¬ i < bytes'.length := by omega
      rw [List.getElem?_eq_none (by omega), List.getElem?_eq_none (by omega)]
  · simp only [hi, if_false]

/-- What `GetTextureInfo` resolves depends on the width, the height, the image type
and the pixel depth of the header only. -/
theorem GetTextureInfo_fields (h h' : tga_header_t) (t : gl_texture_t)
    (hw : h'.width = h.width) (hh : h'.height = h.height)
    (ht : h'.image_type = h.image_type) (hd : h'.pixel_depth = h.pixel_depth) :
    GetTextureInfo h' t = GetTextureInfo h t := by
  simp only [GetTextureInfo, hw, hh, ht, hd]

/-- The `switch` of `ReadTGAFile` depends on the image type and the pixel depth of
the header only. -/
theorem readImageData_fields (rgb : Nat → Nat) (h h' : tga_header_t) (fp : FILE)
    (colormap : Option (Nat → Nat)) (t : gl_texture_t)
    (ht : h'.image_type = h.image_type) (hd : h'.pixel_depth = h.pixel_depth) :
    readImageData rgb h' fp colormap t = readImageData rgb h fp colormap t := by
  simp only [readImageData, ht, hd]

theorem colormapOf_fields (m : Machine) (h h' : tga_header_t) (fp : FILE)
    (hc : h'.colormap_type = h.colormap_type) (hl : h'.cm_length = h.cm_length)
    (hs : h'.cm_size = h.cm_size) :
    colormapOf m h' fp = colormapOf m h fp := by
  simp only [colormapOf, colormapBytes, hc, hl, hs]

/-- Two files whose headers agree in every field but the origin and the image
descriptor, and whose bytes behind the image id agree, give the same result. -/
theorem ReadTGAFile_fields (m : Machine) (bytes bytes' : List (Fin 256))
    (hi : (headerOf m bytes').id_length = (headerOf m bytes).id_length)
    (hc : (headerOf m bytes').colormap_type = (headerOf m bytes).colormap_type)
    (ht : (headerOf m bytes').image_type = (headerOf m bytes).image_type)
    (hl : (headerOf m bytes').cm_length = (headerOf m bytes).cm_length)
    (hs : (headerOf m bytes').cm_size = (headerOf m bytes).cm_size)
    (hw : (headerOf m bytes').width = (headerOf m bytes).width)
    (hh : (headerOf m bytes').height = (headerOf m bytes).height)
    (hd : (headerOf m bytes').pixel_depth = (headerOf m bytes).pixel_depth)
    (hrest : bytes'.drop (18 + (headerOf m bytes).id_length) =
      bytes.drop (18 + (headerOf m bytes).id_length)) :
    ReadTGAFile m (some bytes') = ReadTGAFile m (some bytes) := by
  have hrec : recordOf m bytes' = recordOf m bytes :=
    GetTextureInfo_fields _ _ _ hw hh ht hd
  have hfresh : freshOf m bytes' = freshOf m bytes := by simp only [freshOf, hrec]
  have hst : (streamOf m bytes').rest = (streamOf m bytes).rest := by
    rw [streamOf_rest, streamOf_rest, hi, hrest]
  by_cases hg : m.malloc (texelBytes (recordOf m bytes)) = true
  · rw [ReadTGAFile_bind m bytes hg, ReadTGAFile_bind m bytes' (by rw [hrec]; exact hg),
      hfresh, readColormap_fields m _ _ _ hc hl hs]
    have hsw : ∀ cm : Option (Nat → Nat) × FILE,
        (readImageData m.rgb (headerOf m bytes') cm.2 cm.1 (freshOf m bytes)).map Prod.snd =
          (readImageData m.rgb (headerOf m bytes) cm.2 cm.1 (freshOf m bytes)).map Prod.snd :=
      fun cm => by rw [readImageData_fields _ _ _ _ _ _ ht hd]
    simp only [hsw]
    exact switch_congr _ _ _ _ _ (readColormap_congr m (headerOf m bytes) _ _ hst)
  · have hg' : m.malloc (texelBytes (recordOf m bytes)) = false := by
      cases hm : m.malloc (texelBytes (recordOf m bytes))
      · rfl
      · exact absurd hm hg
    rw [ReadTGAFile_refused m bytes hg', ReadTGAFile_refused m bytes' (by rw [hrec]; exact hg')]

theorem drop_same (bytes bytes' : List (Fin 256)) (k : Nat)
    (hlen : bytes'.length = bytes.length)
    (h : ∀ i, k ≤ i → bytes'.getD i 0 = bytes.getD i 0) : bytes'.drop k = bytes.drop k := by
  apply List.ext_getElem
  · simp [hlen]
  · intro i h1 h2
    simp only [List.length_drop] at h1 h2
    have := h (k + i) (Nat.le_add_right _ _)
    rw [List.getD_eq_getElem bytes' 0 (by omega), List.getD_eq_getElem bytes 0 (by omega)]
      at this
    simpa using this

theorem srcPixel_behind (k : Nat) (src tail : List Nat) (c i : Nat)
    (h : src.length = c * k) : srcPixel k (src ++ tail) (c + i) = srcPixel k tail i := by
  unfold srcPixel
  have e : (c + i) * k = src.length + i * k := by rw [h, Nat.add_mul]
  rw [e, ← List.drop_drop, List.drop_left]

theorem expandAll_add (colormap : Nat → Nat) (mode : Mode) (src tail : List Nat) (c k : Nat)
    (h : src.length = c * mode.srcBytes) :
    expandAll colormap mode (src ++ tail) (c + k) =
      expandAll colormap mode src c ++ expandAll colormap mode tail k := by
  induction k with
  | zero =>
    rw [Nat.add_zero, expandAll_append colormap mode src tail c (by omega)]
    simp [expandAll]
  | succ k ih =>
    rw [← Nat.add_assoc, expandAll_succ, ih, expandAll_succ, srcPixel_behind _ _ _ _ _ h,
      List.append_assoc]

theorem payloads_length (mode : Mode) (packets : List (Nat × List Nat))
    (hp : ∀ k ∈ packets, RawPacket mode k) :
    (payloads packets).length = pixelCount packets * mode.srcBytes := by
  induction packets with
  | nil => simp [payloads, pixelCount]
  | cons k ks ih =>
    have hk := (hp k (List.mem_cons_self _ _)).2.2
    have := ih (fun x hx => hp x (List.mem_cons_of_mem _ hx))
    simp only [payloads, pixelCount, List.flatMap_cons, List.length_append, List.map_cons,
      List.sum_cons, Nat.add_mul] at this ⊢
    rw [hk, this]

theorem raw_header (c : Nat) (h1 : 1 ≤ c) (h128 : c ≤ 128) :
    1 + ((c - 1) &&& 0x7f) = c ∧ (c - 1) &&& 0x80 = 0 := by
  have h : ∀ x, x < 128 → (x &&& 0x7f = x ∧ x &&& 0x80 = 0) := by decide
  obtain ⟨a, b⟩ := h (c - 1) (by omega)
  exact ⟨by rw [a]; omega, b⟩

/-- The loop of a run-length decoder on a stream of raw packets that fill the
image from the cursor on: it ends within one turn per packet and has stored
the expansions of the payloads from the cursor on. -/
theorem raw_packets_loop (colormap : Nat → Nat) (mode : Mode) (t : gl_texture_t) :
    ∀ (packets : List (Nat × List Nat)), (∀ k ∈ packets, RawPacket mode k) →
      ∀ (fuel : Nat) (s : Decoder), packets.length ≤ fuel → s.fp.rest = rawStream packets →
        ((s.ptr : Int) + (pixelCount packets : Int) * mode.bpp =
          t.width * t.height * mode.bpp) →
        ∃ s', whileLoop fuel (inside (t.width * t.height * mode.bpp)) (mode.packet colormap) s =
            some s' ∧
          s'.texinfo = blit s.texinfo s.ptr
            (expandAll colormap mode (payloads packets) (pixelCount packets)) := by
  intro packets
  induction packets with
  | nil =>
    intro _ fuel s _ _ hptr
    refine ⟨s, whileLoop_false _ _ _ _ ?_, ?_⟩
    · simp only [pixelCount, List.map_nil, List.sum_nil, Nat.cast_zero, zero_mul,
        add_zero] at hptr
      simp [inside, hptr]
    · simp [payloads, pixelCount, expandAll, blit_nil]
  | cons k ks ih =>
    intro hp fuel s hfuel hrest hptr
    obtain ⟨h1, h128, hlen⟩ := hp k (List.mem_cons_self _ _)
    obtain ⟨e1, e2⟩ := raw_header k.1 h1 h128
    have hbpp := bpp_pos mode
    have hin : inside (t.width * t.height * mode.bpp) s = true := by
      simp only [inside, decide_eq_true_eq]
      simp only [pixelCount, List.map_cons, List.sum_cons, Nat.cast_add] at hptr
      have : (0 : Int) < (k.1 : Int) * mode.bpp :=
        Int.mul_pos (by exact_mod_cast h1) (by exact_mod_cast hbpp)
      have h2 : (0 : Int) ≤ (((List.map (fun k => k.1) ks).sum : Nat) : Int) * mode.bpp :=
        Int.mul_nonneg (Int.ofNat_nonneg _) (Int.ofNat_nonneg _)
      nlinarith
    obtain ⟨fuel, rfl⟩ : ∃ f, fuel = f + 1 := ⟨fuel - 1, by simp at hfuel; omega⟩
    rw [whileLoop_true _ _ _ _ hin]
    have hrest' : s.fp.rest = (k.1 - 1) :: (k.2 ++ rawStream ks) := by
      rw [hrest]; simp [rawStream]
    obtain ⟨p1, p2, p3⟩ := packet_raw colormap mode s (k.1 - 1) k.2 (rawStream ks) hrest'
      (by rw [e1]; exact hlen) e2
    rw [e1] at p1 p2 p3
    obtain ⟨s', hs1, hs2⟩ := ih (fun x hx => hp x (List.mem_cons_of_mem _ hx)) fuel
      (mode.packet colormap s) (by simp at hfuel; omega)
      (by rw [p1, rest_fseek, hrest', ← hlen, Nat.add_comm, List.drop_succ_cons, List.drop_left])
      (by
        rw [p2]
        simp only [pixelCount, List.map_cons, List.sum_cons, Nat.cast_add] at hptr
        push_cast
        simp only [pixelCount]
        linarith)
    refine ⟨s', hs1, ?_⟩
    rw [hs2, p3, p2]
    have hl : (expandAll colormap mode k.2 k.1).length = k.1 * mode.bpp := expandAll_length _ _ _ _
    rw [← hl, blit_blit]
    have : payloads (k :: ks) = k.2 ++ payloads ks := by simp [payloads]
    rw [this]
    have : pixelCount (k :: ks) = k.1 + pixelCount ks := by simp [pixelCount]
    rw [this, expandAll_add colormap mode k.2 (payloads ks) k.1 (pixelCount ks) hlen]

theorem packets_le_pixels (mode : Mode) (packets : List (Nat × List Nat))
    (hp : ∀ k ∈ packets, RawPacket mode k) : packets.length ≤ pixelCount packets := by
  induction packets with
  | nil => simp [pixelCount]
  | cons k ks ih =>
    have h1 := (hp k (List.mem_cons_self _ _)).1
    have := ih (fun x hx => hp x (List.mem_cons_of_mem _ hx))
    simp only [pixelCount, List.length_cons, List.map_cons, List.sum_cons] at this ⊢
    omega

theorem GLubyte_lt (x : Int) : GLubyte x < 256 := by
  unfold GLubyte
  omega

/-- The reads of a pixel of the indexed mode are below offset 768 of the colormap. -/
theorem read_indexed8 (cm cm' : Nat → Nat) (h : ∀ i, i < 768 → cm i = cm' i) :
    Mode.read cm Mode.indexed8 = Mode.read cm' Mode.indexed8 := by
  funext fp
  have hc := GLubyte_lt (fgetc fp).1
  simp only [Mode.read]
  rw [h _ (by omega), h _ (by omega), h _ (by omega)]

theorem decode_indexed8 (cm cm' : Nat → Nat) (h : ∀ i, i < 768 → cm i = cm' i) (fp : FILE)
    (t : gl_texture_t) : ReadTGA8bits fp (some cm) t = ReadTGA8bits fp (some cm') t := by
  have e1 : ReadTGA8bits fp (some cm) t = Mode.decode cm Mode.indexed8 fp t := rfl
  have e2 : ReadTGA8bits fp (some cm') t = Mode.decode cm' Mode.indexed8 fp t := rfl
  rw [e1, e2]
  by_cases hfit : Mode.indexed8.scanFits t
  · rw [decode_eq cm _ fp t hfit, decode_eq cm' _ fp t hfit, read_indexed8 cm cm' h]
  · rw [decode_overflow cm _ fp t hfit, decode_overflow cm' _ fp t hfit]

theorem packet_indexed8 (cm cm' : Nat → Nat) (h : ∀ i, i < 768 → cm i = cm' i) :
    ReadTGA8bitsRLE.packet cm = ReadTGA8bitsRLE.packet cm' := by
  funext s
  have e1 : ReadTGA8bitsRLE.packet cm s = Mode.packet cm Mode.indexed8 s := rfl
  have e2 : ReadTGA8bitsRLE.packet cm' s = Mode.packet cm' Mode.indexed8 s := rfl
  rw [e1, e2, packet_eq, packet_eq]
  simp only [Mode.run, read_indexed8 cm cm' h]

theorem decodeRLE_indexed8 (cm cm' : Nat → Nat) (h : ∀ i, i < 768 → cm i = cm' i) (fp : FILE)
    (t : gl_texture_t) : ReadTGA8bitsRLE fp (some cm) t = ReadTGA8bitsRLE fp (some cm') t := by
  simp only [ReadTGA8bitsRLE, packet_indexed8 cm cm' h]

/-- The `switch` of `ReadTGAFile` reads a colormap below offset 768 only. -/
theorem readImageData_colormap (rgb : Nat → Nat) (header : tga_header_t) (fp : FILE)
    (cm cm' : Nat → Nat) (h : ∀ i, i < 768 → cm i = cm' i) (t : gl_texture_t) :
    readImageData rgb header fp (some cm) t = readImageData rgb header fp (some cm') t := by
  by_cases h1 : header.image_type = 1
  · rw [readImageData_type1 _ _ _ _ _ h1, readImageData_type1 _ _ _ _ _ h1,
      decode_indexed8 cm cm' h]
  · by_cases h9 : header.image_type = 9
    · rw [readImageData_type9 _ _ _ _ _ h9, readImageData_type9 _ _ _ _ _ h9,
        decodeRLE_indexed8 cm cm' h]
    · simp only [readImageData, h1, h9, if_false]

theorem decode_empty (colormap : Nat → Nat) (mode : Mode) (fp : FILE) (t : gl_texture_t)
    (h : t.width * t.height ≤ 0) : mode.decode colormap fp t = .ok (fp, t) := by
  have hn : (t.width * t.height).toNat = 0 := by omega
  have hfit : mode.scanFits t :=
    Or.inr (Or.inr (le_trans
      (Int.mul_nonpos_of_nonpos_of_nonneg h (Int.ofNat_nonneg _)) (by decide)))
  rw [decode_eq colormap mode fp t hfit, hn]
  simp [pixelLoop, blit_nil]

theorem decodeRLE_empty (colormap rgb : Nat → Nat) (mode : Mode) (fp : FILE)
    (t : gl_texture_t) (hfit : mode.rleFits t) (h : t.width * t.height ≤ 0) :
    mode.decodeRLE colormap rgb fp t = .ok (fp, t) := by
  obtain ⟨rgb0, hl⟩ := decodeRLE_loop colormap rgb mode fp t hfit
  have hin : inside (t.width * t.height * mode.bpp) (start rgb0 fp t) = false := by
    simp only [inside, start, decide_eq_false_iff_not, not_lt]
    have hb : (0 : Int) ≤ (mode.bpp : Int) := Int.ofNat_nonneg _
    have := Int.mul_nonpos_of_nonpos_of_nonneg h hb
    simpa using this
  rw [hl, whileLoop_false _ _ _ _ hin]
  rfl

/-- With a pixel count that is not positive the `switch` stores nothing: for a
known image type it hands the record back as it came. -/
theorem readImageData_empty (rgb : Nat → Nat) (header : tga_header_t) (fp : FILE)
    (colormap : Option (Nat → Nat)) (t : gl_texture_t) (h : t.width * t.height ≤ 0)
    (hk : knownType header.image_type)
    (hfit : ∀ mode, header.dispatch = some (mode, true) → mode.rleFits t) :
    (readImageData rgb header fp colormap t).map Prod.snd =
      .ok { texinfo := some t, stderr := [] } := by
  rcases hdisp : header.dispatch with _ | ⟨mode, rle⟩
  · rw [readImageData_none rgb header fp colormap t hdisp hk]
    rfl
  · by_cases hcm : ∃ cm, mode = Mode.indexed8 → colormap = some cm
    · obtain ⟨cm, hcm⟩ := hcm
      rw [readImageData_dispatch rgb header fp colormap cm t mode rle hdisp hcm]
      cases rle
      · simp only [Bool.false_eq_true, if_false, decode_empty cm mode fp t h]
        rfl
      · simp only [if_true, decodeRLE_empty cm rgb mode fp t (hfit mode hdisp) h]
        rfl
    · have hm : mode = Mode.indexed8 := by
        by_contra hc
        exact hcm ⟨fun _ => 0, fun h => absurd h hc⟩
      have hnone : colormap = none := by
        cases colormap with
        | none => rfl
        | some cm => exact absurd ⟨cm, fun _ => rfl⟩ hcm
      subst hm hnone
      have hty : header.image_type = 1 ∨ header.image_type = 9 := by
        unfold tga_header_t.dispatch at hdisp
        split_ifs at hdisp <;> simp_all
      have hpos : ¬ 0 < t.width * t.height := by omega
      rcases hty with h1 | h9
      · rw [readImageData_type1 rgb header fp none t h1]
        simp only [ReadTGA8bits, if_neg hpos]
        rfl
      · rw [readImageData_type9 rgb header fp none t h9]
        have hrle : rle = true := by
          unfold tga_header_t.dispatch at hdisp
          split_ifs at hdisp <;> simp_all
        subst hrle
        have hf : Mode.indexed8.fits t := by
          rcases hfit Mode.indexed8 hdisp with hg | hf
          · cases hg
          · exact hf
        have hb : bound t 3 = .ok (t.width * t.height * 3) := bound_ok Mode.indexed8 t hf
        have hn : ¬ (0 : Int) < t.width * t.height * 3 := by omega
        simp only [ReadTGA8bitsRLE, hb]
        rw [show (Except.ok (t.width * t.height * 3) : Except Fault Int).bind
            (fun n => if 0 < n then Except.error Fault.null_colormap else Except.ok (fp, t)) =
            Except.ok (fp, t) from if_neg hn]
        rfl

theorem expandAll_replicate (colormap : Nat → Nat) (mode : Mode) (p : List Nat)
    (hp : p.length = mode.srcBytes) (n : Nat) :
    expandAll colormap mode (List.replicate n p).flatten n =
      (List.replicate n (mode.expand colormap p)).flatten := by
  induction n with
  | zero => simp [expandAll]
  | succ n ih =>
    rw [List.replicate_succ, List.flatten_cons, expandAll_cons, ← hp, List.take_left,
      List.drop_left, ih, List.replicate_succ, List.flatten_cons]

theorem run_header (n : Nat) (h : n < 128) :
    (128 + n) &&& 0x80 ≠ 0 ∧ (128 + n) &&& 0x7f = n ∧ n &&& 0x80 = 0 ∧ n &&& 0x7f = n := by
  have hall : ∀ x, x < 128 →
      ((128 + x) &&& 0x80 ≠ 0 ∧ (128 + x) &&& 0x7f = x ∧ x &&& 0x80 = 0 ∧ x &&& 0x7f = x) := by
    decide
  exact hall n h


theorem fits_of_eq {mode : Mode} {t : gl_texture_t} (n : Int) (h : t.width * t.height = n)
    (h1 : INT_MIN ≤ n * mode.bpp) (h2 : n * mode.bpp ≤ INT_MAX) : mode.fits t := by
  unfold Mode.fits
  rw [h]
  exact ⟨h1, h2⟩

theorem recordOf_size (m : Machine) (bytes : List (Fin 256)) :
    (recordOf m bytes).width = (headerOf m bytes).width ∧
      (recordOf m bytes).height = (headerOf m bytes).height := by
  constructor
  · simp only [recordOf, GetTextureInfo]; split_ifs <;> rfl
  · simp only [recordOf, GetTextureInfo]; split_ifs <;> rfl

/-- The dimensions of a header that fit give a fresh record whose offsets fit
for the decoder that the `switch` calls. -/
theorem fits_fresh (m : Machine) (bytes : List (Fin 256)) (h : (headerOf m bytes).fits)
    (mode : Mode) (rle : Bool) (hd : (headerOf m bytes).dispatch = some (mode, rle)) :
    mode.fits (freshOf m bytes) := by
  unfold tga_header_t.fits tga_header_t.step at h
  rw [hd] at h
  obtain ⟨hw, hh⟩ := recordOf_size m bytes
  unfold Mode.fits
  show INT_MIN ≤ (recordOf m bytes).width * (recordOf m bytes).height * mode.bpp ∧
    (recordOf m bytes).width * (recordOf m bytes).height * mode.bpp ≤ INT_MAX
  rw [hw, hh]
  exact h

/-- A product of the dimensions and the bytes per pixel below `2 ^ 31` keeps every
texel index of the scanline decoder within the range of `int`. -/
theorem scanFits_of_lt (mode : Mode) (t : gl_texture_t)
    (h : (mode.bpp : Int) * (t.width * t.height) < 2 ^ 31) : mode.scanFits t := by
  refine Or.inr (Or.inr ?_)
  rw [Int.mul_comm]
  simp only [INT_MAX]
  omega

theorem scanFits_of_le (mode : Mode) (t : gl_texture_t)
    (h : (mode.bpp : Int) * (t.width * t.height) ≤ 2 ^ 31) : mode.scanFits t := by
  refine Or.inr (Or.inr ?_)
  rw [Int.mul_comm]
  simp only [INT_MAX]
  omega

/-- The `switch` calls a run-length decoder for the image types 9, 10 and 11 only. -/
theorem dispatch_rle (header : tga_header_t) (mode : Mode)
    (h : header.dispatch = some (mode, true)) : 9 ≤ header.image_type := by
  unfold tga_header_t.dispatch at h
  split_ifs at h <;> simp_all
/-! ## The claims -/

/-- C1, at the failing input. A 1-by-1 image has `1 * 1 * bpp` texel bytes, at the
offsets below `bpp`. On a stream that starts with the run-length packet header
`0x81` (two pixels) the run-length decoder of every mode returns with a byte
stored at offset `bpp`, the first one behind the buffer; so does `ReadTGAFile` on
the 24-bit file with that packet, whose buffer has 3 bytes. -/
theorem C1_run_packet_overruns_buffer :
    (∀ mode : Mode,
      (cellOf (mode.decodeRLE (fun j => j) (fun _ => 0)
        { data := [0x81, 1, 2, 3, 4], pos := 0 } (emptyTexture 1 1 mode.bpp))
        (1 * 1 * mode.bpp)).isSome = true) ∧
      texelBytes (recordOf plain (headerBytes 10 24 1 1 ++ [0x81, 1, 2, 3])) = 3 ∧
      (image (ReadTGAFile plain (some (headerBytes 10 24 1 1 ++ [0x81, 1, 2, 3])))).map
        (fun t => (t.texels 3, t.texels 4, t.texels 5)) = some (some 3, some 2, some 1) := by
  refine ⟨?_, by decide, by decide⟩
  intro mode
  cases mode <;> decide

/-- C3. A run-length packet (header byte `h` with the high bit set) followed by
one source pixel `p` of the mode: the packet turn of every run-length decoder
leaves the stream `1 + srcBytes` bytes further, moves the cursor by
`1 + (h & 0x7f)` pixels and stores the expansion of `p` that many times in a row
from the cursor on, touching no other cell. For the 24-bit decoder on a
128-pixel image, header `0xFF` with the pixel (10, 20, 30) gives 128 times
(30, 20, 10) and 4 bytes consumed; for every mode on a 1-pixel image, header
`0x80` gives exactly the one expanded pixel and `1 + srcBytes` bytes consumed. -/
theorem C3_run_length_packet :
    (∀ (colormap : Nat → Nat) (mode : Mode) (s : Decoder) (h : Nat) (p tail : List Nat),
      s.fp.rest = h :: (p ++ tail) → p.length = mode.srcBytes → h &&& 0x80 ≠ 0 →
        (mode.packet colormap s).fp = fseek s.fp (1 + mode.srcBytes) ∧
        (mode.packet colormap s).ptr = s.ptr + (1 + (h &&& 0x7f)) * mode.bpp ∧
        (mode.packet colormap s).texinfo =
          blit s.texinfo s.ptr
            (List.replicate (1 + (h &&& 0x7f)) (mode.expand colormap p)).flatten) ∧
    (∀ (rgb : Nat → Nat) (t : gl_texture_t), t.width * t.height = 128 →
      ReadTGA24bitsRLE rgb { data := [0xFF, 10, 20, 30], pos := 0 } t =
        .ok ({ data := [0xFF, 10, 20, 30], pos := 4 },
          blit t 0 (List.replicate 128 [30, 20, 10]).flatten)) ∧
    (∀ (colormap rgb : Nat → Nat) (mode : Mode) (p : List (Fin 256)) (t : gl_texture_t),
      t.width * t.height = 1 → p.length = mode.srcBytes →
        mode.decodeRLE colormap rgb { data := 0x80 :: p, pos := 0 } t =
          .ok ({ data := 0x80 :: p, pos := 1 + mode.srcBytes },
            blit t 0 (mode.expand colormap (p.map (fun b => b.val))))) := by
  refine ⟨fun colormap mode s h p tail h1 h2 h3 => packet_run colormap mode s h p tail h1 h2 h3,
    ?_, ?_⟩
  · intro rgb t ht
    have hp : ∀ rgb0, FILE.rest (start rgb0 { data := [0xFF, 10, 20, 30], pos := 0 } t).fp =
        0xFF :: ([10, 20, 30] ++ []) := fun _ => rfl
    obtain ⟨rgb0, hd⟩ := decodeRLE_single (fun j => j) rgb Mode.true24
      { data := [0xFF, 10, 20, 30], pos := 0 } t
      (fits_rle (fits_of_eq 128 ht (by decide) (by decide))) (by rw [ht]; decide)
      (by
        intro rgb0
        rw [(packet_run (fun j => j) Mode.true24 _ 0xFF [10, 20, 30] [] (hp rgb0) rfl
          (by decide)).2.1, ht]
        simp [start, Mode.bpp, show (255 &&& 127 : Nat) = 127 from by decide])
    obtain ⟨e1, _, e3⟩ := packet_run (fun j => j) Mode.true24 _ 0xFF [10, 20, 30] [] (hp rgb0)
      rfl (by decide)
    rw [e1, e3] at hd
    exact hd
  · intro colormap rgb mode p t ht hlen
    have hp : ∀ rgb0, FILE.rest (start rgb0 { data := 0x80 :: p, pos := 0 } t).fp =
        0x80 :: (p.map (fun b => b.val) ++ []) := fun _ => by
      simp [FILE.rest, start]; rfl
    have hl : (p.map (fun b => b.val)).length = mode.srcBytes := by
      rw [List.length_map]; exact hlen
    obtain ⟨rgb0, hd⟩ := decodeRLE_single colormap rgb mode
      { data := 0x80 :: p, pos := 0 } t
      (fits_rle (fits_of_eq 1 ht (by cases mode <;> decide) (by cases mode <;> decide)))
      (by rw [ht]; decide)
      (by
        intro rgb0
        rw [(packet_run colormap mode _ 0x80 _ [] (hp rgb0) hl (by decide)).2.1, ht]
        cases mode <;> simp [start, Mode.bpp, show (128 &&& 127 : Nat) = 0 from by decide])
    obtain ⟨e1, _, e3⟩ := packet_run colormap mode _ 0x80 _ [] (hp rgb0) hl (by decide)
    rw [e1, e3] at hd
    rw [hd]
    simp [start, fseek, show (128 &&& 127 : Nat) = 0 from by decide]

/-- C3 at a 24-bit decoder that meets the packet `83 0A 14 1E` with its cursor
at the start of the texels of a 2-by-2 image. -/
theorem C3_run_length_packet_witness :
    (start (fun _ => 0) { data := [0x83, 10, 20, 30, 9], pos := 0 } (emptyTexture 2 2 3)).fp.rest =
        0x83 :: ([10, 20, 30] ++ [9]) ∧
      [10, 20, 30].length = Mode.true24.srcBytes ∧ 0x83 &&& 0x80 ≠ 0 ∧
      (Mode.true24.packet (fun j => j)
        (start (fun _ => 0) { data := [0x83, 10, 20, 30, 9], pos := 0 }
          (emptyTexture 2 2 3))).fp =
        fseek (start (fun _ => 0) { data := [0x83, 10, 20, 30, 9], pos := 0 }
          (emptyTexture 2 2 3)).fp (1 + Mode.true24.srcBytes) ∧
      (Mode.true24.packet (fun j => j)
        (start (fun _ => 0) { data := [0x83, 10, 20, 30, 9], pos := 0 }
          (emptyTexture 2 2 3))).ptr =
        (start (fun _ => 0) { data := [0x83, 10, 20, 30, 9], pos := 0 }
          (emptyTexture 2 2 3)).ptr + (1 + (0x83 &&& 0x7f)) * Mode.true24.bpp ∧
      (Mode.true24.packet (fun j => j)
        (start (fun _ => 0) { data := [0x83, 10, 20, 30, 9], pos := 0 }
          (emptyTexture 2 2 3))).texinfo =
        blit (start (fun _ => 0) { data := [0x83, 10, 20, 30, 9], pos := 0 }
            (emptyTexture 2 2 3)).texinfo
          (start (fun _ => 0) { data := [0x83, 10, 20, 30, 9], pos := 0 }
            (emptyTexture 2 2 3)).ptr
          (List.replicate (1 + (0x83 &&& 0x7f))
            (Mode.true24.expand (fun j => j) [10, 20, 30])).flatten :=
  ⟨by decide, by decide, by decide,
    C3_run_length_packet.1 (fun j => j) Mode.true24
      (start (fun _ => 0) { data := [0x83, 10, 20, 30, 9], pos := 0 } (emptyTexture 2 2 3))
      0x83 [10, 20, 30] [9] (by decide) (by decide) (by decide)⟩

/-- C4. A raw packet (header byte `h` with the high bit clear) followed by its
`1 + (h & 0x7f)` source pixels, in an image with at least that many pixels still
to fill (`total` is the size of the buffer): the packet turn of every run-length
decoder leaves the stream `1 + (1 + count) * srcBytes` bytes further, moves the
cursor by `1 + count` pixels and stores, from the cursor on, the expansion of
each source pixel in stream order; no cell at or behind `total` changes. For
the header `0x02` these are `1 + 3 * srcBytes` bytes and the expansions of the
three pixels. The decoders take that turn: every run-length decoder called
on a stream that starts with such a packet, for an image of at least
`1 + count` pixels whose offsets are within the range of `int`, goes on from
the state in which the packet is consumed and its pixels are stored from
offset 0 on; when the image has exactly `1 + count` pixels it returns there. -/
theorem C4_raw_packet :
    (∀ (colormap : Nat → Nat) (mode : Mode) (s : Decoder) (h : Nat) (src tail : List Nat)
      (total : Nat),
      s.fp.rest = h :: (src ++ tail) → src.length = (1 + (h &&& 0x7f)) * mode.srcBytes →
      h &&& 0x80 = 0 → s.ptr + (1 + (h &&& 0x7f)) * mode.bpp ≤ total →
        (mode.packet colormap s).fp =
          fseek s.fp (1 + (1 + (h &&& 0x7f)) * mode.srcBytes) ∧
        (mode.packet colormap s).ptr = s.ptr + (1 + (h &&& 0x7f)) * mode.bpp ∧
        (mode.packet colormap s).texinfo =
          blit s.texinfo s.ptr (expandAll colormap mode src (1 + (h &&& 0x7f))) ∧
        ∀ o, total ≤ o → (mode.packet colormap s).texinfo.texels o = s.texinfo.texels o) ∧
    (∀ (colormap : Nat → Nat) (mode : Mode) (s : Decoder) (src tail : List Nat),
      s.fp.rest = 0x02 :: (src ++ tail) → src.length = 3 * mode.srcBytes →
        (mode.packet colormap s).fp = fseek s.fp (1 + 3 * mode.srcBytes) ∧
        (mode.packet colormap s).ptr = s.ptr + 3 * mode.bpp ∧
        (mode.packet colormap s).texinfo =
          blit s.texinfo s.ptr
            (mode.expand colormap (srcPixel mode.srcBytes src 0) ++
              mode.expand colormap (srcPixel mode.srcBytes src 1) ++
              mode.expand colormap (srcPixel mode.srcBytes src 2))) ∧
    (∀ (colormap rgb : Nat → Nat) (mode : Mode) (fp : FILE) (t : gl_texture_t) (h : Nat)
      (src tail : List Nat),
      mode.fits t → fp.rest = h :: (src ++ tail) →
      src.length = (1 + (h &&& 0x7f)) * mode.srcBytes → h &&& 0x80 = 0 →
      ((1 + (h &&& 0x7f) : Nat) : Int) ≤ t.width * t.height →
        ∃ rgb0, mode.decodeRLE colormap rgb fp t =
          finish (whileLoop ((t.width * t.height).toNat - 1)
            (inside (t.width * t.height * mode.bpp)) (mode.packet colormap)
            { fp := fseek fp (1 + (1 + (h &&& 0x7f)) * mode.srcBytes)
              texinfo := blit t 0 (expandAll colormap mode src (1 + (h &&& 0x7f)))
              ptr := (1 + (h &&& 0x7f)) * mode.bpp
              rgb := rgb0 })) ∧
    (∀ (colormap rgb : Nat → Nat) (mode : Mode) (fp : FILE) (t : gl_texture_t) (h : Nat)
      (src tail : List Nat),
      fp.rest = h :: (src ++ tail) →
      src.length = (1 + (h &&& 0x7f)) * mode.srcBytes → h &&& 0x80 = 0 →
      t.width * t.height = ((1 + (h &&& 0x7f) : Nat) : Int) →
        mode.decodeRLE colormap rgb fp t =
          .ok (fseek fp (1 + (1 + (h &&& 0x7f)) * mode.srcBytes),
            blit t 0 (expandAll colormap mode src (1 + (h &&& 0x7f))))) := by
  refine ⟨?_, ?_, ?_, ?_⟩
  rotate_left 2
  · intro colormap rgb mode fp t h src tail hfit hrest hsrc hraw hroom
    obtain ⟨rgb0, hloop⟩ := decodeRLE_loop colormap rgb mode fp t (fits_rle hfit)
    refine ⟨rgb0, ?_⟩
    have hbpp : 0 < (mode.bpp : Int) := by cases mode <;> decide
    have hpos : 0 < t.width * t.height := by omega
    obtain ⟨n, hn⟩ : ∃ n, (t.width * t.height).toNat = n + 1 :=
      ⟨(t.width * t.height).toNat - 1, by omega⟩
    have h1 : inside (t.width * t.height * mode.bpp) (start rgb0 fp t) = true := by
      simp only [inside, start, decide_eq_true_eq]
      exact_mod_cast Int.mul_pos hpos hbpp
    obtain ⟨e1, e2, e3⟩ := packet_raw colormap mode (start rgb0 fp t) h src tail hrest hsrc hraw
    have e4 : (mode.packet colormap (start rgb0 fp t)).rgb = rgb0 := by
      obtain ⟨h0, _, g0⟩ := fgetc_step (start rgb0 fp t).fp h _ hrest
      rw [packet_eq, h0]
      simp only [g0]
      rw [if_neg (by simpa using hraw)]
      rfl
    rw [hloop, hn, whileLoop_true _ _ _ _ h1, Nat.add_sub_cancel]
    congr 2
    cases hp : mode.packet colormap (start rgb0 fp t) with
    | mk f tx q r =>
      rw [hp] at e1 e2 e3 e4
      simp only [start] at e1 e2 e3 e4
      simp only [Nat.zero_add] at e2
      rw [e1, e2, e3, e4]
  · intro colormap rgb mode fp t h src tail hrest hsrc hraw hfill
    have hc : (h &&& 0x7f) < 128 := by
      have : ∀ x : Nat, x &&& 0x7f = x % 128 := fun x => Nat.and_pow_two_sub_one_eq_mod x 7
      rw [this]; omega
    have hfit : mode.fits t := by
      refine fits_of_eq _ hfill ?_ ?_ <;>
        cases mode <;> simp only [Mode.bpp, INT_MIN, INT_MAX] <;> omega
    have h3 : ∀ rgb0,
        (mode.packet colormap (start rgb0 fp t)).fp =
            fseek fp (1 + (1 + (h &&& 0x7f)) * mode.srcBytes) ∧
          (mode.packet colormap (start rgb0 fp t)).ptr = 0 + (1 + (h &&& 0x7f)) * mode.bpp ∧
          (mode.packet colormap (start rgb0 fp t)).texinfo =
            blit t 0 (expandAll colormap mode src (1 + (h &&& 0x7f))) :=
      fun rgb0 => packet_raw colormap mode (start rgb0 fp t) h src tail hrest hsrc hraw
    obtain ⟨rgb0, hd⟩ := decodeRLE_single colormap rgb mode fp t (fits_rle hfit)
      (by rw [hfill]; omega)
      (by
        intro rgb0
        rw [(h3 rgb0).2.1, hfill]
        push_cast
        omega)
    rw [hd, (h3 rgb0).1, (h3 rgb0).2.2]
  · intro colormap mode s h src tail total h1 h2 h3 h4
    obtain ⟨e1, e2, e3⟩ := packet_raw colormap mode s h src tail h1 h2 h3
    refine ⟨e1, e2, e3, ?_⟩
    intro o ho
    rw [e3, blit_texels, if_neg]
    rw [expandAll_length]
    omega
  · intro colormap mode s src tail h1 h2
    have e : (0x02 &&& 0x7f : Nat) = 2 := by decide
    have h3 := packet_raw colormap mode s 0x02 src tail h1 (by rw [e]; exact h2) (by decide)
    rw [e] at h3
    have e3 : expandAll colormap mode src (1 + 2) =
        mode.expand colormap (srcPixel mode.srcBytes src 0) ++
          mode.expand colormap (srcPixel mode.srcBytes src 1) ++
          mode.expand colormap (srcPixel mode.srcBytes src 2) := by
      simp [expandAll, List.range_succ, List.flatMap_append]
    rw [e3] at h3
    exact h3

/-- C4 at a 32-bit decoder that meets the packet `01` with two pixels, its cursor
at the start of the texels of a 2-by-1 image of 8 bytes, and at `ReadTGA32bitsRLE`
called on that stream for that image. -/
theorem C4_raw_packet_witness :
    (start (fun _ => 0) { data := [0x01, 1, 2, 3, 4, 5, 6, 7, 8], pos := 0 }
        (emptyTexture 2 1 4)).fp.rest = 0x01 :: ([1, 2, 3, 4, 5, 6, 7, 8] ++ []) ∧
      [1, 2, 3, 4, 5, 6, 7, 8].length = (1 + (0x01 &&& 0x7f)) * Mode.true32.srcBytes ∧
      0x01 &&& 0x80 = 0 ∧
      (start (fun _ => 0) { data := [0x01, 1, 2, 3, 4, 5, 6, 7, 8], pos := 0 }
        (emptyTexture 2 1 4)).ptr + (1 + (0x01 &&& 0x7f)) * Mode.true32.bpp ≤ 8 ∧
      (Mode.true32.packet (fun j => j)
        (start (fun _ => 0) { data := [0x01, 1, 2, 3, 4, 5, 6, 7, 8], pos := 0 }
          (emptyTexture 2 1 4))).fp =
        fseek (start (fun _ => 0) { data := [0x01, 1, 2, 3, 4, 5, 6, 7, 8], pos := 0 }
          (emptyTexture 2 1 4)).fp (1 + (1 + (0x01 &&& 0x7f)) * Mode.true32.srcBytes) ∧
      (Mode.true32.packet (fun j => j)
        (start (fun _ => 0) { data := [0x01, 1, 2, 3, 4, 5, 6, 7, 8], pos := 0 }
          (emptyTexture 2 1 4))).ptr =
        (start (fun _ => 0) { data := [0x01, 1, 2, 3, 4, 5, 6, 7, 8], pos := 0 }
          (emptyTexture 2 1 4)).ptr + (1 + (0x01 &&& 0x7f)) * Mode.true32.bpp ∧
      (Mode.true32.packet (fun j => j)
        (start (fun _ => 0) { data := [0x01, 1, 2, 3, 4, 5, 6, 7, 8], pos := 0 }
          (emptyTexture 2 1 4))).texinfo =
        blit (start (fun _ => 0) { data := [0x01, 1, 2, 3, 4, 5, 6, 7, 8], pos := 0 }
            (emptyTexture 2 1 4)).texinfo
          (start (fun _ => 0) { data := [0x01, 1, 2, 3, 4, 5, 6, 7, 8], pos := 0 }
            (emptyTexture 2 1 4)).ptr
          (expandAll (fun j => j) Mode.true32 [1, 2, 3, 4, 5, 6, 7, 8] (1 + (0x01 &&& 0x7f))) ∧
      (∀ o, 8 ≤ o →
        (Mode.true32.packet (fun j => j)
          (start (fun _ => 0) { data := [0x01, 1, 2, 3, 4, 5, 6, 7, 8], pos := 0 }
            (emptyTexture 2 1 4))).texinfo.texels o =
          (start (fun _ => 0) { data := [0x01, 1, 2, 3, 4, 5, 6, 7, 8], pos := 0 }
            (emptyTexture 2 1 4)).texinfo.texels o) ∧
      ReadTGA32bitsRLE (fun _ => 0) { data := [0x01, 1, 2, 3, 4, 5, 6, 7, 8], pos := 0 }
          (emptyTexture 2 1 4) =
        .ok ({ data := [0x01, 1, 2, 3, 4, 5, 6, 7, 8], pos := 9 },
          blit (emptyTexture 2 1 4) 0 [3, 2, 1, 4, 7, 6, 5, 8]) :=
  have h := C4_raw_packet.1 (fun j => j) Mode.true32
    (start (fun _ => 0) { data := [0x01, 1, 2, 3, 4, 5, 6, 7, 8], pos := 0 }
      (emptyTexture 2 1 4))
    0x01 [1, 2, 3, 4, 5, 6, 7, 8] [] 8 (by decide) (by decide) (by decide) (by decide)
  ⟨by decide, by decide, by decide, by decide, h.1, h.2.1, h.2.2.1, h.2.2.2,
    C4_raw_packet.2.2.2 (fun j => j) (fun _ => 0) Mode.true32
      { data := [0x01, 1, 2, 3, 4, 5, 6, 7, 8], pos := 0 } (emptyTexture 2 1 4)
      0x01 [1, 2, 3, 4, 5, 6, 7, 8] [] (by decide) (by decide) (by decide) (by decide)⟩

/-- C7 is false at a 1-by-1 file of image type 7 on a machine whose fresh record
has all bits set in `internalFormat`: the buffer is requested before the image
type is looked at, the request of `2 ^ 64 - 1` bytes is refused, and `ReadTGAFile`
returns `NULL` without the unknown-image-type line. -/
theorem C7_allocation_failure_hides_unknown_type :
    (headerOf tight (headerBytes 7 8 1 1)).image_type = 7 ∧
      texelBytes (recordOf tight (headerBytes 7 8 1 1)) = 2 ^ 64 - 1 ∧
      (image (ReadTGAFile tight (some (headerBytes 7 8 1 1)))).isSome = false ∧
      printed (ReadTGAFile tight (some (headerBytes 7 8 1 1))) = some [] := by
  decide

/-- C7 as amended. For a header whose image type is none of 0, 1, 2, 3, 9, 10, 11
`ReadTGAFile` returns no record, whatever the pixel depth and the rest of the
stream. It requests the texel buffer before it looks at the image type: when
the buffer is refused it prints nothing; when the buffer is granted, and the
colormap block too if the header asks for one, it prints the
unknown-image-type line. -/
theorem C7_unknown_image_type (m : Machine) (bytes : List (Fin 256))
    (hk : ¬ knownType (headerOf m bytes).image_type) :
    image (ReadTGAFile m (some bytes)) = none ∧
      (m.malloc (texelBytes (recordOf m bytes)) = false →
        printed (ReadTGAFile m (some bytes)) = some []) ∧
      (m.malloc (texelBytes (recordOf m bytes)) = true → m.grants (headerOf m bytes) →
        printed (ReadTGAFile m (some bytes)) =
          some [Diagnostic.unknown_image_type (headerOf m bytes).image_type]) := by
  refine ⟨?_, ?_, ?_⟩
  · by_cases hg : m.malloc (texelBytes (recordOf m bytes)) = true
    · rw [ReadTGAFile_bind m bytes hg]
      cases readColormap m (headerOf m bytes) (streamOf m bytes) with
      | error e => rfl
      | ok cm =>
        show image ((readImageData m.rgb (headerOf m bytes) cm.2 cm.1 (freshOf m bytes)).map
          Prod.snd) = none
        rw [readImageData_unknown _ _ _ _ _ hk]
        rfl
    · have hg' : m.malloc (texelBytes (recordOf m bytes)) = false := by simpa using hg
      rw [ReadTGAFile_refused m bytes hg']
      rfl
  · intro hg
    rw [ReadTGAFile_refused m bytes hg]
    rfl
  · intro hg hblock
    rw [ReadTGAFile_granted m bytes hg hblock, readImageData_unknown _ _ _ _ _ hk]
    rfl

/-- C7 as amended, at a 1-by-1 file of image type 7 whose buffer is granted. -/
theorem C7_unknown_image_type_witness :
    ¬ knownType (headerOf plain (headerBytes 7 8 1 1)).image_type ∧
      plain.malloc (texelBytes (recordOf plain (headerBytes 7 8 1 1))) = true ∧
      plain.grants (headerOf plain (headerBytes 7 8 1 1)) ∧
      image (ReadTGAFile plain (some (headerBytes 7 8 1 1))) = none ∧
      printed (ReadTGAFile plain (some (headerBytes 7 8 1 1))) =
        some [Diagnostic.unknown_image_type (headerOf plain (headerBytes 7 8 1 1)).image_type] :=
  ⟨by decide, by decide, by decide,
    (C7_unknown_image_type plain (headerBytes 7 8 1 1) (by decide)).1,
    (C7_unknown_image_type plain (headerBytes 7 8 1 1) (by decide)).2.2 (by decide)
      (by decide)⟩

/-- C9 is false at a 1-by-1 uncompressed 24-bit file that ends with its header:
`ReadTGAFile` prints nothing and returns a 1-by-1 image whose three bytes are
`0xFF`, the `EOF` of the three missing pixel bytes. -/
theorem C9_missing_pixels_become_ff :
    (image (ReadTGAFile plain (some (headerBytes 2 24 1 1)))).map
        (fun t => (t.width, t.height, t.internalFormat, t.buffer 3)) =
        some (1, 1, 3, [some 255, some 255, some 255]) ∧
      printed (ReadTGAFile plain (some (headerBytes 2 24 1 1))) = some [] := by
  decide

/-- C9 as amended. For an uncompressed file (image type 1 with a colormap, 2 or
3) whose dimensions keep the offset `width * height * bpp` of the decoder within
the range of `int`, with the texel buffer and the colormap block granted,
`ReadTGAFile` prints nothing and returns a record with the width and height of
the header, on every stream, the ones that hold too few pixel bytes included:
`fgetc` returns `EOF` at the end of the stream and leaves the stream where it is,
and a decoder stores `EOF` as the byte `0xFF`. -/
theorem C9_uncompressed_always_returns_image (m : Machine) (bytes : List (Fin 256))
    (htype : (headerOf m bytes).image_type = 1 ∨ (headerOf m bytes).image_type = 2 ∨
      (headerOf m bytes).image_type = 3)
    (hcm : (headerOf m bytes).image_type = 1 → (headerOf m bytes).colormap_type ≠ 0)
    (hfit : (headerOf m bytes).fits)
    (hgrant : m.malloc (texelBytes (recordOf m bytes)) = true)
    (hblock : m.grants (headerOf m bytes)) :
    (∃ t, ReadTGAFile m (some bytes) = .ok { texinfo := some t, stderr := [] } ∧
      t.width = (headerOf m bytes).width ∧ t.height = (headerOf m bytes).height) ∧
    (∀ fp : FILE, fp.rest = [] → fgetc fp = (EOF, fp)) ∧ GLubyte EOF = 0xFF := by
  refine ⟨?_, fgetc_nil, by decide⟩
  have hk : knownType (headerOf m bytes).image_type := by
    unfold knownType; omega
  obtain ⟨fp', t', h1, h2, h3, _, _⟩ := readImageData_returns m.rgb (headerOf m bytes)
    (colormapOf m (headerOf m bytes) (streamOf m bytes)).2
    (colormapOf m (headerOf m bytes) (streamOf m bytes)).1 (freshOf m bytes) hk
    (by
      intro h
      have h1 : (headerOf m bytes).image_type = 1 := by omega
      exact colormapOf_some m _ _ (hcm h1))
    (fits_fresh m bytes hfit)
  refine ⟨t', ?_, ?_, ?_⟩
  · rw [ReadTGAFile_granted m bytes hgrant hblock, h1]; rfl
  · rw [h2]; simp [freshOf, recordOf, GetTextureInfo]; split_ifs <;> rfl
  · rw [h3]; simp [freshOf, recordOf, GetTextureInfo]; split_ifs <;> rfl

/-- C9 as amended, at the 1-by-1 uncompressed 24-bit file that ends with its header. -/
theorem C9_uncompressed_always_returns_image_witness :
    ((headerOf plain (headerBytes 2 24 1 1)).image_type = 1 ∨
        (headerOf plain (headerBytes 2 24 1 1)).image_type = 2 ∨
        (headerOf plain (headerBytes 2 24 1 1)).image_type = 3) ∧
      (headerOf plain (headerBytes 2 24 1 1)).fits ∧
      plain.malloc (texelBytes (recordOf plain (headerBytes 2 24 1 1))) = true ∧
      plain.grants (headerOf plain (headerBytes 2 24 1 1)) ∧
      (∃ t, ReadTGAFile plain (some (headerBytes 2 24 1 1)) =
          .ok { texinfo := some t, stderr := [] } ∧
        t.width = (headerOf plain (headerBytes 2 24 1 1)).width ∧
        t.height = (headerOf plain (headerBytes 2 24 1 1)).height) :=
  ⟨by decide, by decide, by decide, by decide,
    (C9_uncompressed_always_returns_image plain (headerBytes 2 24 1 1) (by decide) (by decide)
      (by decide) (by decide) (by decide)).1⟩

/-- C10. For a header with `image_type` 3 or 11, `GetTextureInfo` resolves
`pixel_depth` 8 to 1 byte per pixel with the luminance layout and `pixel_depth`
16 to 2 bytes per pixel with the luminance+alpha layout, whatever the other
header fields are and whatever the record held before. -/
theorem C10_grayscale_formats (header : tga_header_t) (texinfo : gl_texture_t)
    (htype : header.image_type = 3 ∨ header.image_type = 11) :
    (GetTextureInfo { header with pixel_depth := 8 } texinfo).internalFormat = 1 ∧
      (GetTextureInfo { header with pixel_depth := 8 } texinfo).format = GL_LUMINANCE ∧
      (GetTextureInfo { header with pixel_depth := 16 } texinfo).internalFormat = 2 ∧
      (GetTextureInfo { header with pixel_depth := 16 } texinfo).format = GL_LUMINANCE_ALPHA := by
  simp [GetTextureInfo, htype]

/-- C10 at the header of a 4-by-2 run-length grayscale file. -/
theorem C10_grayscale_formats_witness :
    ((headerOf plain (headerBytes 11 16 4 2)).image_type = 3 ∨
      (headerOf plain (headerBytes 11 16 4 2)).image_type = 11) ∧
    (GetTextureInfo { headerOf plain (headerBytes 11 16 4 2) with pixel_depth := 8 }
      blank).internalFormat = 1 ∧
    (GetTextureInfo { headerOf plain (headerBytes 11 16 4 2) with pixel_depth := 8 }
      blank).format = GL_LUMINANCE ∧
    (GetTextureInfo { headerOf plain (headerBytes 11 16 4 2) with pixel_depth := 16 }
      blank).internalFormat = 2 ∧
    (GetTextureInfo { headerOf plain (headerBytes 11 16 4 2) with pixel_depth := 16 }
      blank).format = GL_LUMINANCE_ALPHA :=
  ⟨by decide, C10_grayscale_formats (headerOf plain (headerBytes 11 16 4 2)) blank (by decide)⟩

/-- C12. For a header with image type 1, 2, 9 or 10, `GetTextureInfo` resolves every
pixel depth of at most 24 to 3 bytes per pixel with the RGB layout and the pixel
depth 32 to 4 bytes per pixel with the RGBA layout, whatever the other header
fields are and whatever the record held before. -/
theorem C12_colour_formats (header : tga_header_t) (texinfo : gl_texture_t)
    (htype : header.image_type = 1 ∨ header.image_type = 2 ∨ header.image_type = 9 ∨
      header.image_type = 10) :
    (∀ depth, depth ≤ 24 →
      (GetTextureInfo { header with pixel_depth := depth } texinfo).internalFormat = 3 ∧
        (GetTextureInfo { header with pixel_depth := depth } texinfo).format = GL_RGB) ∧
      (GetTextureInfo { header with pixel_depth := 32 } texinfo).internalFormat = 4 ∧
      (GetTextureInfo { header with pixel_depth := 32 } texinfo).format = GL_RGBA := by
  have h3 : ¬ (header.image_type = 3 ∨ header.image_type = 11) := by omega
  refine ⟨fun depth hd => ?_, ?_, ?_⟩
  · simp [GetTextureInfo, h3, htype, hd]
  · simp [GetTextureInfo, h3, htype]
  · simp [GetTextureInfo, h3, htype]

/-- C12 at the header of a run-length true-colour file, for the depths 16 and 32. -/
theorem C12_colour_formats_witness :
    ((headerOf plain (headerBytes 10 16 4 2)).image_type = 1 ∨
        (headerOf plain (headerBytes 10 16 4 2)).image_type = 2 ∨
        (headerOf plain (headerBytes 10 16 4 2)).image_type = 9 ∨
        (headerOf plain (headerBytes 10 16 4 2)).image_type = 10) ∧
      (GetTextureInfo { headerOf plain (headerBytes 10 16 4 2) with pixel_depth := 16 }
        blank).internalFormat = 3 ∧
      (GetTextureInfo { headerOf plain (headerBytes 10 16 4 2) with pixel_depth := 16 }
        blank).format = GL_RGB ∧
      (GetTextureInfo { headerOf plain (headerBytes 10 16 4 2) with pixel_depth := 32 }
        blank).internalFormat = 4 ∧
      (GetTextureInfo { headerOf plain (headerBytes 10 16 4 2) with pixel_depth := 32 }
        blank).format = GL_RGBA :=
  ⟨by decide,
    ((C12_colour_formats (headerOf plain (headerBytes 10 16 4 2)) blank (by decide)).1 16
      (by decide)).1,
    ((C12_colour_formats (headerOf plain (headerBytes 10 16 4 2)) blank (by decide)).1 16
      (by decide)).2,
    (C12_colour_formats (headerOf plain (headerBytes 10 16 4 2)) blank (by decide)).2⟩

/-- C13 is false at the header of a 1-by-1 file of image type 0, and at one of
image type 7: `GetTextureInfo` assigns neither `format` nor `internalFormat`, so for
the same header the two records differ the way their previous contents did, and
no failure is reported. -/
theorem C13_result_depends_on_previous_contents :
    (GetTextureInfo (headerOf plain (headerBytes 0 8 1 1)) blank).internalFormat = 0 ∧
      (GetTextureInfo (headerOf plain (headerBytes 0 8 1 1))
        { blank with internalFormat := 3, format := GL_RGB }).internalFormat = 3 ∧
      (GetTextureInfo (headerOf plain (headerBytes 0 8 1 1)) blank).format = 0 ∧
      (GetTextureInfo (headerOf plain (headerBytes 0 8 1 1))
        { blank with internalFormat := 3, format := GL_RGB }).format = GL_RGB ∧
      (GetTextureInfo (headerOf plain (headerBytes 7 8 1 1)) blank).internalFormat = 0 ∧
      (GetTextureInfo (headerOf plain (headerBytes 7 8 1 1))
        { blank with internalFormat := 3, format := GL_RGB }).internalFormat = 3 := by
  decide

/-- C13 as amended. For two headers that agree in `image_type` and `pixel_depth`,
the image type one of 1, 2, 3, 9, 10, 11, the layout and the bytes per pixel that
`GetTextureInfo` resolves are equal, whatever the two records held before and
whatever the other header fields are. `GetTextureInfo` reports no failure; for an
image type that is none of 0, 1, 2, 3, 9, 10, 11 it is `ReadTGAFile` that returns no
image, on every machine. -/
theorem C13_format_from_type_and_depth :
    (∀ (h1 h2 : tga_header_t) (t1 t2 : gl_texture_t),
      h1.image_type = h2.image_type → h1.pixel_depth = h2.pixel_depth →
      (h1.image_type = 1 ∨ h1.image_type = 2 ∨ h1.image_type = 3 ∨ h1.image_type = 9 ∨
        h1.image_type = 10 ∨ h1.image_type = 11) →
        (GetTextureInfo h1 t1).format = (GetTextureInfo h2 t2).format ∧
        (GetTextureInfo h1 t1).internalFormat = (GetTextureInfo h2 t2).internalFormat) ∧
    (∀ (m : Machine) (bytes : List (Fin 256)), ¬ knownType (headerOf m bytes).image_type →
      image (ReadTGAFile m (some bytes)) = none) := by
  constructor
  · intro h1 h2 t1 t2 ht hd hk
    have ht2 : h2.image_type = 1 ∨ h2.image_type = 2 ∨ h2.image_type = 3 ∨
        h2.image_type = 9 ∨ h2.image_type = 10 ∨ h2.image_type = 11 := by omega
    by_cases h3 : h1.image_type = 3 ∨ h1.image_type = 11
    · have h3' : h2.image_type = 3 ∨ h2.image_type = 11 := by omega
      by_cases h8 : h1.pixel_depth = 8
      · have h8' : h2.pixel_depth = 8 := by omega
        simp [GetTextureInfo, h3, h3', h8, h8']
      · have h8' : ¬ h2.pixel_depth = 8 := by omega
        simp [GetTextureInfo, h3, h3', h8, h8']
    · have h3' : ¬ (h2.image_type = 3 ∨ h2.image_type = 11) := by omega
      have hc : h1.image_type = 1 ∨ h1.image_type = 2 ∨ h1.image_type = 9 ∨
          h1.image_type = 10 := by omega
      have hc' : h2.image_type = 1 ∨ h2.image_type = 2 ∨ h2.image_type = 9 ∨
          h2.image_type = 10 := by omega
      by_cases h24 : h1.pixel_depth ≤ 24
      · have h24' : h2.pixel_depth ≤ 24 := by omega
        simp [GetTextureInfo, h3, h3', hc, hc', h24, h24']
      · have h24' : ¬ h2.pixel_depth ≤ 24 := by omega
        simp [GetTextureInfo, h3, h3', hc, hc', h24, h24']
  · intro m bytes hk
    by_cases hg : m.malloc (texelBytes (recordOf m bytes)) = true
    · rw [ReadTGAFile_bind m bytes hg]
      cases readColormap m (headerOf m bytes) (streamOf m bytes) with
      | error e => rfl
      | ok cm =>
        show image ((readImageData m.rgb (headerOf m bytes) cm.2 cm.1 (freshOf m bytes)).map
          Prod.snd) = none
        rw [readImageData_unknown _ _ _ _ _ hk]
        rfl
    · have hg' : m.malloc (texelBytes (recordOf m bytes)) = false := by simpa using hg
      rw [ReadTGAFile_refused m bytes hg']
      rfl

/-- C13 as amended, at the headers of two run-length grayscale files of depth 16
and of different sizes, the records blank and not. -/
theorem C13_format_from_type_and_depth_witness :
    (headerOf plain (headerBytes 11 16 4 2)).image_type =
        (headerOf plain (headerBytes 11 16 9 9)).image_type ∧
      (headerOf plain (headerBytes 11 16 4 2)).pixel_depth =
        (headerOf plain (headerBytes 11 16 9 9)).pixel_depth ∧
      (GetTextureInfo (headerOf plain (headerBytes 11 16 4 2)) blank).format =
        (GetTextureInfo (headerOf plain (headerBytes 11 16 9 9))
          { blank with internalFormat := 3, format := GL_RGB }).format ∧
      (GetTextureInfo (headerOf plain (headerBytes 11 16 4 2)) blank).internalFormat =
        (GetTextureInfo (headerOf plain (headerBytes 11 16 9 9))
          { blank with internalFormat := 3, format := GL_RGB }).internalFormat :=
  ⟨by decide, by decide,
    C13_format_from_type_and_depth.1 (headerOf plain (headerBytes 11 16 4 2))
      (headerOf plain (headerBytes 11 16 9 9)) blank
      { blank with internalFormat := 3, format := GL_RGB } (by decide) (by decide)
      (by decide)⟩

/-- C14, at the failing input. For a 1-by-1 file of image type 0 on a machine
whose fresh record holds 3 in `internalFormat`, `GetTextureInfo` leaves the 3 where
it is, `ReadTGAFile` requests a buffer of 3 bytes, not of 0, and returns the record
with that value. The other half of the claim holds on every machine: for image
type 0 and a granted buffer the `switch` reads nothing, so the call goes as far
as `readColormap` does: the stream is closed where the header, the image id and the
colormap end, and no texel is stored. -/
theorem C14_no_data_buffer_size_is_indeterminate :
    (recordOf stale (headerBytes 0 8 1 1)).internalFormat = 3 ∧
      texelBytes (recordOf stale (headerBytes 0 8 1 1)) = 3 ∧
      (image (ReadTGAFile stale (some (headerBytes 0 8 1 1)))).map
        (fun t => (t.width, t.height, t.internalFormat)) = some (1, 1, 3) ∧
      (∀ (m : Machine) (bytes : List (Fin 256)), (headerOf m bytes).image_type = 0 →
        m.malloc (texelBytes (recordOf m bytes)) = true →
        ReadTGAFile.run m (some bytes) =
          (readColormap m (headerOf m bytes) (streamOf m bytes)).map (fun cm =>
            (some cm.2, { texinfo := some (freshOf m bytes), stderr := [] })) ∧
        (recordOf m bytes).internalFormat = m.texinfo.internalFormat ∧
        ∀ o, (freshOf m bytes).texels o = none) := by
  refine ⟨by decide, by decide, by decide, ?_⟩
  intro m bytes h0 hg
  refine ⟨?_, ?_, fun _ => rfl⟩
  · rw [ReadTGAFile_run m bytes hg]
    cases readColormap m (headerOf m bytes) (streamOf m bytes) with
    | error e => rfl
    | ok cm =>
      show (readImageData m.rgb (headerOf m bytes) cm.2 cm.1 (freshOf m bytes)).map
        (fun r => (some r.1, r.2)) = _
      simp only [readImageData, h0, if_true, decoded]
      rfl
  · simp [recordOf, GetTextureInfo, h0]

set_option maxRecDepth 100000 in
/-- C16, counterexample. In `longColormap` the image id is empty, `colormap_type` is 1,
the colormap length field holds 32768 and the entry size 8, and the byte at
offset `18 + 0 + 32768 * (8 / 8)` is 7; decoding from that offset gives the texel 7.
The code reads the length as the `short` -32768 and asks `malloc` for
`2 ^ 64 - 32768` bytes. On a machine that grants the one texel byte and refuses
that block, the colormap pointer is null, `fread` stores the first byte of the
file behind the header through it, and `ReadTGAFile` returns no image. -/
theorem C16_colormap_length_32768_is_negative :
    (headerOf tight longColormap).id_length = 0 ∧
      (headerOf tight longColormap).colormap_type = 1 ∧
      (longColormap.getD 5 0).val + 256 * (longColormap.getD 6 0).val = 32768 ∧
      (headerOf tight longColormap).cm_size = 8 ∧
      longColormap.getD (18 + 0 + 32768 * (8 / 8)) 0 = 7 ∧
      (image ((readImageData tight.rgb (headerOf tight longColormap)
        (FILE.mk (longColormap.drop (18 + 0 + 32768 * (8 / 8))) 0) none
        (freshOf tight longColormap)).map Prod.snd)).map (fun t => t.texels 0) =
        some (some 7) ∧
      (headerOf tight longColormap).cm_length = -32768 ∧
      colormapBytes (headerOf tight longColormap) = 2 ^ 64 - 32768 ∧
      tight.malloc (texelBytes (recordOf tight longColormap)) = true ∧
      tight.malloc (colormapBytes (headerOf tight longColormap)) = false ∧
      faultOf (ReadTGAFile tight (some longColormap)) = some Fault.null_colormap ∧
      image (ReadTGAFile tight (some longColormap)) = none := by
  have hf : ReadTGAFile tight (some longColormap) = .error Fault.null_colormap := by
    rw [ReadTGAFile_bind tight longColormap (by decide),
      readColormap_refused tight _ _ (by decide) (by decide) (by decide)]
    rfl
  refine ⟨by decide, by decide, by decide, by decide, getD_behind longHeader 32768 7, ?_,
    by decide, by decide, by decide, by decide, by rw [hf]; rfl, by rw [hf]; rfl⟩
  have hd : longColormap.drop (18 + 0 + 32768 * (8 / 8)) = [7] :=
    drop_behind longHeader 32768 7
  rw [hd]
  decide

/-- C16, amended. The bytes of the image id play no part: two files with the same
header and the same bytes from offset `18 + id_length` on give the same result.
On a file of at least 18 bytes the stream stands at `18 + id_length` behind the
image id. With the texel buffer granted, a colormap whose length is not negative
as a `short`, and the colormap block granted, the block holds the
`cm_length * (cm_size / 8)` bytes from offset `18 + id_length` on and the image is
decoded from the bytes from offset `18 + id_length + cm_length * (cm_size / 8)` on;
without a colormap it is decoded from the bytes from offset `18 + id_length` on. -/
theorem C16_image_id_and_colormap_offsets (m : Machine) (bytes : List (Fin 256)) :
    (∀ bytes' : List (Fin 256), bytes'.take 18 = bytes.take 18 →
        bytes'.drop (18 + (headerOf m bytes).id_length) =
          bytes.drop (18 + (headerOf m bytes).id_length) →
        ReadTGAFile m (some bytes') = ReadTGAFile m (some bytes)) ∧
      (18 ≤ bytes.length → (streamOf m bytes).pos = 18 + (headerOf m bytes).id_length) ∧
      (m.malloc (texelBytes (recordOf m bytes)) = true →
        (headerOf m bytes).colormap_type ≠ 0 → 0 ≤ (headerOf m bytes).cm_length →
        m.malloc (colormapBytes (headerOf m bytes)) = true →
        ReadTGAFile m (some bytes) =
          (readImageData m.rgb (headerOf m bytes)
            (FILE.mk (bytes.drop (18 + (headerOf m bytes).id_length +
              (headerOf m bytes).cm_length.toNat * ((headerOf m bytes).cm_size / 8))) 0)
            (some (overlay (((bytes.drop (18 + (headerOf m bytes).id_length)).take
              ((headerOf m bytes).cm_length.toNat * ((headerOf m bytes).cm_size / 8))).map
              (fun b => b.val)) m.colormap))
            (freshOf m bytes)).map Prod.snd) ∧
      (m.malloc (texelBytes (recordOf m bytes)) = true →
        (headerOf m bytes).colormap_type = 0 →
        ReadTGAFile m (some bytes) =
          (readImageData m.rgb (headerOf m bytes)
            (FILE.mk (bytes.drop (18 + (headerOf m bytes).id_length)) 0) none
            (freshOf m bytes)).map Prod.snd) := by
  refine ⟨fun bytes' ht hd => ReadTGAFile_image_id m bytes bytes' ht hd, ?_, ?_, ?_⟩
  · intro hlen
    unfold streamOf
    rw [(headerOf_full m bytes hlen).2]
    rfl
  · intro hg hc hl hblock
    rw [← colormapBytes_eq m bytes hl]
    exact ReadTGAFile_colormap m bytes hg hc hblock
  · intro hg hc
    exact ReadTGAFile_no_colormap m bytes hg hc

/-- C16 at the 2-by-1 indexed file with a 2-byte image id and a colormap of two
entries: the image is the same for two image ids, and its texels are the
colormap entries of the pixels at offset 26, reversed. -/
theorem C16_image_id_and_colormap_offsets_witness :
    ReadTGAFile plain (some (idAndColormap 7 9)) = ReadTGAFile plain (some (idAndColormap 0 0)) ∧
      (streamOf plain (idAndColormap 0 0)).pos = 18 + 2 ∧
      (image (ReadTGAFile plain (some (idAndColormap 0 0)))).map (fun t => t.buffer 6) =
        some [some 6, some 5, some 4, some 3, some 2, some 1] :=
  ⟨(C16_image_id_and_colormap_offsets plain (idAndColormap 0 0)).1 (idAndColormap 7 9)
      (by decide) (by decide),
    (C16_image_id_and_colormap_offsets plain (idAndColormap 0 0)).2.1 (by decide),
    by decide⟩

/-- C17. For an image whose pixel count `width * height` is an `int` and whose
`3 * width * height` texel bytes have offsets within the range of `int`
(`3 * width * height < 2 ^ 31`), on a stream that holds the
`3 * width * height` bytes of the pixels, `ReadTGA24bits` returns and has stored for
every pixel `i` the bytes `in[3i+2]`, `in[3i+1]`, `in[3i]` at the offsets `3i`, `3i+1`,
`3i+2`: blue-green-red becomes red-green-blue, the pixels in stream order. It
leaves the stream behind these bytes and stores nothing from offset
`3 * width * height` on. -/
theorem C17_ReadTGA24bits_pixels (fp : FILE) (t : gl_texture_t)
    (hfit : INT_MIN ≤ t.width * t.height ∧ 3 * (t.width * t.height) < 2 ^ 31)
    (hlen : 3 * (t.width * t.height).toNat ≤ fp.rest.length) :
    ∃ t', ReadTGA24bits fp t = .ok (fseek fp (3 * (t.width * t.height).toNat), t') ∧
      (∀ i, i < (t.width * t.height).toNat →
        t'.texels (3 * i) = some (fp.rest.getD (3 * i + 2) 0) ∧
        t'.texels (3 * i + 1) = some (fp.rest.getD (3 * i + 1) 0) ∧
        t'.texels (3 * i + 2) = some (fp.rest.getD (3 * i) 0)) ∧
      ∀ o, 3 * (t.width * t.height).toNat ≤ o → t'.texels o = t.texels o := by
  obtain ⟨t', h1, _, h3, h4⟩ := decode_cells (fun j => j) Mode.true24 fp t
    (scanFits_of_lt Mode.true24 t hfit.2) (by rw [Nat.mul_comm]; exact hlen)
  refine ⟨t', by rw [Nat.mul_comm]; exact h1, ?_, ?_⟩
  · intro i hi
    have a := h3 (3 * i) (by simp only [Mode.bpp]; omega)
    have b := h3 (3 * i + 1) (by simp only [Mode.bpp]; omega)
    have c := h3 (3 * i + 2) (by simp only [Mode.bpp]; omega)
    simp only [Mode.bpp, Mode.srcBytes, Mode.expand] at a b c
    have d0 : 3 * i / 3 = i := by omega
    have d1 : (3 * i + 1) / 3 = i := by omega
    have d2 : (3 * i + 2) / 3 = i := by omega
    have m0 : 3 * i % 3 = 0 := by omega
    have m1 : (3 * i + 1) % 3 = 1 := by omega
    have m2 : (3 * i + 2) % 3 = 2 := by omega
    rw [d0, m0] at a
    rw [d1, m1] at b
    rw [d2, m2] at c
    simp only [List.getD_cons_zero, List.getD_cons_succ,
      srcPixel_getD 3 fp.rest i _ (by decide : 0 < 3),
      srcPixel_getD 3 fp.rest i _ (by decide : 1 < 3),
      srcPixel_getD 3 fp.rest i _ (by decide : 2 < 3)] at a b c
    have e0 : i * 3 + 0 = 3 * i := by omega
    have e1 : i * 3 + 1 = 3 * i + 1 := by omega
    have e2 : i * 3 + 2 = 3 * i + 2 := by omega
    rw [e2] at a
    rw [e1] at b
    rw [e0] at c
    exact ⟨a, b, c⟩
  · intro o ho
    exact h4 o (by simp only [Mode.bpp]; omega)

/-- C17 at the stream of the 2-by-1 file with its two pixels, behind the header. -/
theorem C17_ReadTGA24bits_pixels_witness :
    (INT_MIN ≤ (emptyTexture 2 1 3).width * (emptyTexture 2 1 3).height ∧
      3 * ((emptyTexture 2 1 3).width * (emptyTexture 2 1 3).height) < 2 ^ 31) ∧
      3 * ((emptyTexture 2 1 3).width * (emptyTexture 2 1 3).height).toNat ≤
        (FILE.mk twoPixels 18).rest.length ∧
      ∃ t', ReadTGA24bits (FILE.mk twoPixels 18) (emptyTexture 2 1 3) =
          .ok (fseek (FILE.mk twoPixels 18)
            (3 * ((emptyTexture 2 1 3).width * (emptyTexture 2 1 3).height).toNat), t') ∧
        (∀ i, i < ((emptyTexture 2 1 3).width * (emptyTexture 2 1 3).height).toNat →
          t'.texels (3 * i) = some ((FILE.mk twoPixels 18).rest.getD (3 * i + 2) 0) ∧
          t'.texels (3 * i + 1) = some ((FILE.mk twoPixels 18).rest.getD (3 * i + 1) 0) ∧
          t'.texels (3 * i + 2) = some ((FILE.mk twoPixels 18).rest.getD (3 * i) 0)) ∧
        ∀ o, 3 * ((emptyTexture 2 1 3).width * (emptyTexture 2 1 3).height).toNat ≤ o →
          t'.texels o = (emptyTexture 2 1 3).texels o :=
  ⟨by decide, by decide,
    C17_ReadTGA24bits_pixels (FILE.mk twoPixels 18) (emptyTexture 2 1 3) (by decide)
      (by decide)⟩

/-- C18. For an image whose pixel count `width * height` is an `int` and whose
`3 * width * height` texel bytes have offsets within the range of `int`
(`3 * width * height < 2 ^ 31`), on a stream that holds exactly the
`3 * width * height` bytes of the pixels, `ReadTGA24bits` returns, and exchanging the
bytes 0 and 2 of every pixel of the buffer that it decoded gives back the bytes
of the stream, in order. -/
theorem C18_swap_is_an_involution (fp : FILE) (t : gl_texture_t)
    (hfit : INT_MIN ≤ t.width * t.height ∧ 3 * (t.width * t.height) < 2 ^ 31)
    (hlen : fp.rest.length = 3 * (t.width * t.height).toNat) :
    ∃ fp' t', ReadTGA24bits fp t = .ok (fp', t') ∧
      swapRB ((t'.buffer (3 * (t.width * t.height).toNat)).map (fun cell => cell.getD 0)) =
        fp.rest := by
  obtain ⟨t', h1, h2, _, _⟩ := decode_cells (fun j => j) Mode.true24 fp t
    (scanFits_of_lt Mode.true24 t hfit.2)
    (by rw [hlen, Nat.mul_comm]; exact Nat.le_refl _)
  refine ⟨_, t', h1, ?_⟩
  have hl : (expandAll (fun j => j) Mode.true24 fp.rest (t.width * t.height).toNat).length =
      3 * (t.width * t.height).toNat := by
    rw [expandAll_length, Nat.mul_comm]; rfl
  rw [h2, ← hl, buffer_blit, List.map_map]
  have hid : ((fun cell : Option Nat => cell.getD 0) ∘ some) = id := by
    funext x; rfl
  rw [hid, List.map_id, expandAll_true24 _ _ _ hlen, swapRB_swapRB]

/-- C18 at the stream of the 2-by-1 file with its two pixels, behind the header. -/
theorem C18_swap_is_an_involution_witness :
    (INT_MIN ≤ (emptyTexture 2 1 3).width * (emptyTexture 2 1 3).height ∧
      3 * ((emptyTexture 2 1 3).width * (emptyTexture 2 1 3).height) < 2 ^ 31) ∧
      (FILE.mk twoPixels 18).rest.length =
        3 * ((emptyTexture 2 1 3).width * (emptyTexture 2 1 3).height).toNat ∧
      ∃ fp' t', ReadTGA24bits (FILE.mk twoPixels 18) (emptyTexture 2 1 3) = .ok (fp', t') ∧
        swapRB ((t'.buffer
          (3 * ((emptyTexture 2 1 3).width * (emptyTexture 2 1 3).height).toNat)).map
          (fun cell => cell.getD 0)) = (FILE.mk twoPixels 18).rest :=
  ⟨by decide, by decide,
    C18_swap_is_an_involution (FILE.mk twoPixels 18) (emptyTexture 2 1 3) (by decide)
      (by decide)⟩

/-- C19. For an image whose pixel count `width * height` is an `int` and whose
`4 * width * height` texel bytes have offsets within the range of `int`
(`4 * width * height <= 2 ^ 31`), on a stream that holds the
`4 * width * height` bytes of the pixels, `ReadTGA32bits` returns and has stored for
every pixel `i` the bytes `in[4i+2]`, `in[4i+1]`, `in[4i]`, `in[4i+3]` at the offsets
`4i`, `4i+1`, `4i+2`, `4i+3`: the channels 0 and 2 change places and the alpha byte
stays at position 3. It leaves the stream behind these bytes and stores
nothing from offset `4 * width * height` on. -/
theorem C19_ReadTGA32bits_pixels (fp : FILE) (t : gl_texture_t)
    (hfit : INT_MIN ≤ t.width * t.height ∧ 4 * (t.width * t.height) ≤ 2 ^ 31)
    (hlen : 4 * (t.width * t.height).toNat ≤ fp.rest.length) :
    ∃ t', ReadTGA32bits fp t = .ok (fseek fp (4 * (t.width * t.height).toNat), t') ∧
      (∀ i, i < (t.width * t.height).toNat →
        t'.texels (4 * i) = some (fp.rest.getD (4 * i + 2) 0) ∧
        t'.texels (4 * i + 1) = some (fp.rest.getD (4 * i + 1) 0) ∧
        t'.texels (4 * i + 2) = some (fp.rest.getD (4 * i) 0) ∧
        t'.texels (4 * i + 3) = some (fp.rest.getD (4 * i + 3) 0)) ∧
      ∀ o, 4 * (t.width * t.height).toNat ≤ o → t'.texels o = t.texels o := by
  obtain ⟨t', h1, _, h3, h4⟩ := decode_cells (fun j => j) Mode.true32 fp t
    (scanFits_of_le Mode.true32 t hfit.2) (by rw [Nat.mul_comm]; exact hlen)
  refine ⟨t', by rw [Nat.mul_comm]; exact h1, ?_, ?_⟩
  · intro i hi
    have a := h3 (4 * i) (by simp only [Mode.bpp]; omega)
    have b := h3 (4 * i + 1) (by simp only [Mode.bpp]; omega)
    have c := h3 (4 * i + 2) (by simp only [Mode.bpp]; omega)
    have d := h3 (4 * i + 3) (by simp only [Mode.bpp]; omega)
    simp only [Mode.bpp, Mode.srcBytes, Mode.expand] at a b c d
    have d0 : 4 * i / 4 = i := by omega
    have d1 : (4 * i + 1) / 4 = i := by omega
    have d2 : (4 * i + 2) / 4 = i := by omega
    have d3 : (4 * i + 3) / 4 = i := by omega
    have m0 : 4 * i % 4 = 0 := by omega
    have m1 : (4 * i + 1) % 4 = 1 := by omega
    have m2 : (4 * i + 2) % 4 = 2 := by omega
    have m3 : (4 * i + 3) % 4 = 3 := by omega
    rw [d0, m0] at a
    rw [d1, m1] at b
    rw [d2, m2] at c
    rw [d3, m3] at d
    simp only [List.getD_cons_zero, List.getD_cons_succ,
      srcPixel_getD 4 fp.rest i _ (by decide : 0 < 4),
      srcPixel_getD 4 fp.rest i _ (by decide : 1 < 4),
      srcPixel_getD 4 fp.rest i _ (by decide : 2 < 4),
      srcPixel_getD 4 fp.rest i _ (by decide : 3 < 4)] at a b c d
    have e0 : i * 4 + 0 = 4 * i := by omega
    have e1 : i * 4 + 1 = 4 * i + 1 := by omega
    have e2 : i * 4 + 2 = 4 * i + 2 := by omega
    have e3 : i * 4 + 3 = 4 * i + 3 := by omega
    rw [e2] at a
    rw [e1] at b
    rw [e0] at c
    rw [e3] at d
    exact ⟨a, b, c, d⟩
  · intro o ho
    exact h4 o (by simp only [Mode.bpp]; omega)

/-- C19 at a 2-by-1 image whose stream holds the eight bytes of its two pixels. -/
theorem C19_ReadTGA32bits_pixels_witness :
    (INT_MIN ≤ (emptyTexture 2 1 4).width * (emptyTexture 2 1 4).height ∧
      4 * ((emptyTexture 2 1 4).width * (emptyTexture 2 1 4).height) ≤ 2 ^ 31) ∧
      4 * ((emptyTexture 2 1 4).width * (emptyTexture 2 1 4).height).toNat ≤
        (FILE.mk [1, 2, 3, 4, 5, 6, 7, 8] 0).rest.length ∧
      ∃ t', ReadTGA32bits (FILE.mk [1, 2, 3, 4, 5, 6, 7, 8] 0) (emptyTexture 2 1 4) =
          .ok (fseek (FILE.mk [1, 2, 3, 4, 5, 6, 7, 8] 0)
            (4 * ((emptyTexture 2 1 4).width * (emptyTexture 2 1 4).height).toNat), t') ∧
        (∀ i, i < ((emptyTexture 2 1 4).width * (emptyTexture 2 1 4).height).toNat →
          t'.texels (4 * i) =
            some ((FILE.mk [1, 2, 3, 4, 5, 6, 7, 8] 0).rest.getD (4 * i + 2) 0) ∧
          t'.texels (4 * i + 1) =
            some ((FILE.mk [1, 2, 3, 4, 5, 6, 7, 8] 0).rest.getD (4 * i + 1) 0) ∧
          t'.texels (4 * i + 2) =
            some ((FILE.mk [1, 2, 3, 4, 5, 6, 7, 8] 0).rest.getD (4 * i) 0) ∧
          t'.texels (4 * i + 3) =
            some ((FILE.mk [1, 2, 3, 4, 5, 6, 7, 8] 0).rest.getD (4 * i + 3) 0)) ∧
        ∀ o, 4 * ((emptyTexture 2 1 4).width * (emptyTexture 2 1 4).height).toNat ≤ o →
          t'.texels o = (emptyTexture 2 1 4).texels o :=
  ⟨by decide, by decide,
    C19_ReadTGA32bits_pixels (FILE.mk [1, 2, 3, 4, 5, 6, 7, 8] 0) (emptyTexture 2 1 4)
      (by decide) (by decide)⟩

/-- C20. For an image whose pixel count `width * height` is an `int` and whose
`3 * width * height` texel bytes have offsets within the range of `int`
(`3 * width * height < 2 ^ 31`), on a stream that holds the
`2 * width * height` bytes of the pixels, `ReadTGA16bits` returns; it forms for every
pixel `i` the word `w = in[2i] + 256 * in[2i+1]`, the byte read first being the left
operand of the sum, and has stored `((w >> 10) & 31) * 8`, `((w >> 5) & 31) * 8` and
`(w & 31) * 8` at the offsets `3i`, `3i+1`, `3i+2`; the same bytes result from the
word with bit 15 cleared. It leaves the stream behind the pixels. -/
theorem C20_ReadTGA16bits_pixels (fp : FILE) (t : gl_texture_t)
    (hfit : INT_MIN ≤ t.width * t.height ∧ 3 * (t.width * t.height) < 2 ^ 31)
    (hlen : 2 * (t.width * t.height).toNat ≤ fp.rest.length) :
    ∃ t', ReadTGA16bits fp t = .ok (fseek fp (2 * (t.width * t.height).toNat), t') ∧
      (∀ i, i < (t.width * t.height).toNat →
        t'.texels (3 * i) = some (((word16 fp.rest i >>> 10) &&& 31) * 8) ∧
        t'.texels (3 * i + 1) = some (((word16 fp.rest i >>> 5) &&& 31) * 8) ∧
        t'.texels (3 * i + 2) = some ((word16 fp.rest i &&& 31) * 8)) ∧
      (∀ i, i < (t.width * t.height).toNat →
        t'.texels (3 * i) = some ((((word16 fp.rest i % 32768) >>> 10) &&& 31) * 8) ∧
        t'.texels (3 * i + 1) = some ((((word16 fp.rest i % 32768) >>> 5) &&& 31) * 8) ∧
        t'.texels (3 * i + 2) = some (((word16 fp.rest i % 32768) &&& 31) * 8)) := by
  obtain ⟨t', h1, _, h3, _⟩ := decode_cells (fun j => j) Mode.true16 fp t
    (scanFits_of_le Mode.true16 t (le_of_lt hfit.2)) (by rw [Nat.mul_comm]; exact hlen)
  have hcells : ∀ i, i < (t.width * t.height).toNat →
      t'.texels (3 * i) = some (((word16 fp.rest i >>> 10) &&& 31) * 8) ∧
      t'.texels (3 * i + 1) = some (((word16 fp.rest i >>> 5) &&& 31) * 8) ∧
      t'.texels (3 * i + 2) = some ((word16 fp.rest i &&& 31) * 8) := by
    intro i hi
    have a := h3 (3 * i) (by simp only [Mode.bpp]; omega)
    have b := h3 (3 * i + 1) (by simp only [Mode.bpp]; omega)
    have c := h3 (3 * i + 2) (by simp only [Mode.bpp]; omega)
    simp only [Mode.bpp, Mode.srcBytes, Mode.expand] at a b c
    have d0 : 3 * i / 3 = i := by omega
    have d1 : (3 * i + 1) / 3 = i := by omega
    have d2 : (3 * i + 2) / 3 = i := by omega
    have m0 : 3 * i % 3 = 0 := by omega
    have m1 : (3 * i + 1) % 3 = 1 := by omega
    have m2 : (3 * i + 2) % 3 = 2 := by omega
    rw [d0, m0] at a
    rw [d1, m1] at b
    rw [d2, m2] at c
    have hw : (srcPixel 2 fp.rest i).getD 0 0 + 256 * (srcPixel 2 fp.rest i).getD 1 0 =
        word16 fp.rest i := by
      rw [srcPixel_getD 2 fp.rest i _ (by decide : 0 < 2),
        srcPixel_getD 2 fp.rest i _ (by decide : 1 < 2), word16]
      have e0 : i * 2 + 0 = 2 * i := by omega
      have e1 : i * 2 + 1 = 2 * i + 1 := by omega
      rw [e0, e1]
    simp only [List.getD_cons_zero, List.getD_cons_succ, hw, red16_eq, green16_eq,
      blue16_eq] at a b c
    exact ⟨a, b, c⟩
  refine ⟨t', by rw [Nat.mul_comm]; exact h1, hcells, ?_⟩
  intro i hi
  obtain ⟨f1, f2, f3⟩ := fields_without_bit15 (word16 fp.rest i)
  rw [f1, f2, f3]
  exact hcells i hi

/-- C20 at a 1-by-2 image whose stream holds the words `0xFFFF` and `0x7C1F`. -/
theorem C20_ReadTGA16bits_pixels_witness :
    (INT_MIN ≤ (emptyTexture 1 2 3).width * (emptyTexture 1 2 3).height ∧
      3 * ((emptyTexture 1 2 3).width * (emptyTexture 1 2 3).height) < 2 ^ 31) ∧
      2 * ((emptyTexture 1 2 3).width * (emptyTexture 1 2 3).height).toNat ≤
        (FILE.mk [0xFF, 0xFF, 0x1F, 0x7C] 0).rest.length ∧
      (∃ t', ReadTGA16bits (FILE.mk [0xFF, 0xFF, 0x1F, 0x7C] 0) (emptyTexture 1 2 3) =
          .ok (fseek (FILE.mk [0xFF, 0xFF, 0x1F, 0x7C] 0)
            (2 * ((emptyTexture 1 2 3).width * (emptyTexture 1 2 3).height).toNat), t') ∧
        (∀ i, i < ((emptyTexture 1 2 3).width * (emptyTexture 1 2 3).height).toNat →
          t'.texels (3 * i) =
            some (((word16 (FILE.mk [0xFF, 0xFF, 0x1F, 0x7C] 0).rest i >>> 10) &&& 31) * 8) ∧
          t'.texels (3 * i + 1) =
            some (((word16 (FILE.mk [0xFF, 0xFF, 0x1F, 0x7C] 0).rest i >>> 5) &&& 31) * 8) ∧
          t'.texels (3 * i + 2) =
            some ((word16 (FILE.mk [0xFF, 0xFF, 0x1F, 0x7C] 0).rest i &&& 31) * 8))) ∧
      (List.range 6).map
          (cellOf (ReadTGA16bits (FILE.mk [0xFF, 0xFF, 0x1F, 0x7C] 0) (emptyTexture 1 2 3))) =
        [some 248, some 248, some 248, some 248, some 0, some 248] :=
  have h := C20_ReadTGA16bits_pixels (FILE.mk [0xFF, 0xFF, 0x1F, 0x7C] 0) (emptyTexture 1 2 3)
    (by decide) (by decide)
  ⟨by decide, by decide, h.imp (fun _ ht => ⟨ht.1, ht.2.1⟩), by decide⟩

/-- C22. With a colormap `colormap` of 3-byte entries, an image whose pixel count
`width * height` is an `int` and whose `3 * width * height` texel bytes have
offsets within the range of `int`, and a
stream that holds the `width * height` index bytes, `ReadTGA8bits` returns and has
stored for every pixel `i` with index byte
`c` the bytes `colormap[3c+2]`, `colormap[3c+1]`, `colormap[3c]` at the offsets `3i`, `3i+1`,
`3i+2`: an entry stored blue-green-red comes out red-green-blue. This holds for
every index byte, the ones below the colormap length among them. For the file
`paletteFile`, whose entry 5 is `(B=200, G=100, R=50)` and whose pixel byte is 5,
`ReadTGAFile` returns the texels `(50, 100, 200)`. -/
theorem C22_ReadTGA8bits_palette :
    (∀ (colormap : Nat → Nat) (fp : FILE) (t : gl_texture_t),
      INT_MIN ≤ t.width * t.height → 3 * (t.width * t.height) < 2 ^ 31 →
      (t.width * t.height).toNat ≤ fp.rest.length →
      ∀ i, i < (t.width * t.height).toNat →
        cellOf (ReadTGA8bits fp (some colormap) t) (3 * i) =
          some (colormap (3 * fp.rest.getD i 0 + 2)) ∧
        cellOf (ReadTGA8bits fp (some colormap) t) (3 * i + 1) =
          some (colormap (3 * fp.rest.getD i 0 + 1)) ∧
        cellOf (ReadTGA8bits fp (some colormap) t) (3 * i + 2) =
          some (colormap (3 * fp.rest.getD i 0))) ∧
      (image (ReadTGAFile plain (some paletteFile))).map (fun t => t.buffer 3) =
        some [some 50, some 100, some 200] := by
  refine ⟨?_, by decide⟩
  intro colormap fp t _ hfit hlen i hi
  obtain ⟨t', h1, _, h3, _⟩ := decode_cells colormap Mode.indexed8 fp t
    (scanFits_of_le Mode.indexed8 t (le_of_lt hfit)) (by simp only [Mode.srcBytes]; omega)
  have he : ReadTGA8bits fp (some colormap) t =
      .ok (fseek fp ((t.width * t.height).toNat * 1), t') := h1
  rw [he]
  have a := h3 (3 * i) (by simp only [Mode.bpp]; omega)
  have b := h3 (3 * i + 1) (by simp only [Mode.bpp]; omega)
  have c := h3 (3 * i + 2) (by simp only [Mode.bpp]; omega)
  simp only [Mode.bpp, Mode.srcBytes, Mode.expand] at a b c
  have d0 : 3 * i / 3 = i := by omega
  have d1 : (3 * i + 1) / 3 = i := by omega
  have d2 : (3 * i + 2) / 3 = i := by omega
  have m0 : 3 * i % 3 = 0 := by omega
  have m1 : (3 * i + 1) % 3 = 1 := by omega
  have m2 : (3 * i + 2) % 3 = 2 := by omega
  rw [d0, m0] at a
  rw [d1, m1] at b
  rw [d2, m2] at c
  have hp : (srcPixel 1 fp.rest i).getD 0 0 = fp.rest.getD i 0 := by
    rw [srcPixel_getD 1 fp.rest i 0 (by decide)]
    simp
  simp only [List.getD_cons_zero, List.getD_cons_succ, hp] at a b c
  have e : fp.rest.getD i 0 * 3 = 3 * fp.rest.getD i 0 := Nat.mul_comm _ _
  rw [e] at a b c
  rw [Nat.add_zero] at c
  exact ⟨a, b, c⟩

/-- C22 at the stream behind the colormap of `paletteFile`, with the colormap that
holds `(200, 100, 50)` at the bytes 15, 16, 17. -/
theorem C22_ReadTGA8bits_palette_witness :
    INT_MIN ≤ (emptyTexture 1 1 3).width * (emptyTexture 1 1 3).height ∧
      3 * ((emptyTexture 1 1 3).width * (emptyTexture 1 1 3).height) < 2 ^ 31 ∧
      ((emptyTexture 1 1 3).width * (emptyTexture 1 1 3).height).toNat ≤
        (FILE.mk paletteFile 36).rest.length ∧
      (FILE.mk paletteFile 36).rest.getD 0 0 = 5 ∧
      cellOf (ReadTGA8bits (FILE.mk paletteFile 36)
        (some (fun o => (paletteFile.getD (18 + o) 0).val)) (emptyTexture 1 1 3)) (3 * 0) =
        some 50 :=
  ⟨by decide, by decide, by decide, by decide,
    (C22_ReadTGA8bits_palette.1 (fun o => (paletteFile.getD (18 + o) 0).val)
      (FILE.mk paletteFile 36) (emptyTexture 1 1 3) (by decide) (by decide) (by decide) 0
      (by decide)).1⟩

/-- C23, at the failing input. For the 1-by-1 file of image type 1 with
`colormap_type` 0 and one pixel byte, `ReadTGAFile` calls `ReadTGA8bits` with the null
colormap pointer, and the first pixel reads through it. On every machine, with
`colormap_type` 0 and the buffer granted, what `ReadTGAFile` does for the image types 1
and 9 is the call of `ReadTGA8bits` and `ReadTGA8bitsRLE` on the stream behind the image
id, with the null pointer as colormap. -/
theorem C23_indexed_decoder_called_with_null_colormap :
    (headerOf plain (headerBytes 1 8 1 1 ++ [5])).colormap_type = 0 ∧
      (headerOf plain (headerBytes 1 8 1 1 ++ [5])).image_type = 1 ∧
      faultOf (ReadTGAFile plain (some (headerBytes 1 8 1 1 ++ [5]))) =
        some Fault.null_colormap ∧
      faultOf (ReadTGAFile plain (some (headerBytes 9 8 1 1 ++ [0, 5]))) =
        some Fault.null_colormap ∧
      (∀ (m : Machine) (bytes : List (Fin 256)), (headerOf m bytes).colormap_type = 0 →
        m.malloc (texelBytes (recordOf m bytes)) = true →
        ((headerOf m bytes).image_type = 1 →
          ReadTGAFile m (some bytes) =
            ((ReadTGA8bits (streamOf m bytes) none (freshOf m bytes)).map decoded).map
              Prod.snd) ∧
        ((headerOf m bytes).image_type = 9 →
          ReadTGAFile m (some bytes) =
            ((ReadTGA8bitsRLE (streamOf m bytes) none (freshOf m bytes)).map decoded).map
              Prod.snd)) := by
  refine ⟨by decide, by decide, by decide, by decide, ?_⟩
  intro m bytes hc hg
  have hr : colormapOf m (headerOf m bytes) (streamOf m bytes) = (none, streamOf m bytes) := by
    simp [colormapOf, hc]
  constructor
  · intro h1
    rw [ReadTGAFile_granted m bytes hg (fun h => absurd hc h), hr,
      readImageData_type1 _ _ _ _ _ h1]
  · intro h9
    rw [ReadTGAFile_granted m bytes hg (fun h => absurd hc h), hr,
      readImageData_type9 _ _ _ _ _ h9]

/-- C24. For each of the six modes and an image whose `width * height * bpp` texel
bytes have offsets within the range of `int`: on a run-length stream made of raw
packets only, whose pixel counts add up to `width * height`, the run-length
decoder of the mode returns and leaves the same texels as the uncompressed
decoder of the mode on the payloads of the packets put one behind the other,
namely the expansions of the source pixels in stream order from offset 0 on. -/
theorem C24_raw_packets_decode_as_uncompressed (colormap rgb : Nat → Nat) (mode : Mode)
    (packets : List (Nat × List Nat)) (fpR fpU : FILE) (t : gl_texture_t)
    (hp : ∀ k ∈ packets, RawPacket mode k)
    (hfit : t.width * t.height * mode.bpp ≤ INT_MAX)
    (hcount : (pixelCount packets : Int) = t.width * t.height)
    (hR : fpR.rest = rawStream packets) (hU : fpU.rest = payloads packets) :
    (mode.decodeRLE colormap rgb fpR t).map Prod.snd =
        (mode.decode colormap fpU t).map Prod.snd ∧
      (mode.decode colormap fpU t).map Prod.snd =
        .ok (blit t 0 (expandAll colormap mode (payloads packets) (pixelCount packets))) := by
  have hn : (t.width * t.height).toNat = pixelCount packets := by
    rw [← hcount]; exact Int.toNat_ofNat _
  have hfits : mode.fits t := by
    refine ⟨?_, hfit⟩
    rw [← hcount]
    exact le_trans (by decide : INT_MIN ≤ 0)
      (Int.mul_nonneg (Int.ofNat_nonneg _) (Int.ofNat_nonneg _))
  obtain ⟨t', h1, h2, _, _⟩ := decode_cells colormap mode fpU t (fits_scan hfits)
    (by rw [hU, payloads_length mode packets hp, hn])
  obtain ⟨rgb0, hl⟩ := decodeRLE_loop colormap rgb mode fpR t (fits_rle hfits)
  obtain ⟨s', hs1, hs2⟩ := raw_packets_loop colormap mode t packets hp
    (t.width * t.height).toNat (start rgb0 fpR t)
    (by rw [hn]; exact packets_le_pixels mode packets hp)
    hR
    (by rw [← hcount]; simp [start])
  rw [hl, hs1, h1, h2, hU, hn]
  exact ⟨congrArg Except.ok hs2, rfl⟩

/-- C24 at a 3-by-1 24-bit image: the raw packets of 1 and of 2 pixels decode as
the nine payload bytes do. -/
theorem C24_raw_packets_decode_as_uncompressed_witness :
    (∀ k ∈ [(1, [1, 2, 3]), (2, [4, 5, 6, 7, 8, 9])], RawPacket Mode.true24 k) ∧
      (emptyTexture 3 1 3).width * (emptyTexture 3 1 3).height * Mode.true24.bpp ≤ INT_MAX ∧
      (pixelCount [(1, [1, 2, 3]), (2, [4, 5, 6, 7, 8, 9])] : Int) =
        (emptyTexture 3 1 3).width * (emptyTexture 3 1 3).height ∧
      (FILE.mk [0, 1, 2, 3, 1, 4, 5, 6, 7, 8, 9] 0).rest =
        rawStream [(1, [1, 2, 3]), (2, [4, 5, 6, 7, 8, 9])] ∧
      (FILE.mk [1, 2, 3, 4, 5, 6, 7, 8, 9] 0).rest =
        payloads [(1, [1, 2, 3]), (2, [4, 5, 6, 7, 8, 9])] ∧
      (Mode.true24.decodeRLE (fun _ => 0) (fun _ => 0)
          (FILE.mk [0, 1, 2, 3, 1, 4, 5, 6, 7, 8, 9] 0) (emptyTexture 3 1 3)).map Prod.snd =
        (Mode.true24.decode (fun _ => 0) (FILE.mk [1, 2, 3, 4, 5, 6, 7, 8, 9] 0)
          (emptyTexture 3 1 3)).map Prod.snd ∧
      (List.range 9).map (cellOf (Mode.true24.decodeRLE (fun _ => 0) (fun _ => 0)
          (FILE.mk [0, 1, 2, 3, 1, 4, 5, 6, 7, 8, 9] 0) (emptyTexture 3 1 3))) =
        [some 3, some 2, some 1, some 6, some 5, some 4, some 9, some 8, some 7] :=
  ⟨by decide, by decide, by decide, by decide, by decide,
    (C24_raw_packets_decode_as_uncompressed (fun _ => 0) (fun _ => 0) Mode.true24
      [(1, [1, 2, 3]), (2, [4, 5, 6, 7, 8, 9])] (FILE.mk [0, 1, 2, 3, 1, 4, 5, 6, 7, 8, 9] 0)
      (FILE.mk [1, 2, 3, 4, 5, 6, 7, 8, 9] 0) (emptyTexture 3 1 3) (by decide) (by decide)
      (by decide) (by decide) (by decide)).1,
    by decide⟩

/-- C32 is false at `shortPalette`: the colormap has 6 bytes and the pixel byte is 5,
so `ReadTGA8bits` reads `colormap[15]`, `colormap[16]` and `colormap[17]`, behind the block
that was loaded. The image is what the memory there holds: it differs between
two machines that differ in that memory only. -/
theorem C32_index_byte_reads_behind_colormap :
    (headerOf plain shortPalette).colormap_type = 1 ∧
      colormapBytes (headerOf plain shortPalette) = 6 ∧
      shortPalette.getD (18 + 6) 0 = 5 ∧ 6 ≤ 3 * 5 ∧
      (image (ReadTGAFile plain (some shortPalette))).map (fun t => t.buffer 3) =
        some [some 0, some 0, some 0] ∧
      (image (ReadTGAFile { plain with colormap := fun _ => 0xAB }
        (some shortPalette))).map (fun t => t.buffer 3) =
        some [some 0xAB, some 0xAB, some 0xAB] :=
  ⟨by decide, by decide, by decide, by decide, by decide, by decide⟩

/-- C32 as amended. The palette reads of `ReadTGA8bits` and `ReadTGA8bitsRLE` are at the
offsets `3c`, `3c+1`, `3c+2` of a pixel index byte `c`, which is at most 255: below offset
768, and not tested against the colormap length. Two colormap memories that
agree below 768 give the same result of both decoders, on every stream. When
the colormap block that `ReadTGAFile` loaded holds at least 768 bytes, the reads
lie inside it: what `ReadTGAFile` returns does not depend on the memory behind
the block. -/
theorem C32_palette_reads_below_768 :
    (∀ (cm cm' : Nat → Nat) (fp : FILE) (t : gl_texture_t), (∀ i, i < 768 → cm i = cm' i) →
      ReadTGA8bits fp (some cm) t = ReadTGA8bits fp (some cm') t ∧
        ReadTGA8bitsRLE fp (some cm) t = ReadTGA8bitsRLE fp (some cm') t) ∧
    (∀ (m : Machine) (bytes : List (Fin 256)) (behind : Nat → Nat),
      (headerOf m bytes).colormap_type ≠ 0 →
      768 ≤ ((bytes.drop (18 + (headerOf m bytes).id_length)).take
        (colormapBytes (headerOf m bytes))).length →
      ReadTGAFile { m with colormap := behind } (some bytes) = ReadTGAFile m (some bytes)) := by
  refine ⟨fun cm cm' fp t h => ⟨decode_indexed8 cm cm' h fp t, decodeRLE_indexed8 cm cm' h fp t⟩,
    ?_⟩
  intro m bytes behind hc hlen
  by_cases hg : m.malloc (texelBytes (recordOf m bytes)) = true
  · by_cases hm : m.malloc (colormapBytes (headerOf m bytes)) = true
    swap
    · rw [ReadTGAFile_bind m bytes hg, ReadTGAFile_bind { m with colormap := behind } bytes hg]
      have hr : readColormap { m with colormap := behind } (headerOf m bytes) (streamOf m bytes) =
          readColormap m (headerOf m bytes) (streamOf m bytes) := by
        simp only [readColormap, hm, Bool.false_eq_true, if_false]
      exact congrArg (fun x => Except.bind x _) hr
    rw [ReadTGAFile_colormap m bytes hg hc hm,
      ReadTGAFile_colormap { m with colormap := behind } bytes hg hc hm]
    have hcm : ∀ i, i < 768 →
        overlay (((bytes.drop (18 + (headerOf m bytes).id_length)).take
          (colormapBytes (headerOf m bytes))).map (fun b => b.val)) behind i =
        overlay (((bytes.drop (18 + (headerOf m bytes).id_length)).take
          (colormapBytes (headerOf m bytes))).map (fun b => b.val)) m.colormap i := by
      intro i hi
      unfold overlay
      rw [List.getD_eq_getElem _ _ (by rw [List.length_map]; omega),
        List.getD_eq_getElem _ _ (by rw [List.length_map]; omega)]
    exact congrArg (fun r => Except.map Prod.snd r)
      (readImageData_colormap m.rgb (headerOf m bytes) _ _ _ hcm (freshOf m bytes))
  · have hg' : m.malloc (texelBytes (recordOf m bytes)) = false := by
      cases hm : m.malloc (texelBytes (recordOf m bytes))
      · rfl
      · exact absurd hm hg
    rw [ReadTGAFile_refused m bytes hg',
      ReadTGAFile_refused { m with colormap := behind } bytes hg']

/-- C32 as amended, at a 1-by-1 image with the index byte 5: two colormap memories
that agree below offset 768 and differ behind it give the same result. -/
theorem C32_palette_reads_below_768_witness :
    (∀ i, i < 768 → (fun j : Nat => if j < 768 then 7 else 0) i = (fun _ : Nat => 7) i) ∧
      ReadTGA8bits (FILE.mk [5] 0) (some (fun j => if j < 768 then 7 else 0))
          (emptyTexture 1 1 3) =
        ReadTGA8bits (FILE.mk [5] 0) (some (fun _ => 7)) (emptyTexture 1 1 3) :=
  ⟨fun i hi => by simp [hi],
    (C32_palette_reads_below_768.1 (fun j => if j < 768 then 7 else 0) (fun _ => 7)
      (FILE.mk [5] 0) (emptyTexture 1 1 3) (fun i hi => by simp [hi])).1⟩

/-- C34. In each of the six run-length decoders: a run-length packet with count `n`
(header byte `128 + n`) and source pixel `p` stores the same destination bytes, from
the same cursor, as a raw packet with count `n` (header byte `n`) whose payload is
`n + 1` copies of `p`, namely `n + 1` copies of the expansion of `p`; both leave the
cursor behind these bytes. -/
theorem C34_run_packet_as_raw_packet (colormap : Nat → Nat) (mode : Mode) (s s' : Decoder)
    (n : Nat) (p tail tail' : List Nat) (hn : n < 128) (hp : p.length = mode.srcBytes)
    (hrun : s.fp.rest = (128 + n) :: (p ++ tail))
    (hraw : s'.fp.rest = n :: ((List.replicate (n + 1) p).flatten ++ tail'))
    (ht : s'.texinfo = s.texinfo) (hptr : s'.ptr = s.ptr) :
    (mode.packet colormap s).texinfo = (mode.packet colormap s').texinfo ∧
      (mode.packet colormap s).ptr = (mode.packet colormap s').ptr ∧
      (mode.packet colormap s).texinfo =
        blit s.texinfo s.ptr (List.replicate (n + 1) (mode.expand colormap p)).flatten ∧
      (mode.packet colormap s).ptr = s.ptr + (n + 1) * mode.bpp := by
  obtain ⟨a1, a2, a3, a4⟩ := run_header n hn
  obtain ⟨_, r2, r3⟩ := packet_run colormap mode s (128 + n) p tail hrun hp a1
  have hsrc : ((List.replicate (n + 1) p).flatten).length =
      (1 + (n &&& 0x7f)) * mode.srcBytes := by
    rw [a4, List.length_flatten]
    simp [hp, Nat.add_comm]
  obtain ⟨_, w2, w3⟩ := packet_raw colormap mode s' n _ tail' hraw hsrc a3
  rw [a2] at r2 r3
  rw [a4] at w2 w3
  have e : 1 + n = n + 1 := Nat.add_comm _ _
  rw [e] at r2 r3 w2 w3
  rw [expandAll_replicate colormap mode p hp (n + 1), ht] at w3
  rw [hptr] at w2 w3
  exact ⟨by rw [r3, w3], by rw [r2, w2], r3, r2⟩

/-- C34 in the 24-bit decoder: the packet `82 01 02 03` and the packet
`02 01 02 03 01 02 03 01 02 03` store the same nine bytes. -/
theorem C34_run_packet_as_raw_packet_witness :
    (2 : Nat) < 128 ∧ [1, 2, 3].length = Mode.true24.srcBytes ∧
      (FILE.mk [0x82, 1, 2, 3] 0).rest = (128 + 2) :: ([1, 2, 3] ++ []) ∧
      (FILE.mk [2, 1, 2, 3, 1, 2, 3, 1, 2, 3] 0).rest =
        2 :: ((List.replicate (2 + 1) [1, 2, 3]).flatten ++ []) ∧
      (Mode.true24.packet (fun _ => 0)
          (start (fun _ => 0) (FILE.mk [0x82, 1, 2, 3] 0) (emptyTexture 3 1 3))).texinfo =
        (Mode.true24.packet (fun _ => 0)
          (start (fun _ => 0) (FILE.mk [2, 1, 2, 3, 1, 2, 3, 1, 2, 3] 0)
            (emptyTexture 3 1 3))).texinfo ∧
      (Mode.true24.packet (fun _ => 0)
          (start (fun _ => 0) (FILE.mk [0x82, 1, 2, 3] 0) (emptyTexture 3 1 3))).texinfo.buffer 9 =
        [some 3, some 2, some 1, some 3, some 2, some 1, some 3, some 2, some 1] :=
  ⟨by decide, by decide, by decide, by decide,
    (C34_run_packet_as_raw_packet (fun _ => 0) Mode.true24
      (start (fun _ => 0) (FILE.mk [0x82, 1, 2, 3] 0) (emptyTexture 3 1 3))
      (start (fun _ => 0) (FILE.mk [2, 1, 2, 3, 1, 2, 3, 1, 2, 3] 0) (emptyTexture 3 1 3))
      2 [1, 2, 3] [] [] (by decide) (by decide) (by decide) (by decide) rfl rfl).1,
    by decide⟩

end TGA

/-! ## Theorems on `sll.c` -/

namespace SLL

/-! ### Chains of elements -/

theorem seg_frame (elm elm' : Nat → Option SllElm) :
    ∀ (as : List Nat) (p q : Option Nat), Seg elm p as q → (∀ a ∈ as, elm' a = elm a) →
      Seg elm' p as q := by
  intro as
  induction as with
  | nil => intro p q h _; exact h
  | cons a as ih =>
    intro p q h hf
    obtain ⟨hp, e, he, hs⟩ := h
    exact ⟨hp, e, by rw [hf a (List.mem_cons_self _ _)]; exact he,
      ih _ _ hs (fun b hb => hf b (List.mem_cons_of_mem _ hb))⟩

theorem seg_append (elm : Nat → Option SllElm) :
    ∀ (l1 l2 : List Nat) (p q : Option Nat),
      Seg elm p (l1 ++ l2) q ↔ ∃ r, Seg elm p l1 r ∧ Seg elm r l2 q := by
  intro l1
  induction l1 with
  | nil =>
    intro l2 p q
    constructor
    · intro h; exact ⟨p, rfl, h⟩
    · rintro ⟨r, hr, h⟩
      have : p = r := hr
      rw [this]; exact h
  | cons a l1 ih =>
    intro l2 p q
    constructor
    · rintro ⟨hp, e, he, hs⟩
      obtain ⟨r, h1, h2⟩ := (ih l2 _ _).mp hs
      exact ⟨r, ⟨hp, e, he, h1⟩, h2⟩
    · rintro ⟨r, ⟨hp, e, he, h1⟩, h2⟩
      exact ⟨hp, e, he, (ih l2 _ _).mpr ⟨r, h1, h2⟩⟩

theorem seg_alloc (elm : Nat → Option SllElm) :
    ∀ (as : List Nat) (p q : Option Nat), Seg elm p as q → ∀ a ∈ as, ∃ e, elm a = some e := by
  intro as
  induction as with
  | nil => intro p q _ a ha; exact absurd ha (List.not_mem_nil _)
  | cons b as ih =>
    intro p q h a ha
    obtain ⟨_, e, he, hs⟩ := h
    rcases List.mem_cons.mp ha with rfl | hin
    · exact ⟨e, he⟩
    · exact ih _ _ hs a hin

theorem seg_unique (elm : Nat → Option SllElm) :
    ∀ (as bs : List Nat) (p : Option Nat), Seg elm p as none → Seg elm p bs none → as = bs := by
  intro as
  induction as with
  | nil =>
    intro bs p h1 h2
    have hp : p = none := h1
    cases bs with
    | nil => rfl
    | cons b bs =>
      obtain ⟨hb, _⟩ := h2
      rw [hp] at hb
      exact absurd hb (by simp)
  | cons a as ih =>
    intro bs p h1 h2
    obtain ⟨hp, e, he, hs⟩ := h1
    cases bs with
    | nil =>
      have : p = none := h2
      rw [this] at hp
      exact absurd hp (by simp)
    | cons b bs =>
      obtain ⟨hp', e', he', hs'⟩ := h2
      have hab : a = b := by
        rw [hp] at hp'
        exact Option.some.inj hp'
      subst hab
      rw [he] at he'
      have hee : e = e' := Option.some.inj he'
      subst hee
      rw [ih bs _ hs hs']

theorem seg_nodup (elm : Nat → Option SllElm) :
    ∀ (as : List Nat) (p : Option Nat), Seg elm p as none → as.Nodup := by
  intro as
  induction as with
  | nil => intro _ _; exact List.nodup_nil
  | cons a as ih =>
    intro p h
    obtain ⟨_, e, he, hs⟩ := h
    refine List.nodup_cons.mpr ⟨?_, ih _ hs⟩
    intro hin
    obtain ⟨l1, l2, hsplit⟩ := List.append_of_mem hin
    rw [hsplit] at hs
    obtain ⟨r, _, h2⟩ := (seg_append elm l1 (a :: l2) _ _).mp hs
    obtain ⟨_, e', he', hs'⟩ := h2
    rw [he] at he'
    have hee : e = e' := Option.some.inj he'
    subst hee
    have hs0 : Seg elm e.next (l1 ++ a :: l2) none :=
      (seg_append elm l1 (a :: l2) _ _).mpr ⟨r, by assumption, ⟨by assumption, e, he, hs'⟩⟩
    have := seg_unique elm _ _ _ hs0 hs'
    have hl := congrArg List.length this
    simp at hl
    omega

theorem dataOf_frame (elm elm' : Nat → Option SllElm) (as : List Nat)
    (h : ∀ a ∈ as, elm' a = elm a) : dataOf elm' as = dataOf elm as := by
  unfold dataOf
  apply List.map_congr_left
  intro a ha
  rw [h a ha]

theorem toList_seg (elm : Nat → Option SllElm) :
    ∀ (fuel : Nat) (p : Option Nat) (xs : List Nat), toList elm fuel p = some xs →
      ∃ as, Seg elm p as none ∧ dataOf elm as = xs ∧ as.length ≤ fuel := by
  intro fuel
  induction fuel with
  | zero =>
    intro p xs h
    cases p with
    | none =>
      simp only [toList, Option.some.injEq] at h
      exact ⟨[], rfl, by rw [← h]; rfl, Nat.le_refl _⟩
    | some a => simp [toList] at h
  | succ fuel ih =>
    intro p xs h
    cases p with
    | none =>
      simp only [toList, Option.some.injEq] at h
      exact ⟨[], rfl, by rw [← h]; rfl, Nat.zero_le _⟩
    | some a =>
      simp only [toList] at h
      cases he : elm a with
      | none => simp [he] at h
      | some e =>
        simp only [he, Option.map_eq_some'] at h
        obtain ⟨ys, hys, hxs⟩ := h
        obtain ⟨as, h1, h2, h3⟩ := ih _ _ hys
        refine ⟨a :: as, ⟨rfl, e, he, h1⟩, ?_, by simp; omega⟩
        rw [← hxs, ← h2]
        simp [dataOf, he]

theorem seg_toList (elm : Nat → Option SllElm) :
    ∀ (as : List Nat) (fuel : Nat) (p : Option Nat), Seg elm p as none → as.length ≤ fuel →
      toList elm fuel p = some (dataOf elm as) := by
  intro as
  induction as with
  | nil =>
    intro fuel p h _
    have hp : p = none := h
    subst hp
    cases fuel <;> rfl
  | cons a as ih =>
    intro fuel p h hf
    obtain ⟨hp, e, he, hs⟩ := h
    subst hp
    obtain ⟨fuel, rfl⟩ : ∃ f, fuel = f + 1 := ⟨fuel - 1, by simp at hf; omega⟩
    simp only [toList, he, ih fuel _ hs (by simp at hf; omega)]
    simp [dataOf, he]

/-- The search loop on a chain: it stops at the first element that `stop` accepts,
with `prev` at the element before it. -/
theorem walk_seg (elm : Nat → Option SllElm) (stop : SllElm → Bool) (c : Nat) (ec : SllElm)
    (hc : elm c = some ec) (hstop : stop ec = true) :
    ∀ (l1 : List Nat) (fuel : Nat) (prev p : Option Nat), Seg elm p l1 (some c) →
      (∀ a ∈ l1, ∀ e, elm a = some e → stop e = false) → l1.length ≤ fuel →
      walk elm stop fuel prev p =
        .ok ((match l1.getLast? with
          | some x => some x
          | none => prev), some c) := by
  intro l1
  induction l1 with
  | nil =>
    intro fuel prev p h _ _
    have hp : p = some c := h
    subst hp
    unfold walk
    simp [hc, hstop]
  | cons a l1 ih =>
    intro fuel prev p h hno hf
    obtain ⟨hp, e, he, hs⟩ := h
    subst hp
    obtain ⟨fuel, rfl⟩ : ∃ f, fuel = f + 1 := ⟨fuel - 1, by simp at hf; omega⟩
    have hna := hno a (List.mem_cons_self _ _) e he
    unfold walk
    simp only [he, hna, Bool.false_eq_true, if_false]
    rw [ih fuel (some a) e.next hs (fun b hb => hno b (List.mem_cons_of_mem _ hb))
      (by simp at hf; omega)]
    cases l1 with
    | nil => rfl
    | cons b l1 =>
      obtain ⟨x, hx⟩ : ∃ x, (b :: l1).getLast? = some x :=
        ⟨_, List.getLast?_eq_getLast _ (List.cons_ne_nil _ _)⟩
      simp only [List.getLast?_cons_cons, hx]

/-- The first occurrence of `target` among the data of a chain splits the chain. -/
theorem first_occurrence (elm : Nat → Option SllElm) (target : Nat) :
    ∀ (as : List Nat), target ∈ dataOf elm as →
      ∃ l1 c l2, as = l1 ++ c :: l2 ∧ dataOf elm [c] = [target] ∧
        (∀ a ∈ l1, dataOf elm [a] ≠ [target]) := by
  intro as
  induction as with
  | nil => intro h; simp [dataOf] at h
  | cons a as ih =>
    intro h
    by_cases ha : dataOf elm [a] = [target]
    · exact ⟨[], a, as, rfl, ha, fun b hb => absurd hb (List.not_mem_nil _)⟩
    · have hin : target ∈ dataOf elm as := by
        simp only [dataOf, List.map_cons, List.mem_cons] at h
        rcases h with h | h
        · exfalso
          apply ha
          simp [dataOf, h]
        · exact h
      obtain ⟨l1, c, l2, h1, h2, h3⟩ := ih hin
      refine ⟨a :: l1, c, l2, by rw [h1]; rfl, h2, ?_⟩
      intro b hb
      rcases List.mem_cons.mp hb with rfl | hb'
      · exact ha
      · exact h3 b hb'

/-- C26, at the failing input. In the list of the two elements 1 and 2, `sllRemove` of
the element 1, the head, returns 1 and leaves the list with `listHead` `NULL` and
`elementCount` 1: the element 2 is no longer in the list, though its `SllElm` is still
allocated. In every memory in which `target` is the data of the head element,
`sllRemove` sets `listHead` to `NULL`, whatever follows the head. -/
theorem C26_sllRemove_at_head_drops_the_list :
    toList twoElements.elm 2 twoElements.list.listHead = some [1, 2] ∧
      (returned (sllRemove 2 twoElements 1)).map
        (fun r => (r.1, toList r.2.elm 2 r.2.list.listHead, r.2.list.listHead,
          r.2.list.elementCount, r.2.elm 20)) =
        some (1, some [], none, 1, some { data := 2, next := none }) ∧
      (∀ (fuel : Nat) (mem : Memory) (a target : Nat) (e : SllElm),
        mem.list.listHead = some a → mem.elm a = some e → e.data = target →
        (returned (sllRemove fuel mem target)).map (fun r => (r.1, r.2.list)) =
          some (target, { elementCount := mem.list.elementCount - 1, listHead := none })) := by
  refine ⟨by decide, by decide, ?_⟩
  intro fuel mem a target e hhead he hdata
  have hwalk : walk mem.elm (fun e => decide (e.data = target)) fuel none mem.list.listHead =
      .ok (none, some a) := by
    rw [hhead]
    unfold walk
    simp [he, hdata]
  simp only [sllRemove, hwalk, Memory.free, he]
  rfl

theorem dataOf_append (elm : Nat → Option SllElm) (l1 l2 : List Nat) :
    dataOf elm (l1 ++ l2) = dataOf elm l1 ++ dataOf elm l2 := by
  simp [dataOf]

theorem not_mem_dataOf (elm : Nat → Option SllElm) (target : Nat) (l1 : List Nat)
    (h : ∀ a ∈ l1, dataOf elm [a] ≠ [target]) : target ∉ dataOf elm l1 := by
  intro hin
  simp only [dataOf, List.mem_map] at hin
  obtain ⟨a, ha, hd⟩ := hin
  apply h a ha
  simp [dataOf, hd]

/-- C27. In a memory whose list holds the elements `xs`, `target` among them, with
`malloc` returning the unused address `n`, `sllAddBefore` returns; the list then holds
the elements before the first occurrence of `target`, then `data`, then `target` and
what follows it: `data` sits immediately before the first occurrence of `target`
(also when that is the head) and the other elements keep their order. The
element count grows by one. -/
theorem C27_sllAddBefore_inserts (mem : Memory) (xs : List Nat) (fuel n target data : Nat)
    (hlist : toList mem.elm fuel mem.list.listHead = some xs) (htarget : target ∈ xs)
    (hfresh : mem.elm n = none) :
    ∃ mem' before after, sllAddBefore fuel mem (some n) target data = .ok mem' ∧
      xs = before ++ target :: after ∧ target ∉ before ∧
      toList mem'.elm (fuel + 1) mem'.list.listHead = some (before ++ data :: target :: after) ∧
      mem'.list.elementCount = mem.list.elementCount + 1 := by
  obtain ⟨as, hseg, hdata, hlen⟩ := toList_seg _ _ _ _ hlist
  have halloc := seg_alloc _ _ _ _ hseg
  have hn : ∀ a ∈ as, a ≠ n := by
    intro a ha hcontra
    obtain ⟨e, he⟩ := halloc a ha
    rw [hcontra, hfresh] at he
    cases he
  obtain ⟨l1, c, l2, hsplit, hc, hl1⟩ := first_occurrence mem.elm target as (hdata ▸ htarget)
  subst hsplit
  have hnodup := seg_nodup _ _ _ hseg
  -- the memory after the new element is initialised
  have hframe1 : ∀ a ∈ l1 ++ c :: l2,
      (mem.store n { data := data, next := none }).elm a = mem.elm a := by
    intro a ha
    simp [Memory.store, hn a ha]
  have hseg1 := seg_frame mem.elm (mem.store n { data := data, next := none }).elm _ _ _ hseg
    hframe1
  obtain ⟨r, hs1, hs2⟩ := (seg_append _ l1 (c :: l2) _ _).mp hseg1
  obtain ⟨hr, ec, hec, hs3⟩ := hs2
  subst hr
  have hcin : c ∈ l1 ++ c :: l2 := by simp
  have hec0 : mem.elm c = some ec := by rw [← hframe1 c hcin]; exact hec
  have hect : ec.data = target := by
    simpa [dataOf, hec0] using hc
  have hwalk := walk_seg (mem.store n { data := data, next := none }).elm
    (fun e => decide (e.data = target)) c ec hec (by simp [hect]) l1 fuel none
    mem.list.listHead hs1
    (by
      intro a ha e he
      have hmem : a ∈ l1 ++ c :: l2 := by simp [ha]
      rw [hframe1 a hmem] at he
      have := hl1 a ha
      simp only [dataOf, List.map_cons, List.map_nil, he] at this
      simpa using this)
    (by simp at hlen; omega)
  have hxs : xs = dataOf mem.elm l1 ++ target :: dataOf mem.elm l2 := by
    rw [← hdata, dataOf_append]
    have : dataOf mem.elm (c :: l2) = target :: dataOf mem.elm l2 := by
      simp [dataOf, hec0, hect]
    rw [this]
  rcases List.eq_nil_or_concat l1 with hnil | ⟨l0, p, hcat⟩
  · -- the target is the head
    subst hnil
    have hhead : mem.list.listHead = some c := hs1
    have hrun : ∃ M, sllAddBefore fuel mem (some n) target data = .ok M ∧
        M.elm = ((mem.store n { data := data, next := none }).store n
          { data := data, next := mem.list.listHead }).elm ∧
        M.list = { elementCount := mem.list.elementCount + 1, listHead := some n } := by
      simp only [sllAddBefore]
      rw [show (mem.store n { data := data, next := none }).list.listHead = mem.list.listHead
        from rfl, hwalk]
      exact ⟨_, rfl, rfl, rfl⟩
    obtain ⟨M, hM, hMelm, hMlist⟩ := hrun
    refine ⟨M, [], dataOf mem.elm l2, hM, by simpa using hxs, by simp, ?_, by rw [hMlist]⟩
    have hfr : ∀ a ∈ c :: l2, M.elm a = mem.elm a := by
      intro a ha
      rw [hMelm]
      simp [Memory.store, hn a (by simpa using ha)]
    have hseg' : Seg M.elm (some n) (n :: c :: l2) none := by
      refine ⟨rfl, { data := data, next := mem.list.listHead }, by rw [hMelm]; simp [Memory.store],
        ?_⟩
      rw [hhead]
      exact seg_frame mem.elm _ _ _ _ (by simpa [hhead] using hseg) hfr
    have := seg_toList _ _ (fuel + 1) _ hseg' (by simp at hlen ⊢; omega)
    rw [hMlist, this]
    have hd : dataOf M.elm (n :: c :: l2) = data :: target :: dataOf mem.elm l2 := by
      have h1 : dataOf M.elm (n :: c :: l2) = dataOf M.elm [n] ++ dataOf M.elm (c :: l2) := rfl
      rw [h1, dataOf_frame mem.elm M.elm (c :: l2) hfr]
      simp [dataOf, hMelm, Memory.store, hec0, hect]
    rw [hd]
    rfl
  · -- the target is behind the element at `p`
    rw [List.concat_eq_append] at hcat
    subst hcat
    have hlast : (l0 ++ [p]).getLast? = some p := by simp
    rw [hlast] at hwalk
    have hpin : p ∈ (l0 ++ [p]) ++ c :: l2 := by simp
    have hpn : p ≠ n := hn p hpin
    have hseg0 : Seg mem.elm mem.list.listHead (l0 ++ p :: c :: l2) none := by
      simpa using hseg
    obtain ⟨r, hsA, hsB⟩ := (seg_append _ l0 (p :: c :: l2) _ _).mp hseg0
    obtain ⟨hr, pe, hpe, hsC⟩ := hsB
    subst hr
    have hnd : (l0 ++ p :: c :: l2).Nodup := by simpa using hnodup
    have hp0 : p ∉ l0 := by
      intro hin
      have := (List.nodup_append.mp hnd).2.2
      exact this hin (List.mem_cons_self _ _)
    have hp2 : p ∉ c :: l2 := by
      have := (List.nodup_append.mp hnd).2.1
      exact (List.nodup_cons.mp this).1
    have hrun : ∃ M, sllAddBefore fuel mem (some n) target data = .ok M ∧
        M.elm = (((mem.store n { data := data, next := none }).store n
          { data := data, next := some c }).store p { pe with next := some n }).elm ∧
        M.list = { elementCount := mem.list.elementCount + 1,
                   listHead := mem.list.listHead } := by
      simp only [sllAddBefore]
      rw [show (mem.store n { data := data, next := none }).list.listHead = mem.list.listHead
        from rfl, hwalk]
      have hload : ((mem.store n { data := data, next := none }).store n
          { data := data, next := some c }).load (some p) = .ok pe := by
        simp [Memory.load, Memory.store, hpn, hpe]
      simp only [hload]
      exact ⟨_, rfl, rfl, rfl⟩
    obtain ⟨M, hM, hMelm, hMlist⟩ := hrun
    have hMp : M.elm p = some { pe with next := some n } := by
      rw [hMelm]; simp [Memory.store]
    have hMn : M.elm n = some { data := data, next := some c } := by
      rw [hMelm]; simp [Memory.store, Ne.symm hpn]
    have hMo : ∀ a, a ≠ p → a ≠ n → M.elm a = mem.elm a := by
      intro a h1 h2
      rw [hMelm]; simp [Memory.store, h1, h2]
    have hfr0 : ∀ a ∈ l0, M.elm a = mem.elm a := fun a ha =>
      hMo a (fun h => hp0 (h ▸ ha)) (hn a (by simp [ha]))
    have hfr2 : ∀ a ∈ c :: l2, M.elm a = mem.elm a := fun a ha =>
      hMo a (fun h => hp2 (h ▸ ha)) (hn a (by
        rcases List.mem_cons.mp ha with h | h
        · simp [h]
        · simp [h]))
    have hsC' : Seg mem.elm (some c) (c :: l2) none := by
      obtain ⟨hnext, e, he, hs⟩ := hsC
      exact ⟨rfl, e, he, hs⟩
    have hsegM : Seg M.elm mem.list.listHead (l0 ++ p :: n :: c :: l2) none := by
      apply (seg_append _ l0 (p :: n :: c :: l2) _ _).mpr
      refine ⟨some p, seg_frame mem.elm M.elm _ _ _ hsA hfr0, rfl, _, hMp, rfl, _, hMn, ?_⟩
      exact seg_frame mem.elm M.elm _ _ _ hsC' hfr2
    have htl := seg_toList _ _ (fuel + 1) _ hsegM (by simp at hlen ⊢; omega)
    refine ⟨M, dataOf mem.elm (l0 ++ [p]), dataOf mem.elm l2, hM, hxs,
      not_mem_dataOf mem.elm target _ hl1, ?_, by rw [hMlist]⟩
    rw [hMlist, htl]
    have hd : dataOf M.elm (l0 ++ p :: n :: c :: l2) =
        dataOf mem.elm (l0 ++ [p]) ++ data :: target :: dataOf mem.elm l2 := by
      rw [dataOf_append, dataOf_append, dataOf_frame mem.elm M.elm l0 hfr0]
      have h1 : dataOf M.elm (p :: n :: c :: l2) =
          dataOf M.elm [p] ++ (dataOf M.elm [n] ++ dataOf M.elm (c :: l2)) := rfl
      rw [h1, dataOf_frame mem.elm M.elm (c :: l2) hfr2]
      simp [dataOf, hMp, hMn, hpe, hec0, hect]
    rw [hd]

/-- C27 at the list 1, 2 with `target` 2 and `data` 7, and with `target` at the head. -/
theorem C27_sllAddBefore_inserts_witness :
    toList twoElements.elm 2 twoElements.list.listHead = some [1, 2] ∧ 2 ∈ [1, 2] ∧
      twoElements.elm 30 = none ∧
      (∃ mem' before after, sllAddBefore 2 twoElements (some 30) 2 7 = .ok mem' ∧
        [1, 2] = before ++ 2 :: after ∧ 2 ∉ before ∧
        toList mem'.elm (2 + 1) mem'.list.listHead = some (before ++ 7 :: 2 :: after) ∧
        mem'.list.elementCount = twoElements.list.elementCount + 1) ∧
      (returned (sllAddBefore 2 twoElements (some 30) 2 7)).map
        (fun m => (toList m.elm 3 m.list.listHead, m.list.elementCount)) =
        some (some [1, 7, 2], 3) ∧
      (returned (sllAddBefore 2 twoElements (some 30) 1 7)).map
        (fun m => (toList m.elm 3 m.list.listHead, m.list.elementCount)) =
        some (some [7, 1, 2], 3) :=
  ⟨by decide, by decide, by decide,
    C27_sllAddBefore_inserts twoElements [1, 2] 2 30 2 7 (by decide) (by decide) (by decide),
    by decide, by decide⟩

/-- C36, at the failing input. The call sequence `threeElements` leaves the list
4, 2, 5 with `elementCount` 3, as the claim says. After `sllRemove` of the element 4,
the head, no element is reachable from `listHead` but `elementCount` is 2: `sllSize`
returns 2 and `sllIsEmpty` returns 0 for a list in which no element is stored.
In every memory in which `target` is the data of the head element, `sllRemove`
leaves `listHead` at `NULL` and lowers `elementCount` by one only. -/
theorem C36_elementCount_after_sllRemove_of_the_head :
    (returned threeElements).map
        (fun m => (toList m.elm 5 m.list.listHead, reachable 5 m, sllSize m, sllIsEmpty m)) =
        some (some [4, 2, 5], some 3, 3, 0) ∧
      (returned headRemoved).map
        (fun m => (toList m.elm 5 m.list.listHead, reachable 5 m, sllSize m, sllIsEmpty m)) =
        some (some [], some 0, 2, 0) ∧
      (∀ (fuel : Nat) (mem : Memory) (a target : Nat) (e : SllElm),
        mem.list.listHead = some a → mem.elm a = some e → e.data = target →
        ∃ mem', (returned (sllRemove fuel mem target)).map (fun r => r.2) = some mem' ∧
          reachable fuel mem' = some 0 ∧ sllSize mem' = sllSize mem - 1) := by
  refine ⟨by decide, by decide, ?_⟩
  intro fuel mem a target e hhead he hdata
  have hwalk : walk mem.elm (fun e => decide (e.data = target)) fuel none mem.list.listHead =
      .ok (none, some a) := by
    rw [hhead]
    unfold walk
    simp [he, hdata]
  simp only [sllRemove, hwalk, Memory.free, he]
  refine ⟨_, rfl, ?_, rfl⟩
  cases fuel <;> rfl

end SLL

/-! ## Theorems on `map.c` -/

namespace Map

theorem bits_lt (x : Int) : bits x < 2 ^ 32 := by
  unfold bits
  omega

theorem bits_int (n : Nat) : bits (int n) = n % 2 ^ 32 := by
  unfold bits int
  split_ifs <;> omega

theorem int_bits (x : Int) (h : isInt x) : int (bits x) = x := by
  unfold isInt at h
  unfold bits int
  split_ifs <;> omega

theorem isInt_int (n : Nat) : isInt (int n) := by
  unfold isInt int
  split_ifs <;> omega

theorem bits_byte (n : Nat) (h : n < 256) : bits (n : Int) = n := by
  unfold bits
  omega

/-- The byte `k` of an `int`, taken as the code does: shifted to the right, the rest
masked off. -/
theorem band_sar (value : Int) (k : Nat) (hk : k = 0 ∨ k = 8 ∨ k = 16 ∨ k = 24) :
    band (sar value k) 0xFF = ((bits value / 2 ^ k % 256 : Nat) : Int) := by
  have h255 : bits 0xFF = 2 ^ 8 - 1 := by decide
  have hb : bits (value >>> k) % 2 ^ 8 = bits value / 2 ^ k % 256 := by
    rw [Int.shiftRight_eq_div_pow]
    unfold bits
    rcases hk with rfl | rfl | rfl | rfl <;> norm_num <;> omega
  unfold band sar
  rw [h255, Nat.and_pow_two_sub_one_eq_mod, hb]
  unfold int
  have : bits value / 2 ^ k % 256 < 256 := Nat.mod_lt _ (by decide)
  split_ifs <;> omega

theorem or_bytes (a b c d : Nat) (hb : b < 256) (hc : c < 256) (hd : d < 256) :
    ((a * 2 ^ 24 ||| b * 2 ^ 16) ||| c * 2 ^ 8) ||| d =
      a * 2 ^ 24 + b * 2 ^ 16 + c * 2 ^ 8 + d := by
  have e1 : a * 2 ^ 24 + b * 2 ^ 16 = 2 ^ 16 * (a * 2 ^ 8 + b) := by ring
  have e2 : 2 ^ 16 * (a * 2 ^ 8 + b) + c * 2 ^ 8 = 2 ^ 8 * (a * 2 ^ 16 + b * 2 ^ 8 + c) := by
    ring
  have s1 : a * 2 ^ 24 ||| b * 2 ^ 16 = a * 2 ^ 24 + b * 2 ^ 16 := by
    have := Nat.mul_add_lt_is_or (show b * 2 ^ 16 < 2 ^ 24 by omega) a
    rw [Nat.mul_comm (2 ^ 24) a] at this
    exact this.symm
  have s2 : 2 ^ 16 * (a * 2 ^ 8 + b) ||| c * 2 ^ 8 = 2 ^ 16 * (a * 2 ^ 8 + b) + c * 2 ^ 8 :=
    (Nat.mul_add_lt_is_or (show c * 2 ^ 8 < 2 ^ 16 by omega) _).symm
  have s3 : 2 ^ 8 * (a * 2 ^ 16 + b * 2 ^ 8 + c) ||| d = 2 ^ 8 * (a * 2 ^ 16 + b * 2 ^ 8 + c) + d :=
    (Nat.mul_add_lt_is_or (show d < 2 ^ 8 by omega) _).symm
  rw [s1, e1, s2, e2, s3]

/-- The body of the loop reverses the four bytes of the pattern. -/
theorem actualValue_eq (value : Int) : actualValue value = int (reverseBytes (bits value)) := by
  have m0 : bits value % 256 < 256 := Nat.mod_lt _ (by decide)
  have m1 : bits value / 2 ^ 8 % 256 < 256 := Nat.mod_lt _ (by decide)
  have m2 : bits value / 2 ^ 16 % 256 < 256 := Nat.mod_lt _ (by decide)
  have m3 : bits value / 2 ^ 24 % 256 < 256 := Nat.mod_lt _ (by decide)
  have h0 : band value 0xFF = ((bits value % 256 : Nat) : Int) := by
    have z : sar value 0 = value := by
      unfold sar
      rw [Int.shiftRight_eq_div_pow]
      simp
    have := band_sar value 0 (Or.inl rfl)
    rw [z] at this
    simpa using this
  unfold actualValue
  simp only [h0, band_sar value 8 (by decide), band_sar value 16 (by decide),
    band_sar value 24 (by decide)]
  unfold bor shl
  simp only [bits_int, bits_byte _ m0, bits_byte _ m1, bits_byte _ m2, bits_byte _ m3,
    Nat.shiftLeft_eq]
  have w0 : bits value % 256 * 2 ^ 24 % 2 ^ 32 = bits value % 256 * 2 ^ 24 := by omega
  have w1 : bits value / 2 ^ 8 % 256 * 2 ^ 16 % 2 ^ 32 = bits value / 2 ^ 8 % 256 * 2 ^ 16 := by
    omega
  have w2 : bits value / 2 ^ 16 % 256 * 2 ^ 8 % 2 ^ 32 = bits value / 2 ^ 16 % 256 * 2 ^ 8 := by
    omega
  rw [w0, w1, w2]
  have o1 : (bits value % 256 * 2 ^ 24 ||| bits value / 2 ^ 8 % 256 * 2 ^ 16) % 2 ^ 32 =
      bits value % 256 * 2 ^ 24 ||| bits value / 2 ^ 8 % 256 * 2 ^ 16 :=
    Nat.mod_eq_of_lt (Nat.or_lt_two_pow (by omega) (by omega))
  rw [o1]
  have o2 : ((bits value % 256 * 2 ^ 24 ||| bits value / 2 ^ 8 % 256 * 2 ^ 16) |||
      bits value / 2 ^ 16 % 256 * 2 ^ 8) % 2 ^ 32 =
      (bits value % 256 * 2 ^ 24 ||| bits value / 2 ^ 8 % 256 * 2 ^ 16) |||
        bits value / 2 ^ 16 % 256 * 2 ^ 8 :=
    Nat.mod_eq_of_lt (Nat.or_lt_two_pow (Nat.or_lt_two_pow (by omega) (by omega)) (by omega))
  rw [o2, or_bytes _ _ _ _ m1 m2 m3]
  rfl

theorem reverseBytes_lt (n : Nat) : reverseBytes n < 2 ^ 32 := by
  unfold reverseBytes
  omega

theorem reverseBytes_bytes (a b c d : Nat) (ha : a < 256) (hb : b < 256) (hc : c < 256)
    (hd : d < 256) :
    reverseBytes (a + 256 * b + 65536 * c + 16777216 * d) =
      d + 256 * c + 65536 * b + 16777216 * a := by
  unfold reverseBytes
  omega

theorem reverseBytes_reverseBytes (n : Nat) (h : n < 2 ^ 32) :
    reverseBytes (reverseBytes n) = n := by
  have hn : n = n % 256 + 256 * (n / 2 ^ 8 % 256) + 65536 * (n / 2 ^ 16 % 256) +
      16777216 * (n / 2 ^ 24 % 256) := by omega
  have m0 : n % 256 < 256 := Nat.mod_lt _ (by decide)
  have m1 : n / 2 ^ 8 % 256 < 256 := Nat.mod_lt _ (by decide)
  have m2 : n / 2 ^ 16 % 256 < 256 := Nat.mod_lt _ (by decide)
  have m3 : n / 2 ^ 24 % 256 < 256 := Nat.mod_lt _ (by decide)
  generalize n % 256 = a at hn m0
  generalize n / 2 ^ 8 % 256 = b at hn m1
  generalize n / 2 ^ 16 % 256 = c at hn m2
  generalize n / 2 ^ 24 % 256 = d at hn m3
  rw [hn, reverseBytes_bytes a b c d m0 m1 m2 m3, reverseBytes_bytes d c b a m3 m2 m1 m0]

/-- The loop of `convertLittleEndian` after `n` turns: the first `n` elements replaced,
the others as they were. -/
theorem forLoop_convert (data : Nat → Int) (n i : Nat) :
    TGA.forLoop n (fun i data => fun j => if j = i then actualValue (data i) else data j) data i =
      if i < n then actualValue (data i) else data i := by
  induction n with
  | zero => simp [TGA.forLoop_zero]
  | succ n ih =>
    rw [TGA.forLoop_succ]
    by_cases h : i = n
    · subst h
      have hn : ¬ i < i := Nat.lt_irrefl _
      simp only [if_true, Nat.lt_succ_self]
      rw [ih, if_neg hn]
    · simp only [if_neg h]
      rw [ih]
      by_cases h2 : i < n
      · rw [if_pos h2, if_pos (Nat.lt_succ_of_lt h2)]
      · rw [if_neg h2, if_neg (fun hlt => h (Nat.eq_of_lt_succ_of_not_lt hlt h2))]

/-- C28. `convertLittleEndian` replaces each of the first `size` elements of the array by
the `int` whose 32-bit pattern is the pattern of the element with its four bytes
in reverse order (the pattern is the element modulo 2^32, for a negative
element too) and leaves the other elements alone; on an array of `int` values,
applying it twice gives back the array. -/
theorem C28_convertLittleEndian_reverses_bytes (data : Nat → Int) (size : Int) :
    (∀ i : Nat, (i : Int) < size →
        convertLittleEndian data size i = int (reverseBytes (bits (data i))) ∧
        bits (convertLittleEndian data size i) = reverseBytes (bits (data i)) ∧
        isInt (convertLittleEndian data size i)) ∧
      (∀ i : Nat, size ≤ (i : Int) → convertLittleEndian data size i = data i) ∧
      ((∀ i : Nat, (i : Int) < size → isInt (data i)) →
        convertLittleEndian (convertLittleEndian data size) size = data) := by
  have hget : ∀ (d : Nat → Int) (i : Nat), convertLittleEndian d size i =
      if i < size.toNat then actualValue (d i) else d i := fun d i => forLoop_convert d _ i
  refine ⟨?_, ?_, ?_⟩
  · intro i hi
    have h : i < size.toNat := by omega
    rw [hget, if_pos h, actualValue_eq]
    exact ⟨rfl, by rw [bits_int, Nat.mod_eq_of_lt (reverseBytes_lt _)], isInt_int _⟩
  · intro i hi
    have h : ¬ i < size.toNat := by omega
    rw [hget, if_neg h]
  · intro hint
    funext i
    rw [hget]
    by_cases h : i < size.toNat
    · rw [if_pos h, hget, if_pos h, actualValue_eq, actualValue_eq, bits_int,
        Nat.mod_eq_of_lt (reverseBytes_lt _), reverseBytes_reverseBytes _ (bits_lt _),
        int_bits _ (hint i (by omega))]
    · rw [if_neg h, hget, if_neg h]

/-- C28 at the array 1, -2, 0x12345678: the elements become 0x01000000,
-16777217 (the pattern 0xFEFFFFFF) and 0x78563412, and a second call gives back
the array. -/
theorem C28_convertLittleEndian_reverses_bytes_witness :
    (∀ i : Nat, (i : Int) < 3 → isInt (sample i)) ∧
      (List.range 4).map (convertLittleEndian sample 3) = [0x01000000, -16777217, 0x78563412, 0] ∧
      convertLittleEndian (convertLittleEndian sample 3) 3 = sample :=
  ⟨fun i hi => by
      have h : i < 3 := by omega
      interval_cases i <;> decide,
    by decide,
    (C28_convertLittleEndian_reverses_bytes sample 3).2.2 (fun i hi => by
      have h : i < 3 := by omega
      interval_cases i <;> decide)⟩

end Map

/-! ## Theorems on `math3d.c` -/

namespace Math3d

/-- The loop of `m3dIsPOW2` entered with `nPow2 = 2 ^ i`: it ends at the first power of
two from `2 ^ i` on that is not below `iValue`. -/
theorem pow2_loop (iValue : Nat) (h2 : iValue ≤ 2 ^ 31) :
    ∀ (fuel i : Nat), i ≤ 31 → 31 - i ≤ fuel →
      ∃ k, i ≤ k ∧ k ≤ 31 ∧
        TGA.whileLoop fuel (fun nPow2 => decide (iValue > nPow2))
          (fun nPow2 => uint (nPow2 <<< 1)) (2 ^ i) = some (2 ^ k) ∧
        iValue ≤ 2 ^ k ∧ ∀ j, i ≤ j → j < k → 2 ^ j < iValue := by
  intro fuel
  induction fuel with
  | zero =>
    intro i hi hf
    have h31 : i = 31 := by omega
    subst h31
    refine ⟨31, Nat.le_refl _, Nat.le_refl _, ?_, h2, fun j h1 h2 => by omega⟩
    exact TGA.whileLoop_false _ _ _ _ (by simpa using h2)
  | succ fuel ih =>
    intro i hi hf
    by_cases hc : iValue ≤ 2 ^ i
    · exact ⟨i, Nat.le_refl _, hi, TGA.whileLoop_false _ _ _ _ (by simpa using hc), hc,
        fun j h1 h2 => by omega⟩
    · have hlt : 2 ^ i < iValue := by omega
      have hi' : i < 31 := by
        by_contra hge
        have : i = 31 := by omega
        subst this
        omega
      rw [TGA.whileLoop_true _ _ _ _ (by simpa using hlt)]
      have hb : uint (2 ^ i <<< 1) = 2 ^ (i + 1) := by
        rw [uint, Nat.shiftLeft_eq, ← Nat.pow_succ]
        apply Nat.mod_eq_of_lt
        exact Nat.pow_lt_pow_right (by decide) (by omega)
      simp only [hb]
      obtain ⟨k, k1, k2, k3, k4, k5⟩ := ih (i + 1) (by omega) (by omega)
      refine ⟨k, by omega, k2, k3, k4, ?_⟩
      intro j j1 j2
      by_cases hj : j = i
      · rw [hj]; exact hlt
      · exact k5 j (by omega) j2

/-- C29. For `iValue <= 2^31`, so for `1 <= iValue <= 2^31`, and a loop allowed its 32 tests,
`m3dIsPOW2` returns a power of two `2 ^ k` that is not below `iValue` while every smaller
power of two is: the smallest power of two that is at least `iValue`, and `iValue`
itself when that is a power of two. -/
theorem C29_m3dIsPOW2_next_power (iValue fuel : Nat) (h2 : iValue ≤ 2 ^ 31)
    (hf : 31 ≤ fuel) :
    ∃ k, k ≤ 31 ∧ m3dIsPOW2 fuel iValue = some (2 ^ k) ∧ iValue ≤ 2 ^ k ∧
      (∀ j, j < k → 2 ^ j < iValue) ∧
      (∀ j, iValue ≤ 2 ^ j → 2 ^ k ≤ 2 ^ j) ∧
      (∀ j, iValue = 2 ^ j → m3dIsPOW2 fuel iValue = some iValue) := by
  obtain ⟨k, _, k2, k3, k4, k5⟩ := pow2_loop iValue h2 fuel 0 (by omega) (by omega)
  have hmin : ∀ j, iValue ≤ 2 ^ j → 2 ^ k ≤ 2 ^ j := by
    intro j hj
    apply Nat.pow_le_pow_right (by decide)
    by_contra hlt
    have := k5 j (Nat.zero_le _) (by omega)
    omega
  refine ⟨k, k2, k3, k4, fun j hj => k5 j (Nat.zero_le _) hj, hmin, ?_⟩
  intro j hj
  have : 2 ^ k = iValue := by
    have := hmin j (by omega)
    omega
  rw [show m3dIsPOW2 fuel iValue = some (2 ^ k) from k3, this]

/-- C29 at the values 5 and 8. -/
theorem C29_m3dIsPOW2_next_power_witness :
    5 ≤ 2 ^ 31 ∧ 31 ≤ 31 ∧
      (∃ k, k ≤ 31 ∧ m3dIsPOW2 31 5 = some (2 ^ k) ∧ 5 ≤ 2 ^ k ∧
        (∀ j, j < k → 2 ^ j < 5) ∧
        (∀ j, 5 ≤ 2 ^ j → 2 ^ k ≤ 2 ^ j) ∧
        (∀ j, 5 = 2 ^ j → m3dIsPOW2 31 5 = some 5)) ∧
      m3dIsPOW2 31 5 = some 8 ∧ m3dIsPOW2 31 8 = some 8 :=
  ⟨by decide, by decide,
    C29_m3dIsPOW2_next_power 5 31 (by decide) (by decide), by decide, by decide⟩

/-- With `nPow2` at 0 the loop of `m3dIsPOW2` never ends for an `iValue` above 0. -/
theorem loop_at_zero (iValue : Nat) (h : 0 < iValue) (fuel : Nat) :
    TGA.whileLoop fuel (fun nPow2 => decide (iValue > nPow2)) (fun nPow2 => uint (nPow2 <<< 1))
      0 = none := by
  induction fuel with
  | zero => simp [TGA.whileLoop, h]
  | succ fuel ih =>
    rw [TGA.whileLoop_true _ _ _ _ (by simpa using h)]
    exact ih

/-- For an `iValue` above `2^31` the loop of `m3dIsPOW2` entered with `nPow2 = 2 ^ i` never
ends: `nPow2` runs through the powers of two up to `2^31`, wraps to 0 and stays there. -/
theorem loop_above (iValue : Nat) (h : 2 ^ 31 < iValue) :
    ∀ (fuel i : Nat), i ≤ 31 →
      TGA.whileLoop fuel (fun nPow2 => decide (iValue > nPow2))
        (fun nPow2 => uint (nPow2 <<< 1)) (2 ^ i) = none := by
  intro fuel
  induction fuel with
  | zero =>
    intro i hi
    have hlt : 2 ^ i < iValue :=
      lt_of_le_of_lt (Nat.pow_le_pow_right (by decide) hi) h
    simp [TGA.whileLoop, hlt]
  | succ fuel ih =>
    intro i hi
    have hlt : 2 ^ i < iValue :=
      lt_of_le_of_lt (Nat.pow_le_pow_right (by decide) hi) h
    rw [TGA.whileLoop_true _ _ _ _ (by simpa using hlt)]
    by_cases h31 : i = 31
    · subst h31
      have hz : uint (2 ^ 31 <<< 1) = 0 := by decide
      simp only [hz]
      exact loop_at_zero iValue (by omega) fuel
    · have hb : uint (2 ^ i <<< 1) = 2 ^ (i + 1) := by
        rw [uint, Nat.shiftLeft_eq, ← Nat.pow_succ]
        apply Nat.mod_eq_of_lt
        exact Nat.pow_lt_pow_right (by decide) (by omega)
      simp only [hb]
      exact ih (i + 1) (by omega)

/-- C37, at the failing input. For `iValue = 2^31 + 1` the loop of `m3dIsPOW2` does not end,
however many tests it is allowed: `nPow2` reaches `2^31`, `nPow2 << 1` wraps to 0, and
`iValue > 0` holds from then on. The same for every `iValue` above `2^31`. -/
theorem C37_m3dIsPOW2_loops_above_2_31 :
    (∀ fuel : Nat, m3dIsPOW2 fuel (2 ^ 31 + 1) = none) ∧
      uint (2 ^ 31 <<< 1) = 0 ∧ uint (0 <<< 1) = 0 ∧
      (∀ iValue fuel : Nat, 2 ^ 31 < iValue → m3dIsPOW2 fuel iValue = none) := by
  have hgen : ∀ iValue fuel : Nat, 2 ^ 31 < iValue → m3dIsPOW2 fuel iValue = none :=
    fun iValue fuel h => loop_above iValue h fuel 0 (by decide)
  exact ⟨fun fuel => hgen _ fuel (by decide), by decide, by decide, hgen⟩

theorem memcpy_get {α : Type} (dst : Nat → α) (d : Nat) (src : Nat → α) (s n i : Nat) :
    memcpy dst d src s n i = if d ≤ i ∧ i < d + n then src (s + (i - d)) else dst i := rfl

/-- C31, at the failing input. For the 3-by-3 matrix `src` with `src[i] = i` (and 9, 10, 11
in the memory behind it) `m3dInjectRotation44f` leaves `dst[4] = src[4]`, not `src[3]`, and
`m3dExtractRotation33f` of the result is `0 1 2 4 5 6 8 9 10`, not `src`. On every input
`m3dInjectRotation44f` sets `dst[i] = src[i]` for `i < 12`: it reads `src[9]`, `src[10]` and
`src[11]`, which are not part of a 3-by-3 matrix, and two sources with the same
nine elements give different results. -/
theorem C31_m3dInjectRotation44f_copies_with_stride_4 :
    m3dInjectRotation44f (fun _ => 0) (fun i => i) (4 * 1 + 0) = 4 ∧
      (fun i : Nat => i) (3 * 1 + 0) = 3 ∧
      (List.range 9).map
        (m3dExtractRotation33f (fun _ => 0) (m3dInjectRotation44f (fun _ => 0) (fun i => i))) =
        [0, 1, 2, 4, 5, 6, 8, 9, 10] ∧
      (∀ (α : Type) (dst src : Nat → α) (i : Nat),
        m3dInjectRotation44f dst src i = if i < 12 then src i else dst i) ∧
      (∀ i, i < 9 → (fun j : Nat => if j < 9 then j else 0) i = (fun j : Nat => j) i) ∧
      m3dInjectRotation44f (fun _ => 0) (fun j : Nat => if j < 9 then j else 0) 9 ≠
        m3dInjectRotation44f (fun _ => 0) (fun j : Nat => j) 9 := by
  refine ⟨by decide, by decide, by decide, ?_, ?_, by decide⟩
  · intro α dst src i
    simp only [m3dInjectRotation44f, memcpy_get]
    by_cases h1 : i < 4
    · have e : 0 + (i - 0) = i := by omega
      rw [if_neg (by omega), if_neg (by omega), if_pos (by omega), if_pos (by omega), e]
    · by_cases h2 : i < 8
      · have e : 4 + (i - 4) = i := by omega
        rw [if_neg (by omega), if_pos (by omega), if_pos (by omega), e]
      · by_cases h3 : i < 12
        · have e : 8 + (i - 8) = i := by omega
          rw [if_pos (by omega), if_pos (by omega), e]
        · rw [if_neg (by omega), if_neg (by omega), if_neg (by omega), if_neg (by omega)]
  · intro i hi
    simp [hi]

end Math3d

/-! ## Theorems on `alg.c` -/

namespace Alg

/-- The inner loop of `algMatMultiply` in row `i`: the first `n` elements of the row
set, everything else as it was. -/
theorem forLoop_row (i n : Nat) (A : Nat → Nat → Rat) :
    TGA.forLoop n
        (fun j A => fun r c => if r = i ∧ c = j then (if i = j then 1 else 0) else A r c) A =
      fun r c => if r = i ∧ c < n then (if i = c then 1 else 0) else A r c := by
  induction n with
  | zero => simp [TGA.forLoop_zero]
  | succ n ih =>
    rw [TGA.forLoop_succ, ih]
    funext r c
    by_cases hr : r = i
    · by_cases hc : c = n
      · subst hr hc
        simp
      · by_cases hlt : c < n
        · simp [hr, hc, hlt, Nat.lt_succ_of_lt hlt]
        · have : ¬ c < n + 1 := fun h => hc (Nat.eq_of_lt_succ_of_not_lt h hlt)
          simp [hr, hc, hlt, this]
    · simp [hr]

/-- The loops of `algMatMultiply`: the first `n` elements of the first `m` rows set. -/
theorem forLoop_rows (m n : Nat) (A : Nat → Nat → Rat) :
    TGA.forLoop m
        (fun i A =>
          TGA.forLoop n
            (fun j A => fun r c => if r = i ∧ c = j then (if i = j then 1 else 0) else A r c)
            A) A =
      fun r c => if r < m ∧ c < n then (if r = c then 1 else 0) else A r c := by
  induction m with
  | zero => simp [TGA.forLoop_zero]
  | succ m ih =>
    rw [TGA.forLoop_succ, ih, forLoop_row]
    funext r c
    by_cases hr : r = m
    · subst hr
      by_cases hc : c < n
      · simp [hc]
      · simp [hc]
    · by_cases hlt : r < m
      · simp [hr, hlt, Nat.lt_succ_of_lt hlt]
      · have : ¬ r < m + 1 := fun h => hr (Nat.eq_of_lt_succ_of_not_lt h hlt)
        simp [hr, hlt, this]

/-- C30, at the failing input. For the 1-by-1 matrices `A = (2)`, `B = (3)` and `C = (5)`
the product is `(6)`, but `algMatMultiply` leaves 5 in `C` and stores 1 in `A`. On every
input it leaves `B` and `C` as they were and sets `A[i][j]`, for `i < m` and `j < n`, to 1
on the diagonal and to 0 elsewhere. -/
theorem C30_algMatMultiply_stores_no_product :
    product 1 (fun _ _ => 2) (fun _ _ => 3) 0 0 = 6 ∧
      (algMatMultiply 1 1 1 (fun _ _ => 2) (fun _ _ => 3) (fun _ _ => 5)).2.2 0 0 = 5 ∧
      (algMatMultiply 1 1 1 (fun _ _ => 2) (fun _ _ => 3) (fun _ _ => 5)).1 0 0 = 1 ∧
      (∀ (m l n : Int) (A B C : Nat → Nat → Rat),
        (algMatMultiply m l n A B C).2.2 = C ∧ (algMatMultiply m l n A B C).2.1 = B ∧
        ∀ i j : Nat, (algMatMultiply m l n A B C).1 i j =
          if (i : Int) < m ∧ (j : Int) < n then (if i = j then 1 else 0) else A i j) := by
  have hgen : ∀ (m l n : Int) (A B C : Nat → Nat → Rat),
      (algMatMultiply m l n A B C).2.2 = C ∧ (algMatMultiply m l n A B C).2.1 = B ∧
      ∀ i j : Nat, (algMatMultiply m l n A B C).1 i j =
        if (i : Int) < m ∧ (j : Int) < n then (if i = j then 1 else 0) else A i j := by
    intro m l n A B C
    refine ⟨rfl, rfl, ?_⟩
    intro i j
    show TGA.forLoop _ _ A i j = _
    rw [forLoop_rows]
    have e1 : (i < m.toNat) = ((i : Int) < m) := by
      apply propext; omega
    have e2 : (j < n.toNat) = ((j : Int) < n) := by
      apply propext; omega
    simp only [e1, e2]
  refine ⟨?_, rfl, ?_, hgen⟩
  · simp [product]
    norm_num
  · rw [(hgen 1 1 1 _ _ _).2.2 0 0]
    simp

